import Mathlib

/-!
# go-fil-markets: block verifier, traverser, state-machine definition, storage provider

A shallow embedding of the parts of the repository that the specification talks
about, followed by the theorems that settle them.

Conventions of the embedding.

* A Go string is a list of characters (`GoString`); the reserved prefixes and
  suffixes of the callback keys are ASCII, so prefix tests on characters and on
  bytes agree.
* A Go map that is only written with `m[k] = v` and read with `m[k]` is a
  function to `Option` (`GoMap`); a Go map that is ranged over is the list of
  its entries in the order of the iteration.
* The goroutine of the traverser is embedded by explicit state passing: the
  state of the traverser records where the walk is blocked, and an operation
  of the controller runs the walk up to its next send. The context is never
  cancelled (the test uses `context.Background()`), so only the channel cases
  of each `select` are taken.
* An operation that can block on a channel returns `Option`: `none` means that
  the call does not return, or that it leaves the protocol of one controller
  and one walk that the traverser is written for.
-/

namespace Markets

/-! ## retrievalmarket/impl/blockio : traverser.go, verify.go -/

namespace blockio

/-- A content identifier. -/
abbrev Cid := Nat

/-- The raw bytes of a block. -/
abbrev Data := List Nat

/-- A non-nil `ipld.Link`: the only implementation is `cidlink.Link`, a wrapped CID. -/
structure Link where
  Cid : Cid
  deriving DecidableEq, Repr

/-- The `ipld.LinkContext` handed to the loader. The root is loaded with the
zero value `ipld.LinkContext{}`; a link met during the walk is loaded with a
context whose `LinkNode` is the node holding that link. -/
structure LinkContext where
  LinkNode : Option Link
  deriving DecidableEq, Repr

/-- Errors of the package and of `retrievalmarket`. -/
inductive Error where
  | ErrVerification
  | cannotAdvanceWhenDone
  | contextCancelled
  deriving DecidableEq, Repr

/-- The `blocks.Block` interface: `Cid()` and `RawData()`. -/
structure Block where
  Cid : Cid
  RawData : Data
  deriving DecidableEq, Repr

/-- Go: `type state struct`, the message the walk sends on `stateChan`. -/
structure state where
  isDone : Bool
  currentLink : Option Link
  currentContext : LinkContext
  deriving DecidableEq, Repr

/-- Go: `type nextResponse struct`, the message the controller sends on `responses`. -/
structure nextResponse where
  input : Option Data
  err : Option Error
  deriving DecidableEq, Repr

/-- The goroutine started by `Start`. Between two sends on `stateChan` it is
blocked in the loader on `<-t.responses`, loading `lnk`; `rest` holds the
links the enclosing walk still has to load once the subtree of `lnk` is
finished (the continuation of the recursive walk). -/
inductive Walker where
  | notStarted
  | awaitingResponse (lnk : Link) (rest : List Link)
  | returned
  deriving DecidableEq, Repr

/-- Go: `type Traverser struct`. `awaitRequest` and `stateChan` are channels of
capacity one, so each holds at most one message; `responses` is unbuffered and
a send on it completes only with a walker blocked on the receive. -/
structure Traverser where
  root : Link
  currentLink : Option Link
  currentContext : LinkContext
  isDone : Bool
  awaitRequest : Bool
  stateChan : Option state
  walker : Walker
  deriving DecidableEq, Repr

/-- The decoder of the IPLD library, `cidlink.Link.Load` after the loader has
returned a reader: it decodes the bytes under the codec of the link, checks
them against the hash of the link, and yields the links of the decoded node in
the order in which the explore-all walk reaches them; `none` is a failed load. -/
abbrev Decoder := Link → Data → Option (List Link)

/-- Go: `NewTraverser`. -/
def NewTraverser (root : Link) : Traverser :=
  { root := root, currentLink := none, currentContext := ⟨none⟩, isDone := false,
    awaitRequest := false, stateChan := none, walker := Walker.notStarted }

/-- Go: `writeDone`; the message sent when the walk is over. -/
def doneState : state := ⟨true, none, ⟨none⟩⟩

/-- The walk between two loads. The links `todo` are still to be loaded, in
this order: the loader is called for the first of them, sends
`state{false, lnk, lnkCtx}` and blocks on `responses`; with nothing left,
`WalkAdv` returns and `writeDone` sends the final state. -/
def nextLoad : List Link → state × Walker
  | [] => (doneState, Walker.returned)
  | l :: rest => (⟨false, some l, ⟨some l⟩⟩, Walker.awaitingResponse l rest)

/-- The goroutine from the moment the loader receives `resp` for `lnk` until its
next send on `stateChan`. An error from the controller or a failed decode makes
`Load` (for the root) or `WalkAdv` fail, and `writeDone` follows; otherwise the
links of the decoded node are walked before the pending ones. -/
def resume (decode : Decoder) (lnk : Link) (rest : List Link) (resp : nextResponse) :
    state × Walker :=
  match resp.err with
  | some _ => (doneState, Walker.returned)
  | none =>
    match resp.input.bind (decode lnk) with
    | none => (doneState, Walker.returned)
    | some kids => nextLoad (kids ++ rest)

/-- A send on `t.responses` by the controller, under a context that is never
cancelled. It completes only when the walker is blocked on the receive; the
walker then runs up to its next send on `stateChan`. The controller sends a
response only after `checkState` has taken the previous state, so the channel
has room; a traverser with a state left in `stateChan` at this point is outside
the protocol and yields `none`. -/
def sendResponse (decode : Decoder) (t : Traverser) (resp : nextResponse) : Option Traverser :=
  match t.walker with
  | Walker.awaitingResponse lnk rest =>
    match t.stateChan with
    | none =>
      let r := resume decode lnk rest resp
      some { t with stateChan := some r.1, walker := r.2 }
    | some _ => none
  | _ => none

/-- Go: `checkState`, under a context that is never cancelled. Without a token
in `awaitRequest` the `default` case is taken; with one, the call takes the
token and blocks until the walk has sent its state. -/
def checkState (t : Traverser) : Option Traverser :=
  if t.awaitRequest then
    match t.stateChan with
    | some newState =>
      some { t with awaitRequest := false, stateChan := none,
                    isDone := newState.isDone,
                    currentLink := newState.currentLink,
                    currentContext := newState.currentContext }
    | none => none
  else some t

/-- Go: `Start`, under a context that is never cancelled: put a token in
`awaitRequest` (blocking while one is there), then start the goroutine, which
calls the loader for the root with `ipld.LinkContext{}`, sends the first state
and blocks on `responses`. One walk is started per traverser (`Verify` guards
the call with its nil check); a second `Start` yields `none`. -/
def Start (t : Traverser) : Option Traverser :=
  if t.awaitRequest then none
  else
    match t.walker, t.stateChan with
    | Walker.notStarted, none =>
      some { t with awaitRequest := true,
                    stateChan := some ⟨false, some t.root, ⟨none⟩⟩,
                    walker := Walker.awaitingResponse t.root [] }
    | _, _ => none

/-- Go: `IsComplete`. -/
def IsComplete (t : Traverser) : Option (Traverser × Bool) :=
  (checkState t).map fun t1 => (t1, t1.isDone)

/-- Go: `CurrentRequest`. -/
def CurrentRequest (t : Traverser) : Option (Traverser × Option Link × LinkContext) :=
  (checkState t).map fun t1 => (t1, t1.currentLink, t1.currentContext)

/-- Go: `Advance`, under a context that is never cancelled. -/
def Advance (decode : Decoder) (t : Traverser) (reader : Data) :
    Option (Traverser × Option Error) :=
  match IsComplete t with
  | none => none
  | some (t1, true) => some (t1, some Error.cannotAdvanceWhenDone)
  | some (t1, false) =>
    if t1.awaitRequest then none
    else
      match sendResponse decode { t1 with awaitRequest := true } ⟨some reader, none⟩ with
      | none => none
      | some t2 => some (t2, none)

/-- Go: `Error`, under a context that is never cancelled. -/
def Traverser.Error (decode : Decoder) (t : Traverser) (err : Error) : Option Traverser :=
  match IsComplete t with
  | none => none
  | some (t1, true) => some t1
  | some (t1, false) =>
    if t1.awaitRequest then none
    else sendResponse decode { t1 with awaitRequest := true } ⟨none, some err⟩

/-- Go: `type SelectorVerifier struct`; `traverser` is nil until the first `Verify`. -/
structure SelectorVerifier where
  root : Link
  traverser : Option Traverser
  deriving DecidableEq, Repr

/-- Go: `NewSelectorVerifier`. -/
def NewSelectorVerifier (root : Link) : SelectorVerifier := ⟨root, none⟩

/-- What a call of `Verify` does: it returns `(done, err)`, or the unchecked
type assertion `lnk.(cidlink.Link)` panics on a nil link. -/
inductive Outcome where
  | ret (done : Bool) (err : Option Error)
  | panicked
  deriving DecidableEq, Repr

/-- Go: `SelectorVerifier.Verify`, under a context that is never cancelled. -/
def Verify (decode : Decoder) (sv : SelectorVerifier) (blk : Block) :
    Option (SelectorVerifier × Outcome) :=
  let started : Option Traverser :=
    match sv.traverser with
    | none => Start (NewTraverser sv.root)
    | some t => some t
  match started with
  | none => none
  | some t0 =>
    match IsComplete t0 with
    | none => none
    | some (t1, true) =>
      some ({ sv with traverser := some t1 }, Outcome.ret false (some Error.ErrVerification))
    | some (t1, false) =>
      match CurrentRequest t1 with
      | none => none
      | some (t2, none, _) => some ({ sv with traverser := some t2 }, Outcome.panicked)
      | some (t2, some lnk, _) =>
        if lnk.Cid ≠ blk.Cid then
          match Traverser.Error decode t2 Error.ErrVerification with
          | none => none
          | some t3 =>
            some ({ sv with traverser := some t3 },
              Outcome.ret false (some Error.ErrVerification))
        else
          match Advance decode t2 blk.RawData with
          | none => none
          | some (t3, some err) =>
            some ({ sv with traverser := some t3 }, Outcome.ret false (some err))
          | some (t3, none) =>
            match IsComplete t3 with
            | none => none
            | some (t4, done) =>
              some ({ sv with traverser := some t4 }, Outcome.ret done none)

/-- Successive calls of `Verify` on one verifier, as `checkVerifySequence` of
the test makes them; the outcomes are listed in the order of the calls. -/
def VerifySeq (decode : Decoder) :
    SelectorVerifier → List Block → Option (SelectorVerifier × List Outcome)
  | sv, [] => some (sv, [])
  | sv, b :: bs =>
    match Verify decode sv b with
    | none => none
    | some (sv1, o) =>
      match VerifySeq decode sv1 bs with
      | none => none
      | some (sv2, os) => some (sv2, o :: os)

/-- The walk of the links of one node, left to right: each link is walked with
`f` (its whole subtree), and the loads are concatenated. -/
def walkLinks (f : Link → Option (List Link)) : List Link → Option (List Link)
  | [] => some []
  | k :: ks => (f k).bind fun a => (walkLinks f ks).map fun b => a ++ b

/-- The explore-all-recursive walk of the IPLD library over a block store
`bs` (the loader of `makeLoader` in the test utilities: look the block up,
hand its bytes over): load the link, then walk the links of the decoded node
one after the other, each with its whole subtree, so a subtree that is reached
twice is loaded twice. The result lists the links in the order of loading;
`none` is a walk that fails (a missing block, a failed decode) or does not end
within `fuel` levels. -/
def walkOrder (decode : Decoder) (bs : Link → Option Data) : Nat → Link → Option (List Link)
  | 0, _ => none
  | fuel + 1, l =>
    (bs l).bind fun d =>
      (decode l d).bind fun kids =>
        (walkLinks (walkOrder decode bs fuel) kids).map fun sub => l :: sub

/-- The blocks of the links `ls` in the store `bs`. -/
def blocksOf (bs : Link → Option Data) (ls : List Link) : List Block :=
  ls.filterMap fun l => (bs l).map fun d => ⟨l.Cid, d⟩

/-! ### The IPLD tree of the test (`shared_testutil.NewTestIPLDTree`) -/

/-- Links of the test tree: root 0, leaf alpha 1, leaf beta 2, middle map 3, middle list 4. -/
def testStore : Link → Option Data
  | ⟨0⟩ => some [1, 3, 4]
  | ⟨1⟩ => some []
  | ⟨2⟩ => some []
  | ⟨3⟩ => some [1]
  | ⟨4⟩ => some [1, 1, 2, 1]
  | _ => none

/-- A decoder for the test store: the bytes of a block list its links. -/
def testDecode : Decoder := fun _ d => some (d.map Link.mk)

/-- The verifier `sv` is waiting for the block of `l`: it is fresh and `l` is
its root, or its traverser has taken the request for `l` from the walk, which
is blocked on `responses` with `rest` still to load after the subtree of `l`. -/
def Expecting (sv : SelectorVerifier) (l : Link) (rest : List Link) : Prop :=
  (sv.traverser = none ∧ l = sv.root ∧ rest = []) ∨
  ∃ t, sv.traverser = some t ∧ t.isDone = false ∧ t.awaitRequest = false ∧
    t.stateChan = none ∧ t.currentLink = some l ∧ t.walker = Walker.awaitingResponse l rest

/-- The traversal of the verifier `sv` is over: its traverser has seen the
final state, or the final state is waiting in `stateChan` behind a token. -/
def Closed (sv : SelectorVerifier) : Prop :=
  ∃ t, sv.traverser = some t ∧
    ((t.isDone = true ∧ t.awaitRequest = false) ∨
     (t.awaitRequest = true ∧ ∃ s, t.stateChan = some s ∧ s.isDone = true))

/-- The walk over the store `bs` as a work list: `Loads decode bs todo ls` says
that walking the links `todo`, each with its subtree, loads exactly `ls`. -/
inductive Loads (decode : Decoder) (bs : Link → Option Data) : List Link → List Link → Prop where
  | done : Loads decode bs [] []
  | load (l : Link) (rest : List Link) (d : Data) (kids ls : List Link) :
      bs l = some d → decode l d = some kids → Loads decode bs (kids ++ rest) ls →
      Loads decode bs (l :: rest) (l :: ls)

/-- The operations of a controller on a traverser. -/
inductive Op where
  | Start
  | IsComplete
  | CurrentRequest
  | Advance (reader : Data)
  | Error (err : Error)
  deriving DecidableEq, Repr

/-- One operation of the controller; the traverser after it. -/
def applyOp (decode : Decoder) (t : Traverser) : Op → Option Traverser
  | Op.Start => Start t
  | Op.IsComplete => (IsComplete t).map fun r => r.1
  | Op.CurrentRequest => (CurrentRequest t).map fun r => r.1
  | Op.Advance reader => (Advance decode t reader).map fun r => r.1
  | Op.Error err => Traverser.Error decode t err

/-- A sequence of operations of the controller, each on the traverser the one before left. -/
def runOps (decode : Decoder) : Traverser → List Op → Option Traverser
  | t, [] => some t
  | t, op :: ops =>
    match applyOp decode t op with
    | none => none
    | some t1 => runOps decode t1 ops

/-- The state of a started traverser between two operations: either the
controller has taken the last state of the walk, and its fields show it, or
that state waits in `stateChan` behind a token. In both cases the state is
done with a nil link and a returned walker, or not done with the link the
walker is blocked on. -/
def Started (t : Traverser) : Prop :=
  (t.awaitRequest = false ∧ t.stateChan = none ∧
    ((t.isDone = true ∧ t.currentLink = none ∧ t.walker = Walker.returned) ∨
     (t.isDone = false ∧ ∃ l rest, t.currentLink = some l ∧
        t.walker = Walker.awaitingResponse l rest))) ∨
  (t.awaitRequest = true ∧ ∃ s, t.stateChan = some s ∧
    ((s.isDone = true ∧ s.currentLink = none ∧ t.walker = Walker.returned) ∨
     (s.isDone = false ∧ ∃ l rest, s.currentLink = some l ∧
        t.walker = Walker.awaitingResponse l rest)))

end blockio

/-! ## Go strings and maps -/

/-- A Go string. -/
abbrev GoString := List Char

/-- A Go map that is written with `m[k] = v` and read with `m[k]`. -/
def GoMap (K V : Type) := K → Option V

/-- Go: `make(map[K]V)`. -/
def GoMap.empty {K V : Type} : GoMap K V := fun _ => none

/-- Go: `m[k] = v`. -/
def GoMap.set {K V : Type} [DecidableEq K] (m : GoMap K V) (k : K) (v : V) : GoMap K V :=
  fun k1 => if k1 = k then some v else m k1

/-- Go: `v, ok := m[k]`; `none` is `ok == false`. -/
def GoMap.get {K V : Type} (m : GoMap K V) (k : K) : Option V := m k

/-- Go: `strings.HasPrefix`. -/
def HasPrefix (s pre : GoString) : Bool := pre.isPrefixOf s

/-- Go: `strings.TrimPrefix`. -/
def TrimPrefix (s pre : GoString) : GoString :=
  if HasPrefix s pre then s.drop pre.length else s

/-! ## Paths of the Go library -/

/-- The elements of a path: the pieces between its slashes. -/
def splitSlash : GoString → List GoString
  | [] => [[]]
  | c :: cs =>
    if c = '/' then [] :: splitSlash cs
    else
      match splitSlash cs with
      | [] => [[c]]
      | seg :: segs => (c :: seg) :: segs

/-- The loop of `path.Clean` of the Go library, element by element: `out` holds
the elements kept so far, the last one first. Empty elements and `.` are
dropped; `..` removes the element before it, is dropped at the root of a rooted
path, and is kept at the start of a path that is not rooted. -/
def cleanElems (rooted : Bool) : List GoString → List GoString → List GoString
  | out, [] => out.reverse
  | out, seg :: rest =>
    if seg = [] ∨ seg = ['.'] then cleanElems rooted out rest
    else if seg = ['.', '.'] then
      match out with
      | [] => if rooted then cleanElems rooted [] rest else cleanElems rooted [seg] rest
      | top :: below =>
        if top = ['.', '.'] then cleanElems rooted (seg :: out) rest
        else cleanElems rooted below rest
    else cleanElems rooted (seg :: out) rest

/-- The elements `elems` joined by slashes. -/
def joinSlash : List GoString → GoString
  | [] => []
  | [e] => e
  | e :: es => e ++ '/' :: joinSlash es

/-- Go: `path.Clean` and, on Unix, `filepath.Clean`: the shortest path that is
lexically equivalent to `path`. -/
def Clean (path : GoString) : GoString :=
  match path with
  | [] => ['.']
  | c :: _ =>
    let rooted := decide (c = '/')
    let body := joinSlash (cleanElems rooted [] (splitSlash path))
    if rooted then '/' :: body
    else if body = [] then ['.'] else body

/-- Go: `filepath.Join` on Unix: the elements from the first that is not empty
on are joined by slashes and the result is cleaned; with no such element the
result is empty. -/
def Join : List GoString → GoString
  | [] => []
  | e :: es => if e = [] then Join es else Clean (joinSlash (e :: es))

/-! ## statemachine : types.go, definition/definition.go -/

namespace statemachine


/-- Go: `type EventName string`. -/
abbrev EventName := GoString

/-- Go: `type State string`. -/
abbrev State := GoString

/-- Go: `const EmptyState State = ""`. -/
def EmptyState : State := []

/-- Go: `type EventDesc struct`. -/
structure EventDesc where
  Name : EventName
  Src : List State
  Dst : State
  deriving DecidableEq, Repr

/-- Go: `type Callback func(*Event)`. A callback is known by its identity; a
lookup that finds none returns nil, here `none`. -/
abbrev Callback := Nat

def callbackNone : Nat := 0
def callbackBeforeEvent : Nat := 1
def callbackLeaveState : Nat := 2
def callbackEnterState : Nat := 3
def callbackAfterEvent : Nat := 4

/-- Go: `type cKey struct`. -/
structure cKey where
  target : GoString
  callbackType : Nat
  deriving DecidableEq, Repr

/-- Go: `type eKey struct`. -/
structure eKey where
  event : EventName
  src : State
  deriving DecidableEq, Repr

/-- Go: `type definition struct`. -/
structure definition where
  initial : State
  transitions : GoMap eKey State
  callbacks : GoMap cKey Callback

/-- The three maps filled by the first loop of `NewDefinition`. -/
structure Tables where
  transitions : GoMap eKey State
  allEvents : GoMap EventName Bool
  allStates : GoMap State Bool

/-- The body of the inner loop `for _, src := range e.Src`. -/
def addSrc (e : EventDesc) (tb : Tables) (src : State) : Tables :=
  { tb with transitions := tb.transitions.set ⟨e.Name, src⟩ e.Dst,
            allStates := (tb.allStates.set src true).set e.Dst true }

/-- The body of the outer loop `for _, e := range events`. -/
def addEvent (tb : Tables) (e : EventDesc) : Tables :=
  let tb1 := e.Src.foldl (addSrc e) tb
  { tb1 with allEvents := tb1.allEvents.set e.Name true }

/-- The first loop of `NewDefinition`: the transition map and the sets of all
events and states. -/
def buildTables (events : List EventDesc) : Tables :=
  events.foldl addEvent ⟨GoMap.empty, GoMap.empty, GoMap.empty⟩

def before_ : GoString := ['b', 'e', 'f', 'o', 'r', 'e', '_']
def leave_ : GoString := ['l', 'e', 'a', 'v', 'e', '_']
def enter_ : GoString := ['e', 'n', 't', 'e', 'r', '_']
def after_ : GoString := ['a', 'f', 't', 'e', 'r', '_']
def event : GoString := ['e', 'v', 'e', 'n', 't']
def state : GoString := ['s', 't', 'a', 't', 'e']

/-- The branch shared by the four prefixed cases of the `switch`: the reserved
target is the wildcard (target `""`), a declared target is kept, anything else
leaves `callbackType` at `callbackNone`. -/
def prefixed (target reserved : GoString) (declared : GoMap GoString Bool) (ty : Nat) :
    GoString × Nat :=
  if target = reserved then ([], ty)
  else if (declared.get target).isSome then (target, ty)
  else (target, callbackNone)

/-- The `switch` of the second loop of `NewDefinition`: the `target` and the
`callbackType` of the key `name`. -/
def parseKey (tb : Tables) (name : GoString) : GoString × Nat :=
  if HasPrefix name before_ then
    prefixed (TrimPrefix name before_) event tb.allEvents callbackBeforeEvent
  else if HasPrefix name leave_ then
    prefixed (TrimPrefix name leave_) state tb.allStates callbackLeaveState
  else if HasPrefix name enter_ then
    prefixed (TrimPrefix name enter_) state tb.allStates callbackEnterState
  else if HasPrefix name after_ then
    prefixed (TrimPrefix name after_) event tb.allEvents callbackAfterEvent
  else if (tb.allStates.get name).isSome then (name, callbackEnterState)
  else if (tb.allEvents.get name).isSome then (name, callbackAfterEvent)
  else (name, callbackNone)

/-- The body of the second loop `for name, fn := range callbacks`. -/
def addCallback (tb : Tables) (cbs : GoMap cKey Callback) (entry : GoString × Callback) :
    GoMap cKey Callback :=
  let p := parseKey tb entry.1
  if p.2 ≠ callbackNone then cbs.set ⟨p.1, p.2⟩ entry.2 else cbs

/-- Go: `NewDefinition`. The map `callbacks` is given as the list of its
entries in the order in which `range` yields them. -/
def NewDefinition (initial : State) (events : List EventDesc)
    (callbacks : List (GoString × Callback)) : definition :=
  let tb := buildTables events
  { initial := initial,
    transitions := tb.transitions,
    callbacks := callbacks.foldl (addCallback tb) GoMap.empty }

/-- Go: `Initial`. -/
def Initial (d : definition) : State := d.initial

/-- Go: `Transition`; a missing key yields the zero value and `ok == false`. -/
def Transition (d : definition) (event : EventName) (src : State) : State × Bool :=
  match d.transitions.get ⟨event, src⟩ with
  | some dst => (dst, true)
  | none => (EmptyState, false)

/-- Go: `LeaveCallbackForState`. -/
def LeaveCallbackForState (d : definition) (src : State) : Option Callback :=
  d.callbacks.get ⟨src, callbackLeaveState⟩

/-- Go: `LeaveCallbackAllStates`. -/
def LeaveCallbackAllStates (d : definition) : Option Callback :=
  d.callbacks.get ⟨[], callbackLeaveState⟩

/-- Go: `EnterCallbackForState`. -/
def EnterCallbackForState (d : definition) (dst : State) : Option Callback :=
  d.callbacks.get ⟨dst, callbackEnterState⟩

/-- Go: `EnterCallbackAllStates`. -/
def EnterCallbackAllStates (d : definition) : Option Callback :=
  d.callbacks.get ⟨[], callbackEnterState⟩

/-- Go: `BeforeCallbackForEvent`. -/
def BeforeCallbackForEvent (d : definition) (event : EventName) : Option Callback :=
  d.callbacks.get ⟨event, callbackBeforeEvent⟩

/-- Go: `BeforeCallbackForAllEvents`. -/
def BeforeCallbackForAllEvents (d : definition) : Option Callback :=
  d.callbacks.get ⟨[], callbackBeforeEvent⟩

/-- Go: `AfterCallbackForEvent`. -/
def AfterCallbackForEvent (d : definition) (event : EventName) : Option Callback :=
  d.callbacks.get ⟨event, callbackAfterEvent⟩

/-- Go: `AfterCallbackForAllEvents`. -/
def AfterCallbackForAllEvents (d : definition) : Option Callback :=
  d.callbacks.get ⟨[], callbackAfterEvent⟩

/-- The states of the transition table: the sources and destinations of its entries. -/
def inTable (events : List EventDesc) (s : State) : Prop :=
  ∃ e ∈ events, e.Src ≠ [] ∧ (s ∈ e.Src ∨ s = e.Dst)

/-- The events of an events list: the names of its descriptions. -/
def isEvent (events : List EventDesc) (n : EventName) : Prop :=
  ∃ e ∈ events, e.Name = n

/-- The key `name` begins with one of the four reserved prefixes. -/
def reservedPrefix (name : GoString) : Bool :=
  HasPrefix name before_ || HasPrefix name leave_ || HasPrefix name enter_ ||
    HasPrefix name after_

/-- The entry `en` of the callbacks map is stored under the key `k`. -/
def registers (tb : Tables) (k : cKey) (en : GoString × Callback) : Bool :=
  decide ((parseKey tb en.1).2 ≠ callbackNone ∧
    k = ⟨(parseKey tb en.1).1, (parseKey tb en.1).2⟩)

/-- The callbacks map that holds the four wildcard keys. -/
def wildcardCallbacks (b l e a : Callback) : List (GoString × Callback) :=
  [(before_ ++ event, b), (leave_ ++ state, l), (enter_ ++ state, e), (after_ ++ event, a)]

/-- An events list with one event `go` from `idle` to `busy`. -/
def goEvents : List EventDesc :=
  [⟨['g', 'o'], [['i', 'd', 'l', 'e']], ['b', 'u', 's', 'y']⟩]

/-- An events list whose event is named `event` and leads from `a` to `state`. -/
def eventEvents : List EventDesc :=
  [⟨event, [['a']], state⟩]

/-- An events list with a state whose name begins with `before_`. -/
def beforeEvents : List EventDesc :=
  [⟨['g', 'o'], [before_ ++ ['x']], ['d']⟩]

/-- An events list whose event `open` leads from `closed` to the state `open`. -/
def openEvents : List EventDesc :=
  [⟨['o', 'p', 'e', 'n'], [['c', 'l', 'o', 's', 'e', 'd']], ['o', 'p', 'e', 'n']⟩]

/-- An events list whose event has the empty name and leads from `a` to the empty state. -/
def emptyEvents : List EventDesc :=
  [⟨[], [['a']], []⟩]

/-- An events list in which `go` is declared twice from `idle`. -/
def twiceEvents : List EventDesc :=
  [⟨['g', 'o'], [['i', 'd', 'l', 'e']], ['b', 'u', 's', 'y']⟩,
   ⟨['g', 'o'], [['i', 'd', 'l', 'e'], ['b', 'u', 's', 'y']], ['d', 'o', 'n', 'e']⟩,
   ⟨['n', 'o'], [['i', 'd', 'l', 'e']], ['o', 'f', 'f']⟩]

end statemachine

/-! ## storagemarket/impl : provider_states.go, provider_utils.go -/

namespace storageimpl

/-- A content identifier (`cid.Cid`). -/
abbrev Cid := Nat

/-- Go: `peer.ID`. -/
abbrev PeerID := Nat

/-- Go: `address.Address`. -/
abbrev Address := Nat

/-- Go: `storagemarket.DealState` (a `uint64`). -/
abbrev DealState := Nat

/-- Modelled from the spec: the package `shared/tokenamount` is not among the
sources. A token amount is an integer of arbitrary size (a wrapped `big.Int`). -/
abbrev TokenAmount := Int

/-- Modelled from the spec: `tokenamount.FromInt` of the absent package
`shared/tokenamount`, the amount of a `uint64`. -/
def FromInt (n : Nat) : TokenAmount := (n : Int)

/-- Modelled from the spec: `tokenamount.Mul` of the absent package
`shared/tokenamount`, the product of two amounts. -/
def Mul (a b : TokenAmount) : TokenAmount := a * b

/-- Modelled from the spec: `tokenamount.Div` of the absent package
`shared/tokenamount`. The quotient of two amounts is an amount, so the
division is the integer division of `big.Int`, which for a positive divisor
rounds down. -/
def Div (a b : TokenAmount) : TokenAmount := a / b

/-- Modelled from the spec: `TokenAmount.LessThan` of the absent package
`shared/tokenamount`. -/
def LessThan (a b : TokenAmount) : Bool := decide (a < b)

/-- Go: `storagemarket.StorageDealProposal`, the fields the provider reads. -/
structure StorageDealProposal where
  PieceRef : List Nat
  PieceSize : Nat
  Client : Address
  Provider : Address
  ProposalExpiration : Nat
  Duration : Nat
  StoragePricePerEpoch : TokenAmount
  StorageCollateral : TokenAmount
  ProposerSignature : Option (List Nat) := none
  deriving DecidableEq, Repr

/-- Modelled from the spec: `StorageDealProposal.TotalStoragePrice` of the
absent package `storagemarket`, `price_per_epoch × duration`. -/
def TotalStoragePrice (p : StorageDealProposal) : TokenAmount :=
  Mul p.StoragePricePerEpoch (FromInt p.Duration)

/-- Go: `storagemarket.StorageAsk`, the fields the provider reads. -/
structure StorageAsk where
  Price : TokenAmount
  MinPieceSize : Nat
  deriving DecidableEq, Repr

/-- Go: `storagemarket.Balance`. -/
structure Balance where
  Locked : TokenAmount
  Available : TokenAmount
  deriving DecidableEq, Repr

/-- Go: `MinerDeal`. -/
structure MinerDeal where
  Client : PeerID
  Proposal : StorageDealProposal
  ProposalCid : Cid
  State : DealState
  Ref : Cid
  PiecePath : GoString
  DealID : Nat
  SectorID : Nat
  deriving DecidableEq, Repr

/-- The mutators a stage handler returns (`func(*MinerDeal)`), by the field they set. -/
inductive Mutation where
  | setPiecePath (path : GoString)
  | setDealID (id : Nat)
  | setSectorID (id : Nat)
  deriving DecidableEq, Repr

/-- The errors of the stage `validating`. -/
inductive ValidatingError where
  | node (msg : GoString)
  | expired
  | priceTooLow (offered minPrice : TokenAmount)
  | pieceTooSmall (size minSize : Nat)
  | getBalanceFailed (msg : GoString)
  | balanceTooSmall
  deriving DecidableEq, Repr

/-- Go: `Provider.validating`. The calls to the node are given by their
results: `head` is what `MostRecentStateId` returns (the height of the head, or
an error) and `getBalance` what `GetBalance` returns for an address; `ask` is
`p.ask.Ask`. The result is the mutator (nil, here `none`) or the error. -/
def validating (head : Except GoString Nat) (getBalance : Address → Except GoString Balance)
    (ask : StorageAsk) (deal : MinerDeal) : Except ValidatingError (Option Mutation) :=
  match head with
  | Except.error msg => Except.error (ValidatingError.node msg)
  | Except.ok height =>
    if height ≥ deal.Proposal.ProposalExpiration then Except.error ValidatingError.expired
    else
      let minPrice := Div (Mul ask.Price (FromInt deal.Proposal.PieceSize)) (FromInt (1 <<< 30))
      if LessThan deal.Proposal.StoragePricePerEpoch minPrice then
        Except.error (ValidatingError.priceTooLow deal.Proposal.StoragePricePerEpoch minPrice)
      else if deal.Proposal.PieceSize < ask.MinPieceSize then
        Except.error (ValidatingError.pieceTooSmall deal.Proposal.PieceSize ask.MinPieceSize)
      else
        match getBalance deal.Proposal.Client with
        | Except.error msg => Except.error (ValidatingError.getBalanceFailed msg)
        | Except.ok clientMarketBalance =>
          if LessThan clientMarketBalance.Available (TotalStoragePrice deal.Proposal) then
            Except.error ValidatingError.balanceTooSmall
          else Except.ok none

/-- Go: `datatransfer.Voucher`, either a `*StorageDataTransferVoucher` with its
`Proposal` or a voucher of another type, known by its `Type()`. -/
inductive Voucher where
  | StorageDataTransferVoucher (Proposal : Cid)
  | other (type : GoString)
  deriving DecidableEq, Repr

/-- The sentinel errors of the request validator. -/
inductive RequestError where
  | ErrWrongVoucherType
  | ErrNoDeal
  | ErrWrongPeer
  | ErrWrongPiece
  | ErrInacceptableDealState
  | ErrNoPullAccepted
  deriving DecidableEq, Repr

/-- The loop `for _, state := range DataTransferStates` of `ValidatePush`. -/
def inStates (s : DealState) : List DealState → Bool
  | [] => false
  | state :: rest => if s = state then true else inStates s rest

/-- Go: `ProviderRequestValidator.ValidatePush`. `deals` is the state store
(`m.deals.Get(c).Get(&deal)` fails on `none`), `DataTransferStates` the package
variable of that name; the result is the sentinel the returned error wraps,
`none` for nil. -/
def ValidatePush (deals : Cid → Option MinerDeal) (DataTransferStates : List DealState)
    (sender : PeerID) (voucher : Voucher) (baseCid : Cid) (Selector : Nat) :
    Option RequestError :=
  match voucher with
  | Voucher.other _ => some RequestError.ErrWrongVoucherType
  | Voucher.StorageDataTransferVoucher Proposal =>
    match deals Proposal with
    | none => some RequestError.ErrNoDeal
    | some deal =>
      if deal.Client ≠ sender then some RequestError.ErrWrongPeer
      else if deal.Ref ≠ baseCid then some RequestError.ErrWrongPiece
      else if inStates deal.State DataTransferStates then none
      else some RequestError.ErrInacceptableDealState

/-- Go: `ProviderRequestValidator.ValidatePull`. -/
def ValidatePull (receiver : PeerID) (voucher : Voucher) (baseCid : Cid) (Selector : Nat) :
    Option RequestError :=
  some RequestError.ErrNoPullAccepted

/-- A proposal that offers nothing for a piece of one byte and a deal made of it. -/
def cheapDeal : MinerDeal :=
  { Client := 1,
    Proposal := { PieceRef := [], PieceSize := 1, Client := 1, Provider := 2,
                  ProposalExpiration := 10, Duration := 5, StoragePricePerEpoch := 0,
                  StorageCollateral := 0 },
    ProposalCid := 7, State := 1, Ref := 8, PiecePath := [], DealID := 0, SectorID := 0 }

/-- The ask of one token per GiB and epoch, with no minimal piece size. -/
def unitAsk : StorageAsk := ⟨1, 0⟩

/-- A deal of 4 GiB that offers 5 per epoch. -/
def largeDeal : MinerDeal :=
  { cheapDeal with
    Proposal := { cheapDeal.Proposal with PieceSize := 2 ^ 32, StoragePricePerEpoch := 5 } }

/-- Go: `m[k]` removed by `delete(m, k)`. -/
def connsDelete {V : Type} (m : GoMap Cid V) (k : Cid) : GoMap Cid V :=
  fun k1 => if k1 = k then none else m k1

/-- What a mutator does to the deal record. -/
def Mutation.apply : Mutation → MinerDeal → MinerDeal
  | Mutation.setPiecePath path, deal => { deal with PiecePath := path }
  | Mutation.setDealID id, deal => { deal with DealID := id }
  | Mutation.setSectorID id, deal => { deal with SectorID := id }

/-- The errors of the stage `verifydata`. -/
inductive VerifyDataError where
  | pieceIO (msg : GoString)
  | commPMismatch
  deriving DecidableEq, Repr

/-- Go: `Provider.verifydata`. `GeneratePieceCommitment` is `p.pio`, called
with the payload CID of the deal and the selector of the whole DAG; it returns
the commitment and the file, known here by its `Path()`, or an error. -/
def verifydata (GeneratePieceCommitment : Cid → Except GoString (List Nat × GoString))
    (deal : MinerDeal) : Except VerifyDataError (Option Mutation) :=
  match GeneratePieceCommitment deal.Ref with
  | Except.error err => Except.error (VerifyDataError.pieceIO err)
  | Except.ok (commp, path) =>
    if commp ≠ deal.Proposal.PieceRef then Except.error VerifyDataError.commPMismatch
    else Except.ok (some (Mutation.setPiecePath path))

/-- Go: `Proposal`, the message a client sends. -/
structure Proposal where
  DealProposal : StorageDealProposal
  Piece : Cid
  deriving DecidableEq, Repr

/-- Go: `Provider.readProposal`. `ReadCborRPC` is what reading the stream
yields, `Verify` is `StorageDealProposal.Verify` (nil, here `none`, for a
signature that verifies), `actor` is `p.actor`. The result is the pair
`(proposal, err)`; no proposal is decoded when the read fails. In the last
check the returned `err` is the named result, which nothing has assigned: the
`err` of each `if err := ...` statement is local to that statement. -/
def readProposal (actor : Address) (ReadCborRPC : Except GoString Proposal)
    (Verify : StorageDealProposal → Option GoString) : Option Proposal × Option GoString :=
  let err : Option GoString := none
  match ReadCborRPC with
  | Except.error e => (none, some e)
  | Except.ok proposal =>
    if proposal.DealProposal.ProposerSignature = none then
      (some proposal, some ['n', 'o', ' ', 's', 'i', 'g', 'n', 'a', 't', 'u', 'r', 'e'])
    else
      match Verify proposal.DealProposal with
      | some e => (some proposal, some e)
      | none =>
        if proposal.DealProposal.Provider ≠ actor then (some proposal, err)
        else (some proposal, err)

/-- The constants `storagemarket.Deal...` that the drivers use; they are
declared outside the sources. -/
structure DealStates where
  DealUnknown : DealState
  DealAccepted : DealState
  DealStaged : DealState
  DealSealing : DealState
  DealFailed : DealState
  DealComplete : DealState
  DealNoUpdate : DealState
  deriving DecidableEq, Repr

/-- The four states of the `switch` of the client are pairwise different (they
are the cases of one `switch`). -/
def DealStates.distinct (k : DealStates) : Prop :=
  k.DealUnknown ≠ k.DealAccepted ∧ k.DealUnknown ≠ k.DealStaged ∧
  k.DealUnknown ≠ k.DealSealing ∧ k.DealAccepted ≠ k.DealStaged ∧
  k.DealAccepted ≠ k.DealSealing ∧ k.DealStaged ≠ k.DealSealing

/-- Values for the constants in the order of their declaration, `DealNoUpdate`
standing for `DealUnknown`. -/
def dealStates : DealStates :=
  { DealUnknown := 0, DealAccepted := 2, DealStaged := 3, DealSealing := 4,
    DealFailed := 5, DealComplete := 6, DealNoUpdate := 0 }

/-- Go: `storagemarket.ClientDeal`, embedded in `ClientDeal` (the stream is kept in `conns`). -/
structure ClientDeal where
  ProposalCid : Cid
  Proposal : StorageDealProposal
  State : DealState
  Miner : PeerID
  MinerWorker : Address
  PayloadCid : Cid
  deriving DecidableEq, Repr

/-- Go: `clientDealUpdate`; the field `mut` is named `mutator` here. -/
structure clientDealUpdate where
  newState : DealState
  id : Cid
  err : Option GoString
  mutator : Option (ClientDeal → ClientDeal)

/-- The stage handlers of the client. -/
inductive ClientHandler where
  | new
  | accepted
  | staged
  | sealing
  deriving DecidableEq, Repr

/-- What `onUpdated` does after it has stored the update: it fails the deal,
starts a handler through `c.handle(ctx, deal, cb, next)`, or does nothing. -/
inductive ClientEffect where
  | failDeal (id : Cid) (err : GoString)
  | handle (deal : ClientDeal) (cb : ClientHandler) (next : DealState)
  | nothing
  deriving DecidableEq, Repr

/-- Go: `c.deals.Get(update.id).Mutate(...)` in `onUpdated`: the new state is
stored, the mutator of the update is applied, and the deal is copied out; a
deal that the store does not hold is an error. -/
def mutateDeal (deals : GoMap Cid ClientDeal) (update : clientDealUpdate) :
    GoMap Cid ClientDeal × Except GoString ClientDeal :=
  match deals.get update.id with
  | none => (deals, Except.error ['n', 'o', ' ', 's', 't', 'a', 't', 'e'])
  | some d =>
    let d1 := { d with State := update.newState }
    let d2 := match update.mutator with
      | some f => f d1
      | none => d1
    (deals.set update.id d2, Except.ok d2)

/-- Go: `Client.onUpdated`. The result is the deal store after the call and
what the call does next. -/
def onUpdated (k : DealStates) (deals : GoMap Cid ClientDeal) (update : clientDealUpdate) :
    GoMap Cid ClientDeal × ClientEffect :=
  let r := mutateDeal deals update
  match update.err with
  | some e => (r.1, ClientEffect.failDeal update.id e)
  | none =>
    match r.2 with
    | Except.error e => (r.1, ClientEffect.failDeal update.id e)
    | Except.ok deal =>
      if update.newState = k.DealUnknown then
        (r.1, ClientEffect.handle deal ClientHandler.new k.DealAccepted)
      else if update.newState = k.DealAccepted then
        (r.1, ClientEffect.handle deal ClientHandler.accepted k.DealStaged)
      else if update.newState = k.DealStaged then
        (r.1, ClientEffect.handle deal ClientHandler.staged k.DealSealing)
      else if update.newState = k.DealSealing then
        (r.1, ClientEffect.handle deal ClientHandler.sealing k.DealNoUpdate)
      else (r.1, ClientEffect.nothing)

/-- Go: `inet.Stream`, known by its identity. -/
abbrev Stream := Nat

/-- Go: `Response`. -/
structure Response where
  State : DealState
  Message : GoString
  Proposal : Cid
  PublishMessage : Option Cid
  deriving DecidableEq, Repr

/-- Go: `SignedResponse`. -/
structure SignedResponse where
  Response : Response
  Signature : List Nat
  deriving DecidableEq, Repr

/-- Go: `type Provider struct`, the fields the stage handlers and their helpers use. -/
structure Provider where
  actor : Address
  ask : StorageAsk
  conns : GoMap Cid Stream

/-- The calls of the stage handlers to the node, the network and the other
components, by their results. -/
structure Env where
  MostRecentStateId : Except GoString Nat
  GetBalance : Address → Except GoString Balance
  OpenPullDataChannel : PeerID → Cid → Cid → Option GoString
  GeneratePieceCommitment : Cid → Except GoString (List Nat × GoString)
  GetMinerWorker : Address → Except GoString Address
  EnsureFunds : Address → TokenAmount → Option GoString
  PublishDeals : MinerDeal → Except GoString (Nat × Cid)
  Dump : Response → Except GoString (List Nat)
  SignBytes : Address → List Nat → Except GoString (List Nat)
  WriteCborRPC : Stream → SignedResponse → Option GoString
  Close : Stream → Option GoString
  OnDealComplete : MinerDeal → GoString → Except GoString Nat
  OnDealSectorCommitted : Address → Nat → Option GoString
  LocatePieceForDealWithinSector : Nat → Except GoString (Nat × Nat × Nat)
  AddDealForPiece : List Nat → Nat → Nat → Nat → Nat → Option GoString

/-- Go: `Provider.sendSignedResponse`. The result is the provider after the
call and the error. -/
def sendSignedResponse (env : Env) (p : Provider) (resp : Response) :
    Provider × Option GoString :=
  match p.conns.get resp.Proposal with
  | none => (p, some ['n', 'o', 't', ' ', 'c', 'o', 'n', 'n', 'e', 'c', 't', 'e', 'd'])
  | some s =>
    match env.Dump resp with
    | Except.error e => (p, some e)
    | Except.ok msg =>
      match env.GetMinerWorker p.actor with
      | Except.error e => (p, some e)
      | Except.ok worker =>
        match env.SignBytes worker msg with
        | Except.error e => (p, some e)
        | Except.ok sig =>
          match env.WriteCborRPC s ⟨resp, sig⟩ with
          | some e => ({ p with conns := connsDelete p.conns resp.Proposal }, some e)
          | none => (p, none)

/-- Go: `Provider.disconnect`. -/
def disconnect (env : Env) (p : Provider) (deal : MinerDeal) : Provider × Option GoString :=
  match p.conns.get deal.ProposalCid with
  | none => (p, none)
  | some s => ({ p with conns := connsDelete p.conns deal.ProposalCid }, env.Close s)

/-- Go: `Provider.transferring`. -/
def transferring (env : Env) (deal : MinerDeal) : Except GoString (Option Mutation) :=
  match env.OpenPullDataChannel deal.Client deal.ProposalCid deal.Ref with
  | some e => Except.error e
  | none => Except.ok none

/-- Go: `Provider.publishing`. The result is the provider after the call and
what the handler returns. -/
def publishing (env : Env) (k : DealStates) (p : Provider) (deal : MinerDeal) :
    Provider × Except GoString (Option Mutation) :=
  match env.GetMinerWorker deal.Proposal.Provider with
  | Except.error e => (p, Except.error e)
  | Except.ok waddr =>
    match env.EnsureFunds waddr deal.Proposal.StorageCollateral with
    | some e => (p, Except.error e)
    | none =>
      match env.PublishDeals deal with
      | Except.error e => (p, Except.error e)
      | Except.ok (dealId, mcid) =>
        match sendSignedResponse env p
            { State := k.DealAccepted, Message := [], Proposal := deal.ProposalCid,
              PublishMessage := some mcid } with
        | (p1, some e) => (p1, Except.error e)
        | (p1, none) =>
          ((disconnect env p1 deal).1, Except.ok (some (Mutation.setDealID dealId)))

/-- Go: `Provider.staged`. -/
def staged (env : Env) (deal : MinerDeal) : Except GoString (Option Mutation) :=
  match env.OnDealComplete deal deal.PiecePath with
  | Except.error e => Except.error e
  | Except.ok sectorID => Except.ok (some (Mutation.setSectorID sectorID))

/-- Go: `Provider.sealing`; the callback it registers posts an update when the
node calls it. -/
def sealing (env : Env) (deal : MinerDeal) : Except GoString (Option Mutation) :=
  match env.OnDealSectorCommitted deal.Proposal.Provider deal.DealID with
  | some e => Except.error e
  | none => Except.ok none

/-- Go: `Provider.complete`. -/
def complete (env : Env) (deal : MinerDeal) : Except GoString (Option Mutation) :=
  match env.LocatePieceForDealWithinSector deal.DealID with
  | Except.error e => Except.error e
  | Except.ok (sectorID, offset, length) =>
    match env.AddDealForPiece deal.Proposal.PieceRef deal.DealID sectorID offset length with
    | some e => Except.error e
    | none => Except.ok none

/-- The stage handlers of the provider. -/
inductive Stage where
  | validating
  | transferring
  | verifydata
  | publishing
  | staged
  | sealing
  | complete
  deriving DecidableEq, Repr

/-- The call `cb(ctx, deal)` of `Provider.handle` for the handler of a stage:
the provider after the call, the mutator and whether the handler returned an
error. -/
def runStage (env : Env) (k : DealStates) (p : Provider) (deal : MinerDeal) :
    Stage → Provider × Option Mutation × Bool
  | Stage.validating =>
    match validating env.MostRecentStateId env.GetBalance p.ask deal with
    | Except.error _ => (p, none, true)
    | Except.ok m => (p, m, false)
  | Stage.transferring =>
    match transferring env deal with
    | Except.error _ => (p, none, true)
    | Except.ok m => (p, m, false)
  | Stage.verifydata =>
    match verifydata env.GeneratePieceCommitment deal with
    | Except.error _ => (p, none, true)
    | Except.ok m => (p, m, false)
  | Stage.publishing =>
    match publishing env k p deal with
    | (p1, Except.error _) => (p1, none, true)
    | (p1, Except.ok m) => (p1, m, false)
  | Stage.staged =>
    match staged env deal with
    | Except.error _ => (p, none, true)
    | Except.ok m => (p, m, false)
  | Stage.sealing =>
    match sealing env deal with
    | Except.error _ => (p, none, true)
    | Except.ok m => (p, m, false)
  | Stage.complete =>
    match complete env deal with
    | Except.error _ => (p, none, true)
    | Except.ok m => (p, m, false)

/-- An environment in which every call succeeds. -/
def okEnv : Env :=
  { MostRecentStateId := Except.ok 0,
    GetBalance := fun _ => Except.ok ⟨0, 0⟩,
    OpenPullDataChannel := fun _ _ _ => none,
    GeneratePieceCommitment := fun _ => Except.ok ([], ['f']),
    GetMinerWorker := fun a => Except.ok a,
    EnsureFunds := fun _ _ => none,
    PublishDeals := fun _ => Except.ok (11, 12),
    Dump := fun _ => Except.ok [],
    SignBytes := fun _ _ => Except.ok [],
    WriteCborRPC := fun _ _ => none,
    Close := fun _ => none,
    OnDealComplete := fun _ _ => Except.ok 13,
    OnDealSectorCommitted := fun _ _ => none,
    LocatePieceForDealWithinSector := fun _ => Except.ok (13, 0, 1),
    AddDealForPiece := fun _ _ _ _ _ => none }

/-- A provider that holds the connection of the deal `cheapDeal` (proposal 7) as stream 1. -/
def connectedProvider : Provider :=
  { actor := 2, ask := unitAsk, conns := (GoMap.empty : GoMap Cid Stream).set 7 1 }

/-- A proposal that is signed and names the provider 2. -/
def signedProposal : Proposal :=
  { DealProposal := { cheapDeal.Proposal with ProposerSignature := some [1] }, Piece := 8 }

/-- A client deal in the state `DealUnknown`. -/
def newClientDeal : ClientDeal :=
  { ProposalCid := 7, Proposal := cheapDeal.Proposal, State := 0, Miner := 1,
    MinerWorker := 2, PayloadCid := 8 }

end storageimpl

/-! ## filestore : filestore.go -/

namespace filestore

/-- Go: `type fileStore struct`. -/
structure fileStore where
  base : GoString
  deriving DecidableEq, Repr

/-- Go: `NewLocalFileStore`. The file system is given by `isDir`, which tells
for a path whether `os.Stat` finds a directory there. -/
def NewLocalFileStore (isDir : GoString → Bool) (basedirectory : GoString) :
    Except GoString fileStore :=
  let base := Clean basedirectory
  if isDir base then Except.ok ⟨base⟩
  else Except.error base

/-- Go: `fileStore.filename`. -/
def fileStore.filename (fs : fileStore) (p : GoString) : GoString :=
  Join [fs.base, p]

/-- What `Delete` does with a path: it hands it to `os.Remove`, or it returns
the error "invalid base path" and removes nothing. -/
inductive Deletion where
  | remove (filename : GoString)
  | invalidBasePath
  deriving DecidableEq, Repr

/-- Go: `fileStore.Delete`. -/
def fileStore.Delete (fs : fileStore) (p : GoString) : Deletion :=
  let filename := p
  if HasPrefix filename fs.base then Deletion.remove filename
  else Deletion.invalidBasePath

/-- The pattern `fstmp` of `CreateTemp`. -/
def fstmp : GoString := ['f', 's', 't', 'm', 'p']

/-- Go: `fileStore.CreateTemp`, the name of the file it creates:
`ioutil.TempFile(fs.base, "fstmp")` opens `filepath.Join(dir, prefix + random)`,
where `random` is the string of digits the library draws; `fs.base` is never
empty, so the directory is `fs.base`. This name is `f.Name()`, the path of the
file handed to the caller. -/
def fileStore.CreateTemp (fs : fileStore) (random : GoString) : GoString :=
  Join [fs.base, fstmp ++ random]

/-- The path `p` denotes a location inside the directory `base` (a cleaned
path): cleaned, it is `base` itself or continues `base` by a slash (for the
root, by anything). -/
def inside (base p : GoString) : Bool :=
  decide (Clean p = base) ||
    HasPrefix (Clean p) (if base = ['/'] then base else base ++ ['/'])

/-- The base directory `/s` of the examples. -/
def storeDir : GoString := ['/', 's']

/-- A file in the directory `/s-old`, a sibling of `/s` whose name begins with `/s`. -/
def siblingFile : GoString := ['/', 's', '-', 'o', 'l', 'd', '/', 'x']

/-- A path that begins with `/s` and leaves it through `..`: `/s/../etc/pw`. -/
def dotdotFile : GoString := ['/', 's', '/', '.', '.', '/', 'e', 't', 'c', '/', 'p', 'w']

end filestore

/-! ## retrievalmarket/discovery : local.go -/

namespace discovery

/-- A `cid.Cid`, known by its bytes (`c.Bytes()`). -/
abbrev Cid := List Nat

/-- Go: `retrievalmarket.RetrievalPeer`. -/
structure RetrievalPeer where
  Address : Nat
  ID : Nat
  deriving DecidableEq, Repr

/-- Go: `string(b)` for a byte slice `b`. -/
def bytesToString (b : List Nat) : GoString := b.map Char.ofNat

/-- The bits of a byte, the highest first. -/
def byteBits (b : Nat) : List Bool :=
  [7, 6, 5, 4, 3, 2, 1, 0].map fun i => decide ((b / 2 ^ i) % 2 = 1)

/-- The bits in groups of five, the last group filled up with zeros. -/
def groups5 : List Bool → List (List Bool)
  | a :: b :: c :: d :: e :: rest => [a, b, c, d, e] :: groups5 rest
  | [] => []
  | [a] => [[a, false, false, false, false]]
  | [a, b] => [[a, b, false, false, false]]
  | [a, b, c] => [[a, b, c, false, false]]
  | [a, b, c, d] => [[a, b, c, d, false]]

/-- The number of a group of bits, the highest first. -/
def bitsValue (bits : List Bool) : Nat :=
  bits.foldl (fun n b => 2 * n + (if b then 1 else 0)) 0

/-- The alphabet of the standard base32 encoding: `A` to `Z`, then `2` to `7`. -/
def base32Char (n : Nat) : Char :=
  if n < 26 then Char.ofNat (65 + n) else Char.ofNat (24 + n)

/-- Go: `base32.RawStdEncoding.Encode`, the standard base32 encoding without padding. -/
def base32 (b : List Nat) : GoString :=
  (groups5 (b.flatMap byteBits)).map fun g => base32Char (bitsValue g)

/-- Go: `dshelp.CidToDsKey` of the library go-ipfs-ds-help: the key is a slash
followed by the base32 encoding of the bytes of the CID. -/
def CidToDsKey (c : Cid) : GoString := '/' :: base32 c

/-- Go: `datastore.NewKey` of the library go-datastore: the string is made to
start with a slash and cleaned as a path. -/
def NewKey (s : GoString) : GoString :=
  match s with
  | [] => ['/']
  | c :: _ => if c = '/' then Clean s else Clean ('/' :: s)

/-- Go: `type Local struct`. The datastore `ds` is the namespace wrapper of
`NewLocal`, which puts the same prefix `/deals/local` before the key of every
`Put` and `Get`; it is given by its content under the keys
inside that prefix. -/
structure Local where
  ds : GoMap GoString (List Nat)

/-- Go: `Local.AddPeer`. `DumpObject` is the CBOR encoder; `Put` on the map
datastore does not fail. -/
def Local.AddPeer (DumpObject : RetrievalPeer → Except GoString (List Nat)) (l : Local)
    (cid : Cid) (peer : RetrievalPeer) : Except GoString Local :=
  match DumpObject peer with
  | Except.error err => Except.error err
  | Except.ok entry => Except.ok ⟨l.ds.set (CidToDsKey cid) entry⟩

/-- Go: `Local.GetPeers`. `DecodeInto` is the CBOR decoder; a key that is not
in the datastore gives `datastore.ErrNotFound`. -/
def Local.GetPeers (DecodeInto : List Nat → Except GoString RetrievalPeer) (l : Local)
    (pieceCID : List Nat) : Except GoString (List RetrievalPeer) :=
  let key := bytesToString pieceCID
  match l.ds.get (NewKey key) with
  | none => Except.ok []
  | some entry =>
    match DecodeInto entry with
    | Except.error err => Except.error err
    | Except.ok peer => Except.ok [peer]

/-- A CBOR encoder for the examples: the two fields one after the other. -/
def dumpPeer : RetrievalPeer → Except GoString (List Nat) :=
  fun p => Except.ok [p.Address, p.ID]

/-- The decoder that belongs to `dumpPeer`. -/
def decodePeer : List Nat → Except GoString RetrievalPeer
  | [a, i] => Except.ok ⟨a, i⟩
  | _ => Except.error ['c', 'b', 'o', 'r']

/-- The bytes of a CID of version 1 with the raw codec and the identity hash of the byte `a`. -/
def rawCid : Cid := [1, 85, 0, 1, 97]

end discovery

/-! ## retrievalmarket/impl : client.go, provider.go -/

namespace retrievalimpl

/-- Go: `retrievalmarket.ClientSubscriber` and `ProviderSubscriber`: a
subscriber is a function, compared through `reflect.ValueOf`, so it is known by
its identity. -/
abbrev Subscriber := Nat

/-- Go: the function returned by `client.unsubscribeAt(sub)` and
`provider.unsubscribeAt(sub)` (the same code), as a function of the list of
subscribers: the first element equal to `sub` is overwritten by the last
element and the list is cut by one; without such an element the list stays. -/
def unsubscribeAt (sub : Subscriber) (subscribers : List Subscriber) : List Subscriber :=
  match subscribers.findIdx? (fun el => decide (sub = el)), subscribers.getLast? with
  | some i, some last => (subscribers.set i last).dropLast
  | _, _ => subscribers

/-- Go: `SubscribeToEvents`, the list of subscribers after the call; the
function it returns is `unsubscribeAt subscriber`. -/
def SubscribeToEvents (subscribers : List Subscriber) (subscriber : Subscriber) :
    List Subscriber :=
  subscribers ++ [subscriber]

end retrievalimpl

/-! ## retrievalmarket/impl/blockio under a cancelled context -/

namespace blockio

/-- Go: `Start` under a context that is cancelled already. Both cases of its
`select` are ready, the receive from `ctx.Done()` and the send of the token
(the channel has room), and Go takes one of the ready cases at random; this is
the run in which the case `<-ctx.Done()` is taken, here and in every later
`select` that offers it: `Start` returns at once, no token is sent and no
goroutine is started. -/
def StartCancelled (t : Traverser) : Traverser := t

/-- Go: `checkState` under a cancelled context, the case `<-ctx.Done()` taken
where it is offered: without a token the `default` case is taken; with one,
the token is received and the inner `select` leaves the fields as they are. -/
def checkStateCancelled (t : Traverser) : Traverser :=
  if t.awaitRequest then { t with awaitRequest := false } else t

/-- Go: `IsComplete` under a cancelled context. -/
def IsCompleteCancelled (t : Traverser) : Traverser × Bool :=
  (checkStateCancelled t, (checkStateCancelled t).isDone)

/-- Go: `CurrentRequest` under a cancelled context. -/
def CurrentRequestCancelled (t : Traverser) : Traverser × Option Link × LinkContext :=
  (checkStateCancelled t, (checkStateCancelled t).currentLink,
    (checkStateCancelled t).currentContext)

/-- Go: `Advance` under a cancelled context, the case `<-ctx.Done()` taken in
its first `select`. -/
def AdvanceCancelled (t : Traverser) : Traverser × Option Error :=
  match IsCompleteCancelled t with
  | (t1, true) => (t1, some Error.cannotAdvanceWhenDone)
  | (t1, false) => (t1, some Error.contextCancelled)

/-- Go: `Error` under a cancelled context, the case `<-ctx.Done()` taken in its
first `select`. -/
def ErrorCancelled (t : Traverser) : Traverser := (IsCompleteCancelled t).1

/-- Go: `SelectorVerifier.Verify` under a context that is cancelled already,
in the run in which every `select` takes the case `<-ctx.Done()`. -/
def VerifyCancelled (sv : SelectorVerifier) (blk : Block) : SelectorVerifier × Outcome :=
  let t0 : Traverser :=
    match sv.traverser with
    | none => StartCancelled (NewTraverser sv.root)
    | some t => t
  match IsCompleteCancelled t0 with
  | (t1, true) =>
    ({ sv with traverser := some t1 }, Outcome.ret false (some Error.ErrVerification))
  | (t1, false) =>
    match CurrentRequestCancelled t1 with
    | (t2, none, _) => ({ sv with traverser := some t2 }, Outcome.panicked)
    | (t2, some lnk, _) =>
      if lnk.Cid ≠ blk.Cid then
        ({ sv with traverser := some (ErrorCancelled t2) },
          Outcome.ret false (some Error.ErrVerification))
      else
        match AdvanceCancelled t2 with
        | (t3, some err) => ({ sv with traverser := some t3 }, Outcome.ret false (some err))
        | (t3, none) =>
          ({ sv with traverser := some (IsCompleteCancelled t3).1 },
            Outcome.ret (IsCompleteCancelled t3).2 none)

end blockio

/-! ## storagemarket/impl : the files of `verifydata` -/

namespace storageimpl

/-- The files of the filestore behind `p.pio`: the paths of the files it
holds, and the paths of the files that are open. -/
structure PieceFiles where
  stored : List GoString
  opened : List GoString
  deriving DecidableEq, Repr

/-- Go: `Provider.verifydata` with the files of the filestore.
`GeneratePieceCommitment` is `p.pio`, now with the files it starts from and
the files it leaves; the body of `verifydata` calls neither `Close` on the file
it receives nor `Delete` on the filestore, so the files that
`GeneratePieceCommitment` leaves are the files after `verifydata`. -/
def verifydataFiles
    (GeneratePieceCommitment :
      Cid → PieceFiles → PieceFiles × Except GoString (List Nat × GoString))
    (deal : MinerDeal) (files : PieceFiles) :
    PieceFiles × Except VerifyDataError (Option Mutation) :=
  let r := GeneratePieceCommitment deal.Ref files
  (r.1, verifydata (fun _ => r.2) deal)

/-- A piece IO for the examples: it writes the piece to the new file `f`,
which it leaves open, and computes the commitment `[1]`. -/
def tempPieceIO : Cid → PieceFiles → PieceFiles × Except GoString (List Nat × GoString) :=
  fun _ files =>
    (⟨['f'] :: files.stored, ['f'] :: files.opened⟩, Except.ok ([1], ['f']))

end storageimpl

/-! ## pieceio : the piece of a payload, after the specification -/

namespace pieceio

/-- A content identifier. -/
abbrev Cid := Nat

/-- An IPLD selector, known by its identity. -/
abbrev Selector := Nat

/-- Modelled from the spec: the search of the pad reader (package
`pieceio/padreader`, not among the sources) through the accepted piece sizes,
"a fixed, externally defined ladder", here the function `ladder` from the
number of a rung to its size: the first rung from `k` on that holds `size`
bytes, looking at `fuel` rungs. -/
def firstRung (ladder : Nat → Nat) (size : Nat) : Nat → Nat → Nat
  | 0, k => k
  | fuel + 1, k => if size ≤ ladder k then k else firstRung ladder size fuel (k + 1)

/-- Modelled from the spec: `PaddedSize` of the pad reader, "the next accepted
piece length" for an archive of `size` bytes. The sizes of a ladder grow from
rung to rung, so the rung `size` holds `size` bytes and the search ends there. -/
def PaddedSize (ladder : Nat → Nat) (size : Nat) : Nat :=
  ladder (firstRung ladder size size 0)

/-- A block of the payload: its CID and its bytes. -/
structure Block where
  cid : Cid
  data : List Nat
  deriving DecidableEq, Repr

/-- Modelled from the spec: one frame of the archive (package `pieceio/cario`,
not among the sources). The specification leaves the framing of the archive to
its format and names a header that holds the root; a frame is here the length
of its payload followed by the payload. -/
def frame (payload : List Nat) : List Nat := payload.length :: payload

/-- Modelled from the spec: the header of the archive of `root`, the frame that
holds the root. -/
def encodeHeader (root : Cid) : List Nat := frame [root]

/-- Modelled from the spec: the frame of a block, its CID followed by its bytes. -/
def encodeBlock (b : Block) : List Nat := frame (b.cid :: b.data)

/-- Modelled from the spec: the frames of the blocks of an archive, one after
the other. -/
def encodeBlocks : List Block → List Nat
  | [] => []
  | b :: bs => encodeBlock b ++ encodeBlocks bs

/-- Modelled from the spec: reading one frame from a stream: its payload and
the rest of the stream; `none` for a stream that ends before the frame does. -/
def readFrame : List Nat → Option (List Nat × List Nat)
  | [] => none
  | n :: rest => if n ≤ rest.length then some (rest.take n, rest.drop n) else none

/-- Modelled from the spec: reading the frames of the blocks up to the end of
the stream, "stream an archive back and yield `(cid, block)` pairs"; every
frame takes at least one byte, so `fuel` is the length of the stream. -/
def readBlocks : Nat → List Nat → Option (List Block)
  | _, [] => some []
  | 0, _ :: _ => none
  | fuel + 1, n :: rest =>
    match readFrame (n :: rest) with
    | some (c :: data, rest1) => (readBlocks fuel rest1).map fun bs => ⟨c, data⟩ :: bs
    | _ => none

/-- The text of the error of a stream that is no archive. -/
def invalidArchive : GoString := "invalid archive".toList

/-- Modelled from the spec: `LoadCar` of the archive codec: read the header,
then the blocks up to the end of the stream; the result is the root the header
holds, with the blocks read. -/
def LoadCar (reader : List Nat) : Except GoString (Cid × List Block) :=
  match readFrame reader with
  | some ([root], rest) =>
    match readBlocks rest.length rest with
    | some bs => Except.ok (root, bs)
    | none => Except.error invalidArchive
  | _ => Except.error invalidArchive

/-- The file of a piece: its path in the filestore and the bytes written to it. -/
structure File where
  path : GoString
  content : List Nat
  deriving DecidableEq, Repr

/-- What `GeneratePieceCommitment` does to the temporary file when it fails. -/
inductive Cleanup where
  | Close
  | Delete
  deriving DecidableEq, Repr

/-- Modelled from the spec: the collaborators of the piece IO (package
`pieceio`, not among the sources), by the results of their calls: the ladder
of the pad reader; `CreateTemp` of the filestore, the path of the new file;
`blocks`, the walk of the blockstore from a root under a selector, the blocks
it reaches in the order it reaches them; `WritePadding`, the count that the
write of so many zero bytes reports; `Seek` to the start of the file, its
error; and the external commitment primitive on the bytes of the file and the
padded length. -/
structure pieceIO where
  ladder : Nat → Nat
  CreateTemp : Except GoString GoString
  blocks : Cid → Selector → Except GoString (List Block)
  WritePadding : Nat → Except GoString Nat
  Seek : Option GoString
  Commitment : List Nat → Nat → Except GoString (List Nat)

/-- Modelled from the spec: `WriteCar` of the archive codec, the bytes it writes
to the sink: "a self-contained archive of blocks reachable from a root under a
selector", the header of the root followed by the frames of the blocks. -/
def WriteCar (pio : pieceIO) (payloadCid : Cid) (selector : Selector) :
    Except GoString (List Nat) :=
  match pio.blocks payloadCid selector with
  | Except.error err => Except.error err
  | Except.ok bs => Except.ok (encodeHeader payloadCid ++ encodeBlocks bs)

/-- The text of the error for a write of the padding that falls short. -/
def shortWrite : GoString := "incorrect padding written".toList

/-- Modelled from the spec: `GeneratePieceCommitment` of the absent package
`pieceio`, in the five steps of the specification: create the temporary file;
write the canonical archive to it, and delete the file when that fails; append
the zero bytes up to the next accepted size, and close and delete the file when
the write fails or reports another count; seek to the start; compute the
commitment over the file and the padded length. The result is the commitment
with the file, or the error; the list holds the calls that clean up. -/
def GeneratePieceCommitment (pio : pieceIO) (payloadCid : Cid) (selector : Selector) :
    Except GoString (List Nat × File) × List Cleanup :=
  match pio.CreateTemp with
  | Except.error err => (Except.error err, [])
  | Except.ok path =>
    match WriteCar pio payloadCid selector with
    | Except.error err => (Except.error err, [Cleanup.Delete])
    | Except.ok archive =>
      let padded := PaddedSize pio.ladder archive.length
      let padding := padded - archive.length
      match pio.WritePadding padding with
      | Except.error err => (Except.error err, [Cleanup.Close, Cleanup.Delete])
      | Except.ok written =>
        if written ≠ padding then
          (Except.error shortWrite, [Cleanup.Close, Cleanup.Delete])
        else
          let content := archive ++ List.replicate written 0
          match pio.Seek with
          | some err => (Except.error err, [Cleanup.Close, Cleanup.Delete])
          | none =>
            match pio.Commitment content padded with
            | Except.error err => (Except.error err, [Cleanup.Close, Cleanup.Delete])
            | Except.ok commitment => (Except.ok (commitment, ⟨path, content⟩), [])

/-- Modelled from the spec: `ReadPiece` of the absent package `pieceio`:
"decode the archive header and return its root CID". -/
def ReadPiece (reader : List Nat) : Except GoString Cid :=
  match LoadCar reader with
  | Except.error err => Except.error err
  | Except.ok r => Except.ok r.1

/-- A piece IO for the examples: the accepted sizes are 4, 8, 16 and so on, the
payload of a root is the one block of the root with the bytes 7, 7, and the
commitment of a piece is its first byte and its length. -/
def examplePieceIO : pieceIO :=
  { ladder := fun k => 4 * 2 ^ k,
    CreateTemp := Except.ok ['t'],
    blocks := fun c _ => Except.ok [⟨c, [7, 7]⟩],
    WritePadding := fun n => Except.ok n,
    Seek := none,
    Commitment := fun content n => Except.ok [content.headD 0, n] }

end pieceio

/-! ## retrievalmarket/impl : client.go, provider.go, the deal loops -/

namespace retrievalimpl

/-- Go: `retrievalmarket.DealStatus` (a `uint64`). -/
abbrev DealStatus := Nat

/-- The constants `retrievalmarket.DealStatus...` that the deal loops name, and
the predicates `retrievalmarket.IsTerminalStatus` and `IsTerminalSuccess`;
they are declared outside the sources, so they are parameters. -/
structure DealStatuses where
  DealStatusNew : DealStatus
  DealStatusAccepted : DealStatus
  DealStatusPaymentChannelCreated : DealStatus
  DealStatusOngoing : DealStatus
  DealStatusUnsealing : DealStatus
  DealStatusFundsNeeded : DealStatus
  DealStatusFundsNeededLastPayment : DealStatus
  DealStatusFailed : DealStatus
  IsTerminalStatus : DealStatus → Bool
  IsTerminalSuccess : DealStatus → Bool

/-- The text of `errors.New("unexpected deal state")`. -/
def unexpectedDealState : GoString := "unexpected deal state".toList

/-- The text of `errors.New("Could not read block")`. -/
def couldNotReadBlock : GoString := "Could not read block".toList

/-- The text of `errors.New("Price per byte too low")`. -/
def priceTooLow : GoString := "Price per byte too low".toList

/-- The text of `errors.New("Payment interval too large")`. -/
def intervalTooLarge : GoString := "Payment interval too large".toList

/-- The text of `errors.New("Payment interval increase too large")`. -/
def increaseTooLarge : GoString := "Payment interval increase too large".toList

/-- Go: `retrievalmarket.Block`, a block as it travels on the deal stream. -/
structure Block where
  Prefix : List Nat
  Data : List Nat
  deriving DecidableEq, Repr

/-- Go: `cid.Prefix`. -/
structure Prefix where
  Version : Nat
  Codec : Nat
  MhType : Nat
  MhLength : Int
  deriving DecidableEq, Repr

/-- The calls `ConsumeBlock` makes, by their results: `cid.PrefixFromBytes`,
`prefix.Sum` and `blocks.NewBlockWithCid` of the libraries, `Verify` of the
verifier of the environment (`(done, err)`, a nil error is `none`) and `Put` of
its blockstore (the error, `none` for nil). -/
structure clientDealEnvironment where
  PrefixFromBytes : List Nat → Except GoString Prefix
  Sum : Prefix → List Nat → Except GoString blockio.Cid
  NewBlockWithCid : List Nat → blockio.Cid → Except GoString blockio.Block
  Verify : blockio.Block → Bool × Option GoString
  Put : blockio.Block → Option GoString

/-- What a call of `ConsumeBlock` leaves: the three results `(uint64, bool,
error)` and the block handed to `bs.Put`, `none` when `Put` is not called. -/
structure Consumed where
  size : Nat
  done : Bool
  err : Option GoString
  put : Option blockio.Block
  deriving DecidableEq, Repr

/-- Go: `clientDealEnvironment.ConsumeBlock`. -/
def clientDealEnvironment.ConsumeBlock (cde : clientDealEnvironment) (block : Block) :
    Consumed :=
  match cde.PrefixFromBytes block.Prefix with
  | Except.error err => ⟨0, false, some err, none⟩
  | Except.ok pfx =>
    match cde.Sum pfx block.Data with
    | Except.error err => ⟨0, false, some err, none⟩
    | Except.ok cid =>
      match cde.NewBlockWithCid block.Data cid with
      | Except.error err => ⟨0, false, some err, none⟩
      | Except.ok blk =>
        match cde.Verify blk with
        | (_, some err) => ⟨0, false, some err, none⟩
        | (done, none) =>
          match cde.Put blk with
          | some err => ⟨0, false, some err, some blk⟩
          | none => ⟨block.Data.length, done, none, some blk⟩

/-- Go: `retrievalmarket.ClientDealState`, the fields the loop of the client
reads and writes, and the counter of the bytes received. -/
structure ClientDealState where
  Status : DealStatus
  Message : GoString
  Sender : storageimpl.PeerID
  PayloadCID : blockio.Cid
  TotalReceived : Nat
  deriving DecidableEq, Repr

/-- Go: `retrievalmarket.ClientEvent`, the events `client.go` sends. -/
inductive ClientEvent where
  | ClientEventOpen
  | ClientEventProgress
  | ClientEventError
  | ClientEventComplete
  deriving DecidableEq, Repr

/-- The handlers of `clientstates` that `handleDeal` chooses from. -/
inductive ClientHandler where
  | ProposeDeal
  | SetupPaymentChannel
  | ProcessNextResponse
  deriving DecidableEq, Repr

/-- The handlers of `clientstates` are outside the sources: `handlers h w ds`
is the deal state after `handler(ctx, environment, dealState)` has run in the
world `w` (the stream, the node, the blockstore) and the modifier it returns
has been applied, together with the world it leaves. -/
abbrev ClientHandlers (W : Type) := ClientHandler → W → ClientDealState → W × ClientDealState

/-- The `switch dealState.Status` of `handleDeal`; `none` is the `default` case. -/
def clientHandlerFor (c : DealStatuses) (status : DealStatus) : Option ClientHandler :=
  if status = c.DealStatusNew then some ClientHandler.ProposeDeal
  else if status = c.DealStatusAccepted then some ClientHandler.SetupPaymentChannel
  else if status = c.DealStatusPaymentChannelCreated ∨ status = c.DealStatusOngoing ∨
      status = c.DealStatusUnsealing then some ClientHandler.ProcessNextResponse
  else if status = c.DealStatusFundsNeeded ∨ status = c.DealStatusFundsNeededLastPayment then
    some ClientHandler.ProcessNextResponse
  else none

/-- Go: `client.failDeal`: the deal state it writes, which is also the state
it notifies the subscribers of with `ClientEventError`. -/
def client.failDeal (c : DealStatuses) (dealState : ClientDealState) (err : GoString) :
    ClientDealState :=
  { dealState with Message := err, Status := c.DealStatusFailed }

/-- The loop `for { ... }` of `handleDeal` and the notification that follows
it: the notifications to the subscribers, in order, each with the deal state it
carries; `none` is a loop that does not end within `fuel` rounds. -/
def client.dealLoop {W : Type} (c : DealStatuses) (handlers : ClientHandlers W) :
    Nat → W → ClientDealState → Option (List (ClientEvent × ClientDealState))
  | 0, _, _ => none
  | fuel + 1, w, dealState =>
    match clientHandlerFor c dealState.Status with
    | none =>
      some [(ClientEvent.ClientEventError, client.failDeal c dealState unexpectedDealState)]
    | some handler =>
      let r := handlers handler w dealState
      if c.IsTerminalStatus r.2.Status then
        if c.IsTerminalSuccess r.2.Status then some [(ClientEvent.ClientEventComplete, r.2)]
        else some [(ClientEvent.ClientEventError, r.2)]
      else
        (client.dealLoop c handlers fuel r.1 r.2).map fun evs =>
          (ClientEvent.ClientEventProgress, r.2) :: evs

/-- Go: `client.handleDeal`. `NewDealStream` is the error of
`c.network.NewDealStream` for a peer (`none` for a stream that opens). The
result lists the notifications to the subscribers in order. -/
def client.handleDeal {W : Type} (c : DealStatuses) (handlers : ClientHandlers W)
    (NewDealStream : storageimpl.PeerID → Option GoString) (fuel : Nat) (w : W)
    (dealState : ClientDealState) : Option (List (ClientEvent × ClientDealState)) :=
  match NewDealStream dealState.Sender with
  | some err =>
    some [(ClientEvent.ClientEventOpen, dealState),
      (ClientEvent.ClientEventError, client.failDeal c dealState err)]
  | none =>
    (client.dealLoop c handlers fuel w dealState).map fun evs =>
      (ClientEvent.ClientEventOpen, dealState) :: evs

/-- Go: `type provider struct`, the limits of a retrieval provider. -/
structure provider where
  paymentInterval : Nat
  paymentIntervalIncrease : Nat
  pricePerByte : storageimpl.TokenAmount
  deriving DecidableEq, Repr

/-- Go: `NewProvider`; the fields its literal does not name hold the zero value. -/
def NewProvider : provider :=
  { paymentInterval := 0, paymentIntervalIncrease := 0, pricePerByte := storageimpl.FromInt 2 }

/-- Go: `SetPricePerByte`. -/
def provider.SetPricePerByte (p : provider) (price : storageimpl.TokenAmount) : provider :=
  { p with pricePerByte := price }

/-- Go: `SetPaymentInterval`. -/
def provider.SetPaymentInterval (p : provider) (paymentInterval paymentIntervalIncrease : Nat) :
    provider :=
  { p with paymentInterval := paymentInterval,
           paymentIntervalIncrease := paymentIntervalIncrease }

/-- Go: the `blockio.BlockReader` that `blockio.NewSelectorBlockReader(root,
loader)` returns, known by its root. -/
structure BlockReader where
  root : blockio.Link
  deriving DecidableEq, Repr

/-- Go: `type providerDealEnvironment struct`; `br` is nil until the loop sets it. -/
structure providerDealEnvironment where
  br : Option BlockReader
  minPricePerByte : storageimpl.TokenAmount
  maxPaymentInterval : Nat
  maxPaymentIntervalIncrease : Nat
  deriving DecidableEq, Repr

/-- Go: `providerDealEnvironment.CheckDealParams`; the result is the text of
the error, `none` for nil. -/
def providerDealEnvironment.CheckDealParams (pde : providerDealEnvironment)
    (pricePerByte : storageimpl.TokenAmount) (paymentInterval paymentIntervalIncrease : Nat) :
    Option GoString :=
  if storageimpl.LessThan pricePerByte pde.minPricePerByte then some priceTooLow
  else if paymentInterval > pde.maxPaymentInterval then some intervalTooLarge
  else if paymentIntervalIncrease > pde.maxPaymentIntervalIncrease then some increaseTooLarge
  else none

/-- Go: `providerDealEnvironment.NextBlock`. `ReadBlock` is `ReadBlock(ctx)` of
a block reader; the result is `(block, done, err)`. -/
def providerDealEnvironment.NextBlock (pde : providerDealEnvironment)
    (ReadBlock : BlockReader → Block × Bool × Option GoString) :
    Block × Bool × Option GoString :=
  match pde.br with
  | none => (⟨[], []⟩, false, some couldNotReadBlock)
  | some br => ReadBlock br

/-- Go: `retrievalmarket.ProviderDealState`, the fields the loop of the
provider reads and writes, and its counters. -/
structure ProviderDealState where
  Status : DealStatus
  TotalSent : Nat
  FundsReceived : storageimpl.TokenAmount
  Message : GoString
  PayloadCID : blockio.Cid
  deriving DecidableEq, Repr

/-- Go: `retrievalmarket.ProviderEvent`, the events `provider.go` sends. -/
inductive ProviderEvent where
  | ProviderEventOpen
  | ProviderEventProgress
  | ProviderEventError
  | ProviderEventComplete
  deriving DecidableEq, Repr

/-- The handlers of `providerstates` that `HandleDealStream` chooses from. -/
inductive ProviderHandler where
  | ReceiveDeal
  | SendBlocks
  | ProcessPayment
  deriving DecidableEq, Repr

/-- The handlers of `providerstates` are outside the sources: `handlers h env w
ds` is the deal state after `handler(ctx, environment, dealState)` has run with
the environment `env` in the world `w` and the modifier it returns has been
applied, together with the world it leaves. -/
abbrev ProviderHandlers (W : Type) :=
  ProviderHandler → providerDealEnvironment → W → ProviderDealState → W × ProviderDealState

/-- What `HandleDealStream` does that others can see, in order: a notification
to the subscribers, the call of a handler with its environment, the creation
of the block reader, and the deferred `stream.Close()` when it returns. -/
inductive ProviderEffect where
  | notifySubscribers (evt : ProviderEvent) (ds : ProviderDealState)
  | handler (h : ProviderHandler) (environment : providerDealEnvironment)
      (ds : ProviderDealState)
  | NewSelectorBlockReader (root : blockio.Link)
  | Close
  deriving DecidableEq, Repr

/-- The `switch dealState.Status` of `HandleDealStream`; `none` is the `default` case. -/
def providerHandlerFor (c : DealStatuses) (status : DealStatus) : Option ProviderHandler :=
  if status = c.DealStatusNew then some ProviderHandler.ReceiveDeal
  else if status = c.DealStatusAccepted ∨ status = c.DealStatusOngoing ∨
      status = c.DealStatusUnsealing then some ProviderHandler.SendBlocks
  else if status = c.DealStatusFundsNeeded ∨ status = c.DealStatusFundsNeededLastPayment then
    some ProviderHandler.ProcessPayment
  else none

/-- Go: `provider.failDeal`: the deal state it writes, which is also the state
it notifies the subscribers of with `ProviderEventError`. -/
def provider.failDeal (c : DealStatuses) (dealState : ProviderDealState) (err : GoString) :
    ProviderDealState :=
  { dealState with Message := err, Status := c.DealStatusFailed }

/-- The loop `for { ... }` of `HandleDealStream` with what follows it: the
effects of its first `fuel` rounds, in order; a run that ends within these
rounds ends with `Close`. -/
def provider.dealLoop {W : Type} (c : DealStatuses) (handlers : ProviderHandlers W) :
    Nat → providerDealEnvironment → W → ProviderDealState → List ProviderEffect
  | 0, _, _, _ => []
  | fuel + 1, environment, w, dealState =>
    match providerHandlerFor c dealState.Status with
    | none =>
      [ProviderEffect.notifySubscribers ProviderEvent.ProviderEventError
          (provider.failDeal c dealState unexpectedDealState),
        ProviderEffect.Close]
    | some handler =>
      let r := handlers handler environment w dealState
      ProviderEffect.handler handler environment dealState ::
        if c.IsTerminalStatus r.2.Status then
          if c.IsTerminalSuccess r.2.Status then
            [ProviderEffect.notifySubscribers ProviderEvent.ProviderEventComplete r.2,
              ProviderEffect.Close]
          else
            [ProviderEffect.notifySubscribers ProviderEvent.ProviderEventError r.2,
              ProviderEffect.Close]
        else
          match environment.br with
          | none =>
            ProviderEffect.NewSelectorBlockReader ⟨r.2.PayloadCID⟩ ::
              ProviderEffect.notifySubscribers ProviderEvent.ProviderEventProgress r.2 ::
              provider.dealLoop c handlers fuel
                { environment with br := some ⟨⟨r.2.PayloadCID⟩⟩ } r.1 r.2
          | some _ =>
            ProviderEffect.notifySubscribers ProviderEvent.ProviderEventProgress r.2 ::
              provider.dealLoop c handlers fuel environment r.1 r.2

/-- The deal state `HandleDealStream` starts from; the fields its literal does
not name hold the zero value. -/
def newDealState (c : DealStatuses) : ProviderDealState :=
  { Status := c.DealStatusNew, TotalSent := 0, FundsReceived := storageimpl.FromInt 0,
    Message := [], PayloadCID := 0 }

/-- The environment `HandleDealStream` starts from: no block reader, and the
limits of the provider. -/
def newEnvironment (p : provider) : providerDealEnvironment :=
  ⟨none, p.pricePerByte, p.paymentInterval, p.paymentIntervalIncrease⟩

/-- Go: `provider.HandleDealStream`, the effects of the run up to the first
`fuel` rounds of its loop. -/
def provider.HandleDealStream {W : Type} (c : DealStatuses) (handlers : ProviderHandlers W)
    (p : provider) (fuel : Nat) (w : W) : List ProviderEffect :=
  ProviderEffect.notifySubscribers ProviderEvent.ProviderEventOpen (newDealState c) ::
    provider.dealLoop c handlers fuel (newEnvironment p) w (newDealState c)

/-- Status constants for the examples, numbered in the order of the fields;
the status 8 is the terminal success, and the failure 7 is terminal. -/
def statuses : DealStatuses :=
  { DealStatusNew := 0, DealStatusAccepted := 1, DealStatusPaymentChannelCreated := 2,
    DealStatusOngoing := 3, DealStatusUnsealing := 4, DealStatusFundsNeeded := 5,
    DealStatusFundsNeededLastPayment := 6, DealStatusFailed := 7,
    IsTerminalStatus := fun s => decide (s = 7 ∨ s = 8),
    IsTerminalSuccess := fun s => decide (s = 8) }

/-- Handlers of a client for the examples: each moves the deal to the next status
up to the status 3, and from there to the success 8. -/
def stepClient : ClientHandlers Unit :=
  fun _ w ds => (w, { ds with Status := if ds.Status < 3 then ds.Status + 1 else 8 })

/-- Handlers of a provider for the examples: `ReceiveDeal` accepts the deal for
the payload 5, `SendBlocks` asks for the last payment, `ProcessPayment`
completes the deal. -/
def stepProvider : ProviderHandlers Unit :=
  fun h _ w ds =>
    match h with
    | ProviderHandler.ReceiveDeal => (w, { ds with Status := 1, PayloadCID := 5 })
    | ProviderHandler.SendBlocks => (w, { ds with Status := 6 })
    | ProviderHandler.ProcessPayment => (w, { ds with Status := 8 })

/-- Library and store calls for the examples: a prefix is one byte, the CID of
data is the sum of its bytes, the verifier expects the CID 6, and the store
takes every block. -/
def sumEnvironment : clientDealEnvironment :=
  { PrefixFromBytes := fun b =>
      match b with
      | [v] => Except.ok ⟨v, 0, 0, 0⟩
      | _ => Except.error ['p'],
    Sum := fun _ d => Except.ok d.sum,
    NewBlockWithCid := fun d c => Except.ok ⟨c, d⟩,
    Verify := fun blk => if blk.Cid = 6 then (true, none) else (false, some ['v']),
    Put := fun _ => none }

end retrievalimpl

/-! ## Theorems: block verifier and traverser -/

namespace blockio

theorem step_accept (decode : Decoder) (sv : SelectorVerifier) (l : Link) (rest : List Link)
    (blk : Block) (kids : List Link) (l1 : Link) (rest1 : List Link)
    (h : Expecting sv l rest) (hc : blk.Cid = l.Cid) (hd : decode l blk.RawData = some kids)
    (hk : kids ++ rest = l1 :: rest1) :
    ∃ sv1, Verify decode sv blk = some (sv1, Outcome.ret false none) ∧ Expecting sv1 l1 rest1 := by
  have hc := hc.symm
  rcases h with ⟨hn, rfl, rfl⟩ | ⟨t, ht, h1, h2, h3, h4, h5⟩
  · simp [Verify, hn, Start, NewTraverser, IsComplete, checkState, CurrentRequest, Advance,
      sendResponse, resume, nextLoad, hc, hd, hk, Expecting]
  · simp [Verify, ht, IsComplete, checkState, CurrentRequest, Advance,
      sendResponse, resume, nextLoad, hc, hd, hk, Expecting, h1, h2, h3, h4, h5]

theorem step_finish (decode : Decoder) (sv : SelectorVerifier) (l : Link) (rest : List Link)
    (blk : Block) (kids : List Link)
    (h : Expecting sv l rest) (hc : blk.Cid = l.Cid) (hd : decode l blk.RawData = some kids)
    (hk : kids ++ rest = []) :
    ∃ sv1, Verify decode sv blk = some (sv1, Outcome.ret true none) ∧ Closed sv1 := by
  have hc := hc.symm
  rcases h with ⟨hn, rfl, rfl⟩ | ⟨t, ht, h1, h2, h3, h4, h5⟩
  · simp [Verify, hn, Start, NewTraverser, IsComplete, checkState, CurrentRequest, Advance,
      sendResponse, resume, nextLoad, hc, hd, hk, Closed, doneState]
  · simp [Verify, ht, IsComplete, checkState, CurrentRequest, Advance,
      sendResponse, resume, nextLoad, hc, hd, hk, Closed, h1, h2, h3, h4, h5, doneState]

theorem step_reject (decode : Decoder) (sv : SelectorVerifier) (l : Link) (rest : List Link)
    (blk : Block) (h : Expecting sv l rest) (hc : blk.Cid ≠ l.Cid) :
    ∃ sv1, Verify decode sv blk = some (sv1, Outcome.ret false (some Error.ErrVerification)) ∧
      Closed sv1 := by
  have hc1 : ¬ l.Cid = blk.Cid := fun e => hc e.symm
  rcases h with ⟨hn, rfl, rfl⟩ | ⟨t, ht, h1, h2, h3, h4, h5⟩
  · simp [Verify, hn, Start, NewTraverser, IsComplete, checkState, CurrentRequest,
      Traverser.Error, sendResponse, resume, nextLoad, hc1, Closed, doneState]
  · simp [Verify, ht, IsComplete, checkState, CurrentRequest, Traverser.Error,
      sendResponse, resume, nextLoad, hc1, Closed, h1, h2, h3, h4, h5, doneState]

theorem step_closed (decode : Decoder) (sv : SelectorVerifier) (blk : Block) (h : Closed sv) :
    ∃ sv1, Verify decode sv blk = some (sv1, Outcome.ret false (some Error.ErrVerification)) ∧
      Closed sv1 := by
  rcases h with ⟨t, ht, ⟨h1, h2⟩ | ⟨h1, s, h2, h3⟩⟩
  · simp [Verify, ht, IsComplete, checkState, h1, h2, Closed]
  · simp [Verify, ht, IsComplete, checkState, h1, h2, h3, Closed]


theorem loads_of_walkLinks (decode : Decoder) (bs : Link → Option Data)
    (f : Link → Option (List Link))
    (hf : ∀ l ls, f l = some ls → ∀ rest out, Loads decode bs rest out →
      Loads decode bs (l :: rest) (ls ++ out)) :
    ∀ (kids sub : List Link), walkLinks f kids = some sub →
      ∀ rest out, Loads decode bs rest out → Loads decode bs (kids ++ rest) (sub ++ out) := by
  intro kids
  induction kids with
  | nil =>
    intro sub h rest out ho
    simp [walkLinks] at h
    subst h
    simpa using ho
  | cons k ks ih =>
    intro sub h rest out ho
    simp only [walkLinks] at h
    cases hk : f k with
    | none => simp [hk] at h
    | some a =>
      cases hks : walkLinks f ks with
      | none => simp [hk, hks] at h
      | some b =>
        simp [hk, hks] at h
        subst h
        have h1 := ih b hks rest out ho
        have h2 := hf k a hk _ _ h1
        simpa [List.append_assoc] using h2

theorem loads_of_walkOrder (decode : Decoder) (bs : Link → Option Data) :
    ∀ (fuel : Nat) (l : Link) (ls : List Link), walkOrder decode bs fuel l = some ls →
      ∀ rest out, Loads decode bs rest out → Loads decode bs (l :: rest) (ls ++ out) := by
  intro fuel
  induction fuel with
  | zero => intro l ls h; simp [walkOrder] at h
  | succ n ih =>
    intro l ls h rest out ho
    simp only [walkOrder] at h
    cases hb : bs l with
    | none => simp [hb] at h
    | some d =>
      cases hd : decode l d with
      | none => simp [hb, hd] at h
      | some kids =>
        cases hm : walkLinks (walkOrder decode bs n) kids with
        | none => simp [hb, hd, hm] at h
        | some sub =>
          simp [hb, hd, hm] at h
          subst h
          have := loads_of_walkLinks decode bs (walkOrder decode bs n) ih kids sub hm rest out ho
          exact Loads.load l rest d kids _ hb hd this

theorem loads_nil (decode : Decoder) (bs : Link → Option Data) (ls : List Link)
    (h : Loads decode bs [] ls) : ls = [] := by
  cases h; rfl

theorem verifySeq_append (decode : Decoder) :
    ∀ (xs ys : List Block) (sv sv1 sv2 : SelectorVerifier) (os1 os2 : List Outcome),
      VerifySeq decode sv xs = some (sv1, os1) → VerifySeq decode sv1 ys = some (sv2, os2) →
      VerifySeq decode sv (xs ++ ys) = some (sv2, os1 ++ os2) := by
  intro xs
  induction xs with
  | nil =>
    intro ys sv sv1 sv2 os1 os2 h1 h2
    simp [VerifySeq] at h1
    obtain ⟨rfl, rfl⟩ := h1
    simpa using h2
  | cons x xs ih =>
    intro ys sv sv1 sv2 os1 os2 h1 h2
    simp only [VerifySeq] at h1
    cases hv : Verify decode sv x with
    | none => simp [hv] at h1
    | some p =>
      obtain ⟨svx, o⟩ := p
      cases hr : VerifySeq decode svx xs with
      | none => simp [hv, hr] at h1
      | some q =>
        obtain ⟨svy, os⟩ := q
        simp [hv, hr] at h1
        obtain ⟨rfl, rfl⟩ := h1
        have := ih ys svx svy sv2 os os2 hr h2
        simp [VerifySeq, hv, this]

theorem verifySeq_accepted (decode : Decoder) (bs : Link → Option Data) :
    ∀ (pre : List Link) (x : Link) (post : List Link) (sv : SelectorVerifier) (l : Link)
      (rest : List Link), Loads decode bs (l :: rest) (pre ++ x :: post) → Expecting sv l rest →
      ∃ sv1 rest1, VerifySeq decode sv (blocksOf bs pre) =
          some (sv1, List.replicate pre.length (Outcome.ret false none)) ∧
        Expecting sv1 x rest1 ∧ Loads decode bs (x :: rest1) (x :: post) := by
  intro pre
  induction pre with
  | nil =>
    intro x post sv l rest h he
    cases h with
    | load _ _ d kids ls hb hd hl =>
      exact ⟨sv, rest, by simp [blocksOf, VerifySeq], he, Loads.load _ _ d kids _ hb hd hl⟩
  | cons p pre ih =>
    intro x post sv l rest h he
    cases h with
    | load _ _ d kids ls hb hd hl =>
      cases hk : kids ++ rest with
      | nil =>
        rw [hk] at hl
        have := loads_nil decode bs _ hl
        simp at this
      | cons l1 rest1 =>
        rw [hk] at hl
        obtain ⟨sva, hva, hea⟩ := step_accept decode sv p rest ⟨p.Cid, d⟩ kids l1 rest1 he rfl hd hk
        obtain ⟨sv1, rest2, hs, he1, hl1⟩ := ih x post sva l1 rest1 hl hea
        refine ⟨sv1, rest2, ?_, he1, hl1⟩
        simp [blocksOf, hb, VerifySeq, hva, List.replicate_succ] 
        simp [blocksOf] at hs
        simp [hs]

theorem verifySeq_closed (decode : Decoder) :
    ∀ (later : List Block) (sv : SelectorVerifier), Closed sv →
      ∃ sv1, VerifySeq decode sv later =
        some (sv1, List.replicate later.length (Outcome.ret false (some Error.ErrVerification))) ∧
        Closed sv1 := by
  intro later
  induction later with
  | nil => intro sv h; exact ⟨sv, by simp [VerifySeq], h⟩
  | cons b bs ih =>
    intro sv h
    obtain ⟨sva, hva, hca⟩ := step_closed decode sv b h
    obtain ⟨sv1, hs, hc1⟩ := ih sva hca
    exact ⟨sv1, by simp [VerifySeq, hva, hs, List.replicate_succ], hc1⟩


theorem loads_out_nil (decode : Decoder) (bs : Link → Option Data) (wl : List Link)
    (h : Loads decode bs wl []) : wl = [] := by
  cases h; rfl

theorem loads_stored (decode : Decoder) (bs : Link → Option Data) (wl ls : List Link)
    (h : Loads decode bs wl ls) : ∀ l ∈ ls, ∃ d, bs l = some d := by
  induction h with
  | done => simp
  | load l rest d kids ls hb _ _ ih =>
    intro l1 hl1
    rcases List.mem_cons.1 hl1 with rfl | h1
    · exact ⟨d, hb⟩
    · exact ih l1 h1

theorem blocksOf_length (bs : Link → Option Data) :
    ∀ (ls : List Link), (∀ l ∈ ls, ∃ d, bs l = some d) → (blocksOf bs ls).length = ls.length := by
  intro ls
  induction ls with
  | nil => intro _; rfl
  | cons a as ih =>
    intro h
    obtain ⟨d, hd⟩ := h a (List.mem_cons_self a as)
    have := ih (fun l hl => h l (List.mem_cons_of_mem a hl))
    simp [blocksOf, hd] at this ⊢
    exact this

theorem blocksOf_append (bs : Link → Option Data) (xs ys : List Link) :
    blocksOf bs (xs ++ ys) = blocksOf bs xs ++ blocksOf bs ys := by
  simp [blocksOf]

theorem isComplete_result (t t1 : Traverser) (b : Bool) (h : IsComplete t = some (t1, b)) :
    t1.isDone = b ∧ t1.awaitRequest = false ∧ t1.walker = t.walker := by
  unfold IsComplete checkState at h
  split at h
  · split at h
    · simp at h
      obtain ⟨rfl, rfl⟩ := h
      simp
    · simp at h
  · simp at h
    obtain ⟨rfl, rfl⟩ := h
    simp_all

theorem closed_of_done (decode : Decoder) (sv sv1 : SelectorVerifier) (blk : Block)
    (e : Option Error) (h : Verify decode sv blk = some (sv1, Outcome.ret true e)) :
    Closed sv1 := by
  unfold Verify at h
  simp only at h
  repeat' split at h
  all_goals try (simp at h)
  rename_i t4 done hc
  obtain ⟨rfl, rfl, rfl⟩ := h
  have := isComplete_result _ _ _ hc
  exact ⟨t4, rfl, Or.inl ⟨this.1, this.2.1⟩⟩

/-- C1: for every store `bs` and root whose explore-all-recursive walk succeeds
and loads the links `ls` (at least one, the root first, a repeated subtree
again each time it is reached), a fresh `SelectorVerifier` for the root that is
fed the blocks of `ls` in this order answers `(false, nil)` to every call but
the last and `(true, nil)` to the last. -/
theorem verify_accepts_walk_order (decode : Decoder) (bs : Link → Option Data) (fuel : Nat)
    (root : Link) (ls : List Link) (h : walkOrder decode bs fuel root = some ls) :
    1 ≤ ls.length ∧ ls.head? = some root ∧ (blocksOf bs ls).length = ls.length ∧
    ∃ sv, VerifySeq decode (NewSelectorVerifier root) (blocksOf bs ls) =
      some (sv, List.replicate (ls.length - 1) (Outcome.ret false none) ++
        [Outcome.ret true none]) := by
  have hl : Loads decode bs [root] ls := by
    simpa using loads_of_walkOrder decode bs fuel root ls h [] [] Loads.done
  have hst := loads_stored decode bs _ _ hl
  have hne : ls ≠ [] := by
    intro e
    rw [e] at hl
    cases hl
  have hhd : ls.head? = some root := by
    cases hl with
    | load _ _ d kids ls1 hb hd hk => rfl
  refine ⟨List.length_pos.2 hne, hhd, blocksOf_length bs ls hst, ?_⟩
  obtain ⟨pre, x, rfl⟩ : ∃ pre x, ls = pre ++ [x] :=
    ⟨ls.dropLast, ls.getLast hne, (List.dropLast_append_getLast hne).symm⟩
  have he : Expecting (NewSelectorVerifier root) root [] := Or.inl ⟨rfl, rfl, rfl⟩
  obtain ⟨sv1, rest1, hs, he1, hl1⟩ :=
    verifySeq_accepted decode bs pre x [] (NewSelectorVerifier root) root [] hl he
  cases hl1 with
  | load _ _ d kids _ hb hd hk =>
    have hk0 := loads_out_nil decode bs _ hk
    obtain ⟨sv2, hv, _⟩ := step_finish decode sv1 x rest1 ⟨x.Cid, d⟩ kids he1 rfl hd hk0
    refine ⟨sv2, ?_⟩
    rw [blocksOf_append]
    have h2 : VerifySeq decode sv1 (blocksOf bs [x]) = some (sv2, [Outcome.ret true none]) := by
      simp [blocksOf, hb, VerifySeq, hv]
    have := verifySeq_append decode _ _ _ _ _ _ _ hs h2
    simpa using this

/-- C1 on the tree of the test: the nine blocks in walk order are accepted. -/
theorem verify_accepts_walk_order_witness :
    walkOrder testDecode testStore 5 ⟨0⟩ =
        some [⟨0⟩, ⟨1⟩, ⟨3⟩, ⟨1⟩, ⟨4⟩, ⟨1⟩, ⟨1⟩, ⟨2⟩, ⟨1⟩] ∧
      ∃ sv, VerifySeq testDecode (NewSelectorVerifier ⟨0⟩)
          (blocksOf testStore [⟨0⟩, ⟨1⟩, ⟨3⟩, ⟨1⟩, ⟨4⟩, ⟨1⟩, ⟨1⟩, ⟨2⟩, ⟨1⟩]) =
        some (sv, List.replicate 8 (Outcome.ret false none) ++ [Outcome.ret true none]) :=
  ⟨by decide,
    (verify_accepts_walk_order testDecode testStore 5 ⟨0⟩
      [⟨0⟩, ⟨1⟩, ⟨3⟩, ⟨1⟩, ⟨4⟩, ⟨1⟩, ⟨1⟩, ⟨2⟩, ⟨1⟩] (by decide)).2.2.2⟩

/-- C2: when the walk order is `pre ++ x :: post` and the verifier has accepted
the blocks of `pre` (each call answered `(false, nil)`), a block whose CID is
not that of the expected link `x` is answered `(false, ErrVerification)`, and so
is every later call on that verifier, whatever blocks `later` holds. -/
theorem verify_rejects_out_of_order (decode : Decoder) (bs : Link → Option Data) (fuel : Nat)
    (root : Link) (pre : List Link) (x : Link) (post : List Link) (blk : Block)
    (later : List Block)
    (h : walkOrder decode bs fuel root = some (pre ++ x :: post)) (hne : blk.Cid ≠ x.Cid) :
    ∃ sv1 sv2 sv3,
      VerifySeq decode (NewSelectorVerifier root) (blocksOf bs pre) =
        some (sv1, List.replicate pre.length (Outcome.ret false none)) ∧
      Verify decode sv1 blk = some (sv2, Outcome.ret false (some Error.ErrVerification)) ∧
      VerifySeq decode sv2 later =
        some (sv3, List.replicate later.length (Outcome.ret false (some Error.ErrVerification))) := by
  have hl : Loads decode bs [root] (pre ++ x :: post) := by
    simpa using loads_of_walkOrder decode bs fuel root _ h [] [] Loads.done
  have he : Expecting (NewSelectorVerifier root) root [] := Or.inl ⟨rfl, rfl, rfl⟩
  obtain ⟨sv1, rest1, hs, he1, _⟩ :=
    verifySeq_accepted decode bs pre x post (NewSelectorVerifier root) root [] hl he
  obtain ⟨sv2, hv, hc⟩ := step_reject decode sv1 x rest1 blk he1 hne
  obtain ⟨sv3, hs3, _⟩ := verifySeq_closed decode later sv2 hc
  exact ⟨sv1, sv2, sv3, hs, hv, hs3⟩

/-- C2 on the tree of the test: the middle list in place of the second leaf. -/
theorem verify_rejects_out_of_order_witness :
    walkOrder testDecode testStore 5 ⟨0⟩ =
        some ([⟨0⟩, ⟨1⟩, ⟨3⟩] ++ ⟨1⟩ :: [⟨4⟩, ⟨1⟩, ⟨1⟩, ⟨2⟩, ⟨1⟩]) ∧
      (⟨4, [1, 1, 2, 1]⟩ : Block).Cid ≠ (⟨1⟩ : Link).Cid ∧
      ∃ sv1 sv2 sv3,
        VerifySeq testDecode (NewSelectorVerifier ⟨0⟩) (blocksOf testStore [⟨0⟩, ⟨1⟩, ⟨3⟩]) =
          some (sv1, List.replicate 3 (Outcome.ret false none)) ∧
        Verify testDecode sv1 ⟨4, [1, 1, 2, 1]⟩ =
          some (sv2, Outcome.ret false (some Error.ErrVerification)) ∧
        VerifySeq testDecode sv2 [⟨1, []⟩] =
          some (sv3, List.replicate 1 (Outcome.ret false (some Error.ErrVerification))) :=
  ⟨by decide, by decide,
    verify_rejects_out_of_order testDecode testStore 5 ⟨0⟩ [⟨0⟩, ⟨1⟩, ⟨3⟩] ⟨1⟩
      [⟨4⟩, ⟨1⟩, ⟨1⟩, ⟨2⟩, ⟨1⟩] ⟨4, [1, 1, 2, 1]⟩ [⟨1, []⟩] (by decide) (by decide)⟩

/-- C3: once a call of `Verify` has answered `done = true`, every later call on
that verifier answers `(false, ErrVerification)` for every block; and `Advance`
on a traverser that `IsComplete` reports complete returns the error
"cannot advance when done" and leaves the walk as it was (the reader is not
delivered). -/
theorem verify_after_done (decode : Decoder) (sv sv1 : SelectorVerifier) (blk : Block)
    (e : Option Error) (h : Verify decode sv blk = some (sv1, Outcome.ret true e)) :
    (∀ later : List Block, ∃ sv2, VerifySeq decode sv1 later =
        some (sv2, List.replicate later.length (Outcome.ret false (some Error.ErrVerification)))) ∧
    (∀ (t t1 : Traverser) (reader : Data), IsComplete t = some (t1, true) →
        Advance decode t reader = some (t1, some Error.cannotAdvanceWhenDone) ∧
        t1.walker = t.walker) := by
  constructor
  · intro later
    obtain ⟨sv2, hs, _⟩ := verifySeq_closed decode later sv1 (closed_of_done decode sv sv1 blk e h)
    exact ⟨sv2, hs⟩
  · intro t t1 reader ht
    exact ⟨by simp [Advance, ht], (isComplete_result t t1 true ht).2.2⟩

/-- C3 on a single leaf: the block of the root ends the traversal, the next is refused. -/
theorem verify_after_done_witness :
    Verify testDecode (NewSelectorVerifier ⟨1⟩) ⟨1, []⟩ =
        some (⟨⟨1⟩, some { NewTraverser ⟨1⟩ with
          isDone := true, walker := Walker.returned }⟩, Outcome.ret true none) ∧
      ∃ sv2, VerifySeq testDecode
          ⟨⟨1⟩, some { NewTraverser ⟨1⟩ with isDone := true, walker := Walker.returned }⟩
          [⟨1, []⟩, ⟨2, []⟩] =
        some (sv2, List.replicate 2 (Outcome.ret false (some Error.ErrVerification))) :=
  ⟨by decide,
    (verify_after_done testDecode (NewSelectorVerifier ⟨1⟩)
      ⟨⟨1⟩, some { NewTraverser ⟨1⟩ with isDone := true, walker := Walker.returned }⟩
      ⟨1, []⟩ none (by decide)).1 [⟨1, []⟩, ⟨2, []⟩]⟩

end blockio

/-! ## Theorems: state-machine definition -/

namespace statemachine

theorem get_set {K V : Type} [DecidableEq K] (m : GoMap K V) (k k1 : K) (v : V) :
    (m.set k v).get k1 = if k1 = k then some v else m.get k1 := rfl

theorem get_empty {K V : Type} (k : K) : (GoMap.empty : GoMap K V).get k = none := rfl

theorem addSrc_fold_allEvents (e : EventDesc) :
    ∀ (srcs : List State) (tb : Tables),
      (srcs.foldl (addSrc e) tb).allEvents = tb.allEvents := by
  intro srcs
  induction srcs with
  | nil => intro tb; rfl
  | cons a as ih => intro tb; simp [List.foldl, ih, addSrc]

theorem addSrc_fold_transitions (e : EventDesc) (ev : EventName) (s : State) :
    ∀ (srcs : List State) (tb : Tables),
      (srcs.foldl (addSrc e) tb).transitions.get ⟨ev, s⟩ =
        if e.Name = ev ∧ s ∈ srcs then some e.Dst else tb.transitions.get ⟨ev, s⟩ := by
  intro srcs
  induction srcs using List.reverseRecOn with
  | nil => intro tb; simp
  | append_singleton as a ih =>
    intro tb
    simp only [List.foldl_append, List.foldl_cons, List.foldl_nil]
    simp only [addSrc, get_set, ih]
    by_cases h1 : e.Name = ev <;> by_cases h2 : s = a <;> by_cases h3 : s ∈ as <;>
      simp [h1, h2, h3, eKey.mk.injEq] <;> simp_all [eq_comm]

theorem addSrc_fold_allStates (e : EventDesc) (s : State) :
    ∀ (srcs : List State) (tb : Tables),
      ((srcs.foldl (addSrc e) tb).allStates.get s).isSome = true ↔
        (srcs ≠ [] ∧ (s ∈ srcs ∨ s = e.Dst)) ∨ (tb.allStates.get s).isSome = true := by
  intro srcs
  induction srcs using List.reverseRecOn with
  | nil => intro tb; simp
  | append_singleton as a ih =>
    intro tb
    simp only [List.foldl_append, List.foldl_cons, List.foldl_nil]
    simp only [addSrc, get_set]
    by_cases h1 : s = e.Dst
    · simp [h1]
    · by_cases h2 : s = a
      · simp [h1, h2]
      · simp only [h1, h2, if_false, ih]
        by_cases h4 : as = [] <;> simp [h1, h2, h4]

theorem buildTables_transitions (ev : EventName) (s : State) :
    ∀ (events : List EventDesc) (tb : Tables),
      (events.foldl addEvent tb).transitions.get ⟨ev, s⟩ =
        match (events.filter fun d => decide (d.Name = ev ∧ s ∈ d.Src)).getLast? with
        | some d => some d.Dst
        | none => tb.transitions.get ⟨ev, s⟩ := by
  intro events
  induction events using List.reverseRecOn with
  | nil => intro tb; simp
  | append_singleton ds d ih =>
    intro tb
    simp only [List.foldl_append, List.foldl_cons, List.foldl_nil, List.filter_append]
    simp only [addEvent, addSrc_fold_transitions, ih]
    by_cases h : d.Name = ev ∧ s ∈ d.Src
    · simp [List.filter_cons, h]
    · simp [List.filter_cons, h]

theorem isEvent_concat (ds : List EventDesc) (d : EventDesc) (n : EventName) :
    isEvent (ds ++ [d]) n ↔ isEvent ds n ∨ d.Name = n := by
  unfold isEvent
  constructor
  · rintro ⟨e, he, h⟩
    rcases List.mem_append.1 he with h1 | h1
    · exact Or.inl ⟨e, h1, h⟩
    · rw [List.mem_singleton] at h1
      subst h1
      exact Or.inr h
  · rintro (⟨e, he, h⟩ | h)
    · exact ⟨e, List.mem_append_left _ he, h⟩
    · exact ⟨d, List.mem_append_right _ (List.mem_singleton_self d), h⟩

theorem inTable_concat (ds : List EventDesc) (d : EventDesc) (s : State) :
    inTable (ds ++ [d]) s ↔ inTable ds s ∨ (d.Src ≠ [] ∧ (s ∈ d.Src ∨ s = d.Dst)) := by
  unfold inTable
  constructor
  · rintro ⟨e, he, h⟩
    rcases List.mem_append.1 he with h1 | h1
    · exact Or.inl ⟨e, h1, h⟩
    · rw [List.mem_singleton] at h1
      subst h1
      exact Or.inr h
  · rintro (⟨e, he, h⟩ | h)
    · exact ⟨e, List.mem_append_left _ he, h⟩
    · exact ⟨d, List.mem_append_right _ (List.mem_singleton_self d), h⟩

theorem buildTables_allEvents (n : EventName) :
    ∀ (events : List EventDesc) (tb : Tables),
      ((events.foldl addEvent tb).allEvents.get n).isSome = true ↔
        isEvent events n ∨ (tb.allEvents.get n).isSome = true := by
  intro events
  induction events using List.reverseRecOn with
  | nil => intro tb; simp [isEvent]
  | append_singleton ds d ih =>
    intro tb
    simp only [List.foldl_append, List.foldl_cons, List.foldl_nil]
    simp only [addEvent, get_set, addSrc_fold_allEvents, isEvent_concat]
    by_cases h : n = d.Name
    · simp [h]
    · have h1 : ¬ d.Name = n := fun e => h e.symm
      simp only [h, if_false, ih, h1, or_false]

theorem buildTables_allStates (s : State) :
    ∀ (events : List EventDesc) (tb : Tables),
      ((events.foldl addEvent tb).allStates.get s).isSome = true ↔
        inTable events s ∨ (tb.allStates.get s).isSome = true := by
  intro events
  induction events using List.reverseRecOn with
  | nil => intro tb; simp [inTable]
  | append_singleton ds d ih =>
    intro tb
    simp only [List.foldl_append, List.foldl_cons, List.foldl_nil]
    simp only [addEvent, addSrc_fold_allStates, ih, inTable_concat]
    tauto

theorem allEvents_iff (events : List EventDesc) (n : EventName) :
    ((buildTables events).allEvents.get n).isSome = true ↔ isEvent events n := by
  simp [buildTables, buildTables_allEvents, get_empty]

theorem allStates_iff (events : List EventDesc) (s : State) :
    ((buildTables events).allStates.get s).isSome = true ↔ inTable events s := by
  simp [buildTables, buildTables_allStates, get_empty]

theorem transitions_eq (events : List EventDesc) (ev : EventName) (s : State) :
    (buildTables events).transitions.get ⟨ev, s⟩ =
      ((events.filter fun d => decide (d.Name = ev ∧ s ∈ d.Src)).getLast?).map EventDesc.Dst := by
  rw [buildTables, buildTables_transitions]
  cases (events.filter fun d => decide (d.Name = ev ∧ s ∈ d.Src)).getLast? <;> simp [get_empty]


theorem parseKey_before (tb : Tables) (t : GoString) :
    parseKey tb (before_ ++ t) = prefixed t event tb.allEvents callbackBeforeEvent := by
  simp [parseKey, HasPrefix, TrimPrefix, before_]

theorem parseKey_leave (tb : Tables) (t : GoString) :
    parseKey tb (leave_ ++ t) = prefixed t state tb.allStates callbackLeaveState := by
  simp [parseKey, HasPrefix, TrimPrefix, before_, leave_]

theorem parseKey_enter (tb : Tables) (t : GoString) :
    parseKey tb (enter_ ++ t) = prefixed t state tb.allStates callbackEnterState := by
  simp [parseKey, HasPrefix, TrimPrefix, before_, leave_, enter_]

theorem parseKey_after (tb : Tables) (t : GoString) :
    parseKey tb (after_ ++ t) = prefixed t event tb.allEvents callbackAfterEvent := by
  simp [parseKey, HasPrefix, TrimPrefix, before_, leave_, enter_, after_]

theorem parseKey_bare (tb : Tables) (name : GoString) (h : reservedPrefix name = false) :
    parseKey tb name =
      if (tb.allStates.get name).isSome then (name, callbackEnterState)
      else if (tb.allEvents.get name).isSome then (name, callbackAfterEvent)
      else (name, callbackNone) := by
  simp only [reservedPrefix, Bool.or_eq_false_iff] at h
  obtain ⟨⟨⟨h1, h2⟩, h3⟩, h4⟩ := h
  simp [parseKey, h1, h2, h3, h4]

theorem callbacks_single (initial : State) (events : List EventDesc) (name : GoString)
    (cb : Callback) (k : cKey) :
    (NewDefinition initial events [(name, cb)]).callbacks.get k =
      if (parseKey (buildTables events) name).2 ≠ callbackNone ∧
          k = ⟨(parseKey (buildTables events) name).1, (parseKey (buildTables events) name).2⟩
      then some cb else none := by
  simp only [NewDefinition, List.foldl_cons, List.foldl_nil, addCallback]
  by_cases h : (parseKey (buildTables events) name).2 = callbackNone
  · simp [h, get_empty]
  · simp [h, get_set, get_empty]

theorem hasPrefix_split (s p : GoString) (h : HasPrefix s p = true) :
    s = p ++ s.drop p.length := by
  unfold HasPrefix at h
  rw [ List.isPrefixOf_iff_prefix] at h
  obtain ⟨t, rfl⟩ := h
  simp

theorem append_ne_self (p t : GoString) (h : p ≠ []) : p ++ t ≠ t := by
  intro e
  have := congrArg List.length e
  simp at this
  exact h this

theorem callbacks_fold (tb : Tables) (k : cKey) :
    ∀ (cbs : List (GoString × Callback)) (m : GoMap cKey Callback),
      (cbs.foldl (addCallback tb) m).get k =
        match (cbs.filter (registers tb k)).getLast? with
        | some en => some en.2
        | none => m.get k := by
  intro cbs
  induction cbs using List.reverseRecOn with
  | nil => intro m; simp
  | append_singleton cs c ih =>
    intro m
    simp only [List.foldl_append, List.foldl_cons, List.foldl_nil, List.filter_append]
    by_cases h1 : (parseKey tb c.1).2 = callbackNone
    · have hd : ¬ registers tb k c = true := by simp [registers, h1]
      rw [List.filter_cons, if_neg hd, List.filter_nil, List.append_nil]
      simp only [addCallback, h1, ne_eq, not_true_eq_false, if_false]
      rw [ih]
    · by_cases h2 : k = ⟨(parseKey tb c.1).1, (parseKey tb c.1).2⟩
      · have hd : registers tb k c = true := by simp [registers, h1, ← h2]
        rw [List.filter_cons, if_pos hd, List.filter_nil, List.getLast?_append_cons,
          List.getLast?_singleton]
        simp only [addCallback, h1, ne_eq, not_false_eq_true, if_true, get_set]
        rw [if_pos h2]
      · have hd : ¬ registers tb k c = true := by simp [registers, h2]
        rw [List.filter_cons, if_neg hd, List.filter_nil, List.append_nil]
        simp only [addCallback, h1, ne_eq, not_false_eq_true, if_true, get_set]
        rw [if_neg h2, ih]

theorem prefixed_declared (t reserved : GoString) (declared : GoMap GoString Bool) (ty : Nat)
    (hd : (declared.get t).isSome = true) :
    prefixed t reserved declared ty = if t = reserved then ([], ty) else (t, ty) := by
  simp [prefixed, hd]

/-- The key built by a prefixed callback name never is the bare name itself with another situation. -/
theorem prefixed_cases (t reserved : GoString) (declared : GoMap GoString Bool) (ty : Nat) :
    prefixed t reserved declared ty = ([], ty) ∨ prefixed t reserved declared ty = (t, ty) ∨
      prefixed t reserved declared ty = (t, callbackNone) := by
  unfold prefixed
  split
  · exact Or.inl rfl
  · split
    · exact Or.inr (Or.inl rfl)
    · exact Or.inr (Or.inr rfl)

/-- A key with a reserved prefix never registers its own full name for entering or after. -/
theorem reserved_not_bare (tb : Tables) (name : GoString) (h : reservedPrefix name = true) :
    ¬ ((parseKey tb name).2 ≠ callbackNone ∧ (parseKey tb name).1 = name ∧
      ((parseKey tb name).2 = callbackEnterState ∨ (parseKey tb name).2 = callbackAfterEvent)) := by
  simp only [reservedPrefix, Bool.or_eq_true] at h
  have b0 : before_ ≠ [] := by decide
  have l0 : leave_ ≠ [] := by decide
  have e0 : enter_ ≠ [] := by decide
  have a0 : after_ ≠ [] := by decide
  rcases h with ((h | h) | h) | h
  · have hs := hasPrefix_split _ _ h
    rw [hs, parseKey_before]
    have := append_ne_self before_ (List.drop before_.length name) b0
    rcases prefixed_cases (List.drop before_.length name) event tb.allEvents callbackBeforeEvent
      with h1 | h1 | h1 <;> rw [h1] <;>
      simp [callbackBeforeEvent, callbackEnterState, callbackAfterEvent, callbackNone]
  · have hs := hasPrefix_split _ _ h
    rw [hs, parseKey_leave]
    rcases prefixed_cases (List.drop leave_.length name) state tb.allStates callbackLeaveState
      with h1 | h1 | h1 <;> rw [h1] <;>
      simp [callbackLeaveState, callbackEnterState, callbackAfterEvent, callbackNone]
  · have hs := hasPrefix_split _ _ h
    rw [hs, parseKey_enter]
    have := append_ne_self enter_ (List.drop enter_.length name) e0
    rcases prefixed_cases (List.drop enter_.length name) state tb.allStates callbackEnterState
      with h1 | h1 | h1 <;> rw [h1] <;>
      simp [callbackEnterState, callbackAfterEvent, callbackNone, e0, Ne.symm this]
  · have hs := hasPrefix_split _ _ h
    rw [hs, parseKey_after]
    have := append_ne_self after_ (List.drop after_.length name) a0
    rcases prefixed_cases (List.drop after_.length name) event tb.allEvents callbackAfterEvent
      with h1 | h1 | h1 <;> rw [h1] <;>
      simp [callbackEnterState, callbackAfterEvent, callbackNone, a0, Ne.symm this]

theorem parseKey_wildcards (tb : Tables) :
    parseKey tb (before_ ++ event) = ([], callbackBeforeEvent) ∧
    parseKey tb (leave_ ++ state) = ([], callbackLeaveState) ∧
    parseKey tb (enter_ ++ state) = ([], callbackEnterState) ∧
    parseKey tb (after_ ++ event) = ([], callbackAfterEvent) := by
  refine ⟨?_, ?_, ?_, ?_⟩
  · rw [parseKey_before]; simp [prefixed]
  · rw [parseKey_leave]; simp [prefixed]
  · rw [parseKey_enter]; simp [prefixed]
  · rw [parseKey_after]; simp [prefixed]

theorem wildcard_lookup (initial : State) (events : List EventDesc) (b l e a : Callback)
    (cbs : List (GoString × Callback)) (hp : cbs.Perm (wildcardCallbacks b l e a)) (k : cKey) :
    (NewDefinition initial events cbs).callbacks.get k =
      if k = ⟨[], callbackBeforeEvent⟩ then some b
      else if k = ⟨[], callbackLeaveState⟩ then some l
      else if k = ⟨[], callbackEnterState⟩ then some e
      else if k = ⟨[], callbackAfterEvent⟩ then some a
      else none := by
  obtain ⟨p1, p2, p3, p4⟩ := parseKey_wildcards (buildTables events)
  have hf := hp.filter (registers (buildTables events) k)
  simp only [NewDefinition]
  rw [callbacks_fold]
  by_cases h1 : k = ⟨[], callbackBeforeEvent⟩
  · have hw : (wildcardCallbacks b l e a).filter (registers (buildTables events) k) =
        [(before_ ++ event, b)] := by
      subst h1
      simp [wildcardCallbacks, List.filter_cons, registers, p1, p2, p3, p4, callbackBeforeEvent,
        callbackLeaveState, callbackEnterState, callbackAfterEvent, callbackNone]
    rw [hw] at hf
    rw [List.perm_singleton.1 hf, if_pos h1]
    rfl
  · by_cases h2 : k = ⟨[], callbackLeaveState⟩
    · have hw : (wildcardCallbacks b l e a).filter (registers (buildTables events) k) =
          [(leave_ ++ state, l)] := by
        subst h2
        simp [wildcardCallbacks, List.filter_cons, registers, p1, p2, p3, p4,
          callbackBeforeEvent, callbackLeaveState, callbackEnterState, callbackAfterEvent,
          callbackNone]
      rw [hw] at hf
      rw [List.perm_singleton.1 hf, if_neg h1, if_pos h2]
      rfl
    · by_cases h3 : k = ⟨[], callbackEnterState⟩
      · have hw : (wildcardCallbacks b l e a).filter (registers (buildTables events) k) =
            [(enter_ ++ state, e)] := by
          subst h3
          simp [wildcardCallbacks, List.filter_cons, registers, p1, p2, p3, p4,
            callbackBeforeEvent, callbackLeaveState, callbackEnterState, callbackAfterEvent,
            callbackNone]
        rw [hw] at hf
        rw [List.perm_singleton.1 hf, if_neg h1, if_neg h2, if_pos h3]
        rfl
      · by_cases h4 : k = ⟨[], callbackAfterEvent⟩
        · have hw : (wildcardCallbacks b l e a).filter (registers (buildTables events) k) =
              [(after_ ++ event, a)] := by
            subst h4
            simp [wildcardCallbacks, List.filter_cons, registers, p1, p2, p3, p4,
              callbackBeforeEvent, callbackLeaveState, callbackEnterState, callbackAfterEvent,
              callbackNone]
          rw [hw] at hf
          rw [List.perm_singleton.1 hf, if_neg h1, if_neg h2, if_neg h3, if_pos h4]
          rfl
        · have hw : (wildcardCallbacks b l e a).filter (registers (buildTables events) k) =
              [] := by
            simp [wildcardCallbacks, List.filter_cons, registers, p1, p2, p3, p4, h1, h2, h3, h4]
          rw [hw] at hf
          rw [List.perm_nil.1 hf, if_neg h1, if_neg h2, if_neg h3, if_neg h4]
          rfl

/-- C4: `Initial` returns the initial state whatever the events; `Transition e s`
returns `ok = true` exactly when some `EventDesc` has the name `e` and lists `s`
in its `Src`; the state returned is then the `Dst` of the last such
`EventDesc` of the list; in every other case the result is the empty state
with `ok = false`. -/
theorem transition_table (initial : State) (events : List EventDesc)
    (callbacks : List (GoString × Callback)) (ev : EventName) (s : State) :
    Initial (NewDefinition initial events callbacks) = initial ∧
    ((∃ dst, Transition (NewDefinition initial events callbacks) ev s = (dst, true)) ↔
      ∃ d ∈ events, d.Name = ev ∧ s ∈ d.Src) ∧
    (∀ (pre : List EventDesc) (d : EventDesc) (post : List EventDesc),
      events = pre ++ d :: post → d.Name = ev → s ∈ d.Src →
      (∀ d1 ∈ post, ¬ (d1.Name = ev ∧ s ∈ d1.Src)) →
      Transition (NewDefinition initial events callbacks) ev s = (d.Dst, true)) ∧
    ((¬ ∃ d ∈ events, d.Name = ev ∧ s ∈ d.Src) →
      Transition (NewDefinition initial events callbacks) ev s = (EmptyState, false)) := by
  have key : (NewDefinition initial events callbacks).transitions.get ⟨ev, s⟩ =
      ((events.filter fun d => decide (d.Name = ev ∧ s ∈ d.Src)).getLast?).map EventDesc.Dst :=
    transitions_eq events ev s
  have hnone : (¬ ∃ d ∈ events, d.Name = ev ∧ s ∈ d.Src) →
      (events.filter fun d => decide (d.Name = ev ∧ s ∈ d.Src)) = [] := by
    intro h
    rw [List.filter_eq_nil_iff]
    intro d hd hp
    exact h ⟨d, hd, by simpa using hp⟩
  have hlast : ∀ (pre : List EventDesc) (d : EventDesc) (post : List EventDesc),
      events = pre ++ d :: post → d.Name = ev → s ∈ d.Src →
      (∀ d1 ∈ post, ¬ (d1.Name = ev ∧ s ∈ d1.Src)) →
      (events.filter fun d => decide (d.Name = ev ∧ s ∈ d.Src)).getLast? = some d := by
    intro pre d post he h1 h2 h3
    have hp : (post.filter fun d => decide (d.Name = ev ∧ s ∈ d.Src)) = [] := by
      rw [List.filter_eq_nil_iff]
      intro d1 hd1 hp1
      exact h3 d1 hd1 (by simpa using hp1)
    have hd : decide (d.Name = ev ∧ s ∈ d.Src) = true := by simp [h1, h2]
    rw [he, List.filter_append, List.filter_cons, if_pos hd, hp, List.getLast?_append_cons,
      List.getLast?_singleton]
  have hsome : ∀ x, (events.filter fun d => decide (d.Name = ev ∧ s ∈ d.Src)).getLast? = some x →
      Transition (NewDefinition initial events callbacks) ev s = (x.Dst, true) := by
    intro x hx
    unfold Transition
    rw [key, hx]
    rfl
  have hnone1 : (events.filter fun d => decide (d.Name = ev ∧ s ∈ d.Src)) = [] →
      Transition (NewDefinition initial events callbacks) ev s = (EmptyState, false) := by
    intro hx
    unfold Transition
    rw [key, hx]
    rfl
  refine ⟨rfl, ?_, ?_, ?_⟩
  · constructor
    · rintro ⟨dst, h⟩
      by_contra hc
      rw [hnone1 (hnone hc)] at h
      simp at h
    · rintro ⟨d, hd, h1, h2⟩
      have hne : (events.filter fun d => decide (d.Name = ev ∧ s ∈ d.Src)) ≠ [] := by
        intro e
        rw [List.filter_eq_nil_iff] at e
        exact e d hd (by simp [h1, h2])
      cases hg : (events.filter fun d => decide (d.Name = ev ∧ s ∈ d.Src)).getLast? with
      | none => exact absurd (List.getLast?_eq_none_iff.1 hg) hne
      | some x => exact ⟨x.Dst, hsome x hg⟩
  · intro pre d post he h1 h2 h3
    exact hsome d (hlast pre d post he h1 h2 h3)
  · intro h
    exact hnone1 (hnone h)

/-- C4 on an events list that declares `go` from `idle` twice: the later wins. -/
theorem transition_table_witness :
    Transition (NewDefinition [] twiceEvents []) ['g', 'o'] ['i', 'd', 'l', 'e'] =
        (['d', 'o', 'n', 'e'], true) ∧
      Transition (NewDefinition [] twiceEvents []) ['n', 'o'] ['b', 'u', 's', 'y'] =
        (EmptyState, false) :=
  ⟨(transition_table [] twiceEvents [] ['g', 'o'] ['i', 'd', 'l', 'e']).2.2.1
      [⟨['g', 'o'], [['i', 'd', 'l', 'e']], ['b', 'u', 's', 'y']⟩]
      ⟨['g', 'o'], [['i', 'd', 'l', 'e'], ['b', 'u', 's', 'y']], ['d', 'o', 'n', 'e']⟩
      [⟨['n', 'o'], [['i', 'd', 'l', 'e']], ['o', 'f', 'f']⟩]
      rfl rfl (by decide) (by decide),
    (transition_table [] twiceEvents [] ['n', 'o'] ['b', 'u', 's', 'y']).2.2.2 (by decide)⟩

/-- C5 as stated fails: with an event named `event` and a state named `state`,
the keys `before_event`, `after_event`, `leave_state` and `enter_state` are the
wildcard keys, so the lookups for the event `event` and the state `state` find
nothing. -/
theorem specific_keys_counterexample :
    isEvent eventEvents event ∧ inTable eventEvents state ∧
      BeforeCallbackForEvent (NewDefinition [] eventEvents [(before_ ++ event, 7)]) event = none ∧
      BeforeCallbackForAllEvents (NewDefinition [] eventEvents [(before_ ++ event, 7)]) = some 7 ∧
      AfterCallbackForEvent (NewDefinition [] eventEvents [(after_ ++ event, 7)]) event = none ∧
      LeaveCallbackForState (NewDefinition [] eventEvents [(leave_ ++ state, 7)]) state = none ∧
      EnterCallbackForState (NewDefinition [] eventEvents [(enter_ ++ state, 7)]) state = none :=
  ⟨⟨_, List.mem_singleton_self _, rfl⟩,
    ⟨_, List.mem_singleton_self _, by decide, Or.inr rfl⟩,
    by decide, by decide, by decide, by decide, by decide⟩

/-- C5 amended: for an event name `E` of the events list and a state `S` of the
transition table, a callbacks map whose only key is `before_E` (`after_E`)
makes `BeforeCallbackForEvent E` (`AfterCallbackForEvent E`) return that
callback exactly when `E` is not `event`, and a map whose only key is `leave_S`
(`enter_S`) makes `LeaveCallbackForState S` (`EnterCallbackForState S`) return
it exactly when `S` is not `state`. -/
theorem specific_keys (initial : State) (events : List EventDesc) (E : EventName) (S : State)
    (cb : Callback) (hE : isEvent events E) (hS : inTable events S) :
    (BeforeCallbackForEvent (NewDefinition initial events [(before_ ++ E, cb)]) E = some cb ↔
      E ≠ event) ∧
    (AfterCallbackForEvent (NewDefinition initial events [(after_ ++ E, cb)]) E = some cb ↔
      E ≠ event) ∧
    (LeaveCallbackForState (NewDefinition initial events [(leave_ ++ S, cb)]) S = some cb ↔
      S ≠ state) ∧
    (EnterCallbackForState (NewDefinition initial events [(enter_ ++ S, cb)]) S = some cb ↔
      S ≠ state) := by
  have hE1 := (allEvents_iff events E).2 hE
  have hS1 := (allStates_iff events S).2 hS
  have e0 : event ≠ [] := by decide
  have s0 : state ≠ [] := by decide
  refine ⟨?_, ?_, ?_, ?_⟩
  · rw [BeforeCallbackForEvent, callbacks_single, parseKey_before, prefixed_declared _ _ _ _ hE1]
    by_cases h : E = event
    · subst h; simp [callbackBeforeEvent, callbackNone, e0]
    · simp [h, callbackBeforeEvent, callbackNone]
  · rw [AfterCallbackForEvent, callbacks_single, parseKey_after, prefixed_declared _ _ _ _ hE1]
    by_cases h : E = event
    · subst h; simp [callbackAfterEvent, callbackNone, e0]
    · simp [h, callbackAfterEvent, callbackNone]
  · rw [LeaveCallbackForState, callbacks_single, parseKey_leave, prefixed_declared _ _ _ _ hS1]
    by_cases h : S = state
    · subst h; simp [callbackLeaveState, callbackNone, s0]
    · simp [h, callbackLeaveState, callbackNone]
  · rw [EnterCallbackForState, callbacks_single, parseKey_enter, prefixed_declared _ _ _ _ hS1]
    by_cases h : S = state
    · subst h; simp [callbackEnterState, callbackNone, s0]
    · simp [h, callbackEnterState, callbackNone]

/-- C5 amended, on the event `go` and the state `busy`. -/
theorem specific_keys_witness :
    isEvent goEvents ['g', 'o'] ∧ inTable goEvents ['b', 'u', 's', 'y'] ∧
      BeforeCallbackForEvent (NewDefinition [] goEvents [(before_ ++ ['g', 'o'], 7)])
        ['g', 'o'] = some 7 ∧
      EnterCallbackForState (NewDefinition [] goEvents [(enter_ ++ ['b', 'u', 's', 'y'], 7)])
        ['b', 'u', 's', 'y'] = some 7 :=
  ⟨⟨_, List.mem_singleton_self _, rfl⟩,
    ⟨_, List.mem_singleton_self _, by decide, Or.inr rfl⟩,
    (specific_keys [] goEvents ['g', 'o'] ['b', 'u', 's', 'y'] 7
      ⟨_, List.mem_singleton_self _, rfl⟩
      ⟨_, List.mem_singleton_self _, by decide, Or.inr rfl⟩).1.2 (by decide),
    (specific_keys [] goEvents ['g', 'o'] ['b', 'u', 's', 'y'] 7
      ⟨_, List.mem_singleton_self _, rfl⟩
      ⟨_, List.mem_singleton_self _, by decide, Or.inr rfl⟩).2.2.2.2 (by decide)⟩

/-- C6 as stated fails: a state named `before_x` is in the transition table, but
the bare key `before_x` is read as a `before_` key, so entering that state finds
no callback. -/
theorem bare_state_counterexample :
    inTable beforeEvents (before_ ++ ['x']) ∧
      EnterCallbackForState (NewDefinition [] beforeEvents [(before_ ++ ['x'], 7)])
        (before_ ++ ['x']) = none :=
  ⟨⟨_, List.mem_singleton_self _, by decide, Or.inl (List.mem_singleton_self _)⟩, by decide⟩

/-- C6 amended: for a state `S` of the transition table, a callbacks map whose
only key is the bare name `S` makes `EnterCallbackForState S` return that
callback exactly when `S` does not begin with `before_`, `leave_`, `enter_` or
`after_`. -/
theorem bare_state_key (initial : State) (events : List EventDesc) (S : State) (cb : Callback)
    (hS : inTable events S) :
    EnterCallbackForState (NewDefinition initial events [(S, cb)]) S = some cb ↔
      reservedPrefix S = false := by
  have hS1 := (allStates_iff events S).2 hS
  rw [EnterCallbackForState, callbacks_single]
  constructor
  · intro h
    by_contra hr
    rw [Bool.not_eq_false] at hr
    have hn := reserved_not_bare (buildTables events) S hr
    split at h
    · rename_i hc
      obtain ⟨h1, h2⟩ := hc
      rw [cKey.mk.injEq] at h2
      exact hn ⟨h1, h2.1.symm, Or.inl h2.2.symm⟩
    · simp at h
  · intro hr
    rw [parseKey_bare _ _ hr]
    simp [hS1, callbackEnterState, callbackNone]

/-- C6 amended, on the state `busy`. -/
theorem bare_state_key_witness :
    inTable goEvents ['b', 'u', 's', 'y'] ∧
      EnterCallbackForState (NewDefinition [] goEvents [(['b', 'u', 's', 'y'], 7)])
        ['b', 'u', 's', 'y'] = some 7 :=
  ⟨⟨_, List.mem_singleton_self _, by decide, Or.inr rfl⟩,
    (bare_state_key [] goEvents ['b', 'u', 's', 'y'] 7
      ⟨_, List.mem_singleton_self _, by decide, Or.inr rfl⟩).2 (by decide)⟩

/-- C7 as stated fails: the event `open` leads to a state that is also named
`open`; the bare key `open` is taken for the state, so `AfterCallbackForEvent`
finds nothing and `EnterCallbackForState` finds the callback. -/
theorem bare_event_counterexample :
    isEvent openEvents ['o', 'p', 'e', 'n'] ∧
      AfterCallbackForEvent (NewDefinition [] openEvents [(['o', 'p', 'e', 'n'], 7)])
        ['o', 'p', 'e', 'n'] = none ∧
      EnterCallbackForState (NewDefinition [] openEvents [(['o', 'p', 'e', 'n'], 7)])
        ['o', 'p', 'e', 'n'] = some 7 :=
  ⟨⟨_, List.mem_singleton_self _, rfl⟩, by decide, by decide⟩

/-- C7 amended: for an event name `E` of the events list, a callbacks map whose
only key is the bare name `E` makes `AfterCallbackForEvent E` return that
callback exactly when `E` does not begin with `before_`, `leave_`, `enter_` or
`after_` and is not also a state of the transition table. -/
theorem bare_event_key (initial : State) (events : List EventDesc) (E : EventName)
    (cb : Callback) (hE : isEvent events E) :
    AfterCallbackForEvent (NewDefinition initial events [(E, cb)]) E = some cb ↔
      (reservedPrefix E = false ∧ ¬ inTable events E) := by
  have hE1 := (allEvents_iff events E).2 hE
  rw [AfterCallbackForEvent, callbacks_single]
  constructor
  · intro h
    split at h
    · rename_i hc
      obtain ⟨h1, h2⟩ := hc
      rw [cKey.mk.injEq] at h2
      have hr : reservedPrefix E = false := by
        by_contra hr
        rw [Bool.not_eq_false] at hr
        exact reserved_not_bare (buildTables events) E hr ⟨h1, h2.1.symm, Or.inr h2.2.symm⟩
      refine ⟨hr, ?_⟩
      intro hs
      have hS1 := (allStates_iff events E).2 hs
      rw [parseKey_bare _ _ hr] at h2
      simp [hS1, callbackEnterState, callbackAfterEvent] at h2
    · simp at h
  · rintro ⟨hr, hs⟩
    have hS1 : ¬ ((buildTables events).allStates.get E).isSome = true :=
      fun h => hs ((allStates_iff events E).1 h)
    rw [parseKey_bare _ _ hr]
    simp [hS1, hE1, callbackAfterEvent, callbackNone]

/-- C7 amended, on the event `go`. -/
theorem bare_event_key_witness :
    isEvent goEvents ['g', 'o'] ∧
      AfterCallbackForEvent (NewDefinition [] goEvents [(['g', 'o'], 7)]) ['g', 'o'] = some 7 :=
  ⟨⟨_, List.mem_singleton_self _, rfl⟩,
    (bare_event_key [] goEvents ['g', 'o'] 7 ⟨_, List.mem_singleton_self _, rfl⟩).2
      ⟨by decide, by
        rintro ⟨e, he, _, h⟩
        rw [goEvents, List.mem_singleton] at he
        subst he
        revert h
        decide⟩⟩

/-- C8 as stated fails: the wildcard callbacks are stored under the empty
target, so the lookups for the event with the empty name and for the empty
state, both declared here, return them. -/
theorem wildcard_keys_counterexample :
    isEvent emptyEvents [] ∧ inTable emptyEvents [] ∧
      BeforeCallbackForEvent (NewDefinition [] emptyEvents (wildcardCallbacks 1 2 3 4)) [] =
        some 1 ∧
      LeaveCallbackForState (NewDefinition [] emptyEvents (wildcardCallbacks 1 2 3 4)) [] =
        some 2 ∧
      EnterCallbackForState (NewDefinition [] emptyEvents (wildcardCallbacks 1 2 3 4)) [] =
        some 3 ∧
      AfterCallbackForEvent (NewDefinition [] emptyEvents (wildcardCallbacks 1 2 3 4)) [] =
        some 4 :=
  ⟨⟨_, List.mem_singleton_self _, rfl⟩,
    ⟨_, List.mem_singleton_self _, by decide, Or.inr rfl⟩,
    by decide, by decide, by decide, by decide⟩

/-- C8 amended: for every events list, a callbacks map that holds the keys
`before_event`, `leave_state`, `enter_state` and `after_event`, ranged over in
any order, makes the four wildcard lookups return the callback stored under
the respective key, and every event-specific or state-specific lookup for a
name that is not empty returns nil. -/
theorem wildcard_keys (initial : State) (events : List EventDesc) (b l e a : Callback)
    (cbs : List (GoString × Callback)) (hp : cbs.Perm (wildcardCallbacks b l e a)) :
    BeforeCallbackForAllEvents (NewDefinition initial events cbs) = some b ∧
    LeaveCallbackAllStates (NewDefinition initial events cbs) = some l ∧
    EnterCallbackAllStates (NewDefinition initial events cbs) = some e ∧
    AfterCallbackForAllEvents (NewDefinition initial events cbs) = some a ∧
    ∀ n : GoString, n ≠ [] →
      BeforeCallbackForEvent (NewDefinition initial events cbs) n = none ∧
      LeaveCallbackForState (NewDefinition initial events cbs) n = none ∧
      EnterCallbackForState (NewDefinition initial events cbs) n = none ∧
      AfterCallbackForEvent (NewDefinition initial events cbs) n = none := by
  refine ⟨?_, ?_, ?_, ?_, ?_⟩
  · rw [BeforeCallbackForAllEvents, wildcard_lookup initial events b l e a cbs hp]
    simp
  · rw [LeaveCallbackAllStates, wildcard_lookup initial events b l e a cbs hp]
    simp [callbackBeforeEvent, callbackLeaveState]
  · rw [EnterCallbackAllStates, wildcard_lookup initial events b l e a cbs hp]
    simp [callbackBeforeEvent, callbackLeaveState, callbackEnterState]
  · rw [AfterCallbackForAllEvents, wildcard_lookup initial events b l e a cbs hp]
    simp [callbackBeforeEvent, callbackLeaveState, callbackEnterState, callbackAfterEvent]
  · intro n hn
    refine ⟨?_, ?_, ?_, ?_⟩
    · rw [BeforeCallbackForEvent, wildcard_lookup initial events b l e a cbs hp]; simp [hn]
    · rw [LeaveCallbackForState, wildcard_lookup initial events b l e a cbs hp]; simp [hn]
    · rw [EnterCallbackForState, wildcard_lookup initial events b l e a cbs hp]; simp [hn]
    · rw [AfterCallbackForEvent, wildcard_lookup initial events b l e a cbs hp]; simp [hn]

/-- C8 amended, on the four keys in reverse order and an event named `event`. -/
theorem wildcard_keys_witness :
    (wildcardCallbacks 1 2 3 4).reverse.Perm (wildcardCallbacks 1 2 3 4) ∧
      BeforeCallbackForAllEvents
        (NewDefinition [] eventEvents (wildcardCallbacks 1 2 3 4).reverse) = some 1 ∧
      BeforeCallbackForEvent
        (NewDefinition [] eventEvents (wildcardCallbacks 1 2 3 4).reverse) event = none :=
  ⟨List.reverse_perm _,
    (wildcard_keys [] eventEvents 1 2 3 4 (wildcardCallbacks 1 2 3 4).reverse
      (List.reverse_perm _)).1,
    ((wildcard_keys [] eventEvents 1 2 3 4 (wildcardCallbacks 1 2 3 4).reverse
      (List.reverse_perm _)).2.2.2.2 event (by decide)).1⟩

end statemachine

/-! ## Theorems: storage provider -/

namespace storageimpl

theorem inStates_iff (s : DealState) (l : List DealState) : inStates s l = true ↔ s ∈ l := by
  induction l with
  | nil => simp [inStates]
  | cons a as ih =>
    by_cases h : s = a
    · simp [inStates, h]
    · simp [inStates, h, ih]

/-- C9 as stated fails: for a piece of one byte at the ask of one token per GiB
the exact quotient is `1 / 2 ^ 30`, above the offered price `0`, yet the stage
computes the minimal price `0` and returns no error. -/
theorem validating_price_counterexample :
    ((cheapDeal.Proposal.StoragePricePerEpoch : ℚ) <
        (unitAsk.Price : ℚ) * (cheapDeal.Proposal.PieceSize : ℚ) / 2 ^ 30) ∧
      validating (Except.ok 0) (fun _ => Except.ok ⟨0, 0⟩) unitAsk cheapDeal = Except.ok none := by
  constructor
  · simp [cheapDeal, unitAsk]
  · rfl

/-- C9 amended: for every ask and every deal proposal the stage `validating`
returns an error whenever the `StoragePricePerEpoch` of the proposal is less
than `ask.Price × PieceSize / 2 ^ 30` rounded down to an integer. -/
theorem validating_price (head : Except GoString Nat)
    (getBalance : Address → Except GoString Balance) (ask : StorageAsk) (deal : MinerDeal)
    (h : deal.Proposal.StoragePricePerEpoch <
      ⌊((ask.Price : ℚ) * (deal.Proposal.PieceSize : ℚ)) / 2 ^ 30⌋) :
    ∃ e, validating head getBalance ask deal = Except.error e := by
  have hf : ⌊((ask.Price : ℚ) * (deal.Proposal.PieceSize : ℚ)) / 2 ^ 30⌋ =
      (ask.Price * (deal.Proposal.PieceSize : Int)) / ((2 ^ 30 : Nat) : Int) := by
    rw [← Rat.floor_intCast_div_natCast]
    push_cast
    rfl
  rw [hf] at h
  cases head with
  | error msg => exact ⟨ValidatingError.node msg, rfl⟩
  | ok height =>
    by_cases hx : height ≥ deal.Proposal.ProposalExpiration
    · refine ⟨ValidatingError.expired, ?_⟩
      simp only [validating]
      rw [if_pos hx]
    · have hl : LessThan deal.Proposal.StoragePricePerEpoch
          (Div (Mul ask.Price (FromInt deal.Proposal.PieceSize)) (FromInt (1 <<< 30))) = true := by
        simp only [LessThan, Div, Mul, FromInt, decide_eq_true_eq]
        exact h
      refine ⟨ValidatingError.priceTooLow deal.Proposal.StoragePricePerEpoch
        (Div (Mul ask.Price (FromInt deal.Proposal.PieceSize)) (FromInt (1 <<< 30))), ?_⟩
      simp only [validating]
      rw [if_neg hx, if_pos hl]

/-- C9 amended, on a piece of 4 GiB at the ask 2 with the offer 5 below the minimal 8. -/
theorem validating_price_witness :
    (largeDeal.Proposal.StoragePricePerEpoch <
        ⌊(((2 : Int) : ℚ) * (largeDeal.Proposal.PieceSize : ℚ)) / 2 ^ 30⌋) ∧
      ∃ e, validating (Except.ok 0) (fun _ => Except.ok ⟨0, 0⟩) ⟨2, 0⟩ largeDeal =
        Except.error e :=
  ⟨by norm_num [largeDeal, cheapDeal],
    validating_price (Except.ok 0) (fun _ => Except.ok ⟨0, 0⟩) ⟨2, 0⟩ largeDeal
      (by norm_num [largeDeal, cheapDeal])⟩

/-- C10: `ValidatePush` accepts (returns nil) exactly when the voucher is a
`*StorageDataTransferVoucher` whose `Proposal` names a deal of the store with
`Client` equal to the sender, `Ref` equal to `baseCid` and `State` among
`DataTransferStates`; the first failing condition, in this order, is reported as
`ErrWrongVoucherType`, `ErrNoDeal`, `ErrWrongPeer`, `ErrWrongPiece`,
`ErrInacceptableDealState`; `ValidatePull` returns `ErrNoPullAccepted` whatever
its arguments. -/
theorem validatePush_accepts (deals : Cid → Option MinerDeal) (DataTransferStates : List DealState)
    (sender : PeerID) (voucher : Voucher) (baseCid : Cid) (Selector : Nat) :
    (ValidatePush deals DataTransferStates sender voucher baseCid Selector = none ↔
      ∃ p deal, voucher = Voucher.StorageDataTransferVoucher p ∧ deals p = some deal ∧
        deal.Client = sender ∧ deal.Ref = baseCid ∧ deal.State ∈ DataTransferStates) ∧
    (ValidatePush deals DataTransferStates sender voucher baseCid Selector =
        some RequestError.ErrWrongVoucherType ↔
      ¬ ∃ p, voucher = Voucher.StorageDataTransferVoucher p) ∧
    (ValidatePush deals DataTransferStates sender voucher baseCid Selector =
        some RequestError.ErrNoDeal ↔
      ∃ p, voucher = Voucher.StorageDataTransferVoucher p ∧ deals p = none) ∧
    (ValidatePush deals DataTransferStates sender voucher baseCid Selector =
        some RequestError.ErrWrongPeer ↔
      ∃ p deal, voucher = Voucher.StorageDataTransferVoucher p ∧ deals p = some deal ∧
        deal.Client ≠ sender) ∧
    (ValidatePush deals DataTransferStates sender voucher baseCid Selector =
        some RequestError.ErrWrongPiece ↔
      ∃ p deal, voucher = Voucher.StorageDataTransferVoucher p ∧ deals p = some deal ∧
        deal.Client = sender ∧ deal.Ref ≠ baseCid) ∧
    (ValidatePush deals DataTransferStates sender voucher baseCid Selector =
        some RequestError.ErrInacceptableDealState ↔
      ∃ p deal, voucher = Voucher.StorageDataTransferVoucher p ∧ deals p = some deal ∧
        deal.Client = sender ∧ deal.Ref = baseCid ∧ deal.State ∉ DataTransferStates) ∧
    ValidatePush deals DataTransferStates sender voucher baseCid Selector ≠
      some RequestError.ErrNoPullAccepted ∧
    ValidatePull sender voucher baseCid Selector = some RequestError.ErrNoPullAccepted := by
  cases voucher with
  | other t => simp [ValidatePush, ValidatePull]
  | StorageDataTransferVoucher p =>
    cases hd : deals p with
    | none => simp [ValidatePush, ValidatePull, hd]
    | some deal =>
      by_cases h1 : deal.Client = sender <;> by_cases h2 : deal.Ref = baseCid <;>
        by_cases h3 : deal.State ∈ DataTransferStates <;>
        simp [ValidatePush, ValidatePull, hd, h1, h2, h3, inStates_iff]

end storageimpl

/-! ## Theorems: storage provider and client, continued -/

namespace storageimpl

/-- C11: the stage `verifydata` returns an error exactly when
`GeneratePieceCommitment` fails or the commitment it computes differs from the
`PieceRef` of the proposal; when it succeeds, the mutator it returns sets
`PiecePath` to the path of the file of `GeneratePieceCommitment` and leaves
every other field of the deal as it is. -/
theorem verifydata_result
    (GeneratePieceCommitment : Cid → Except GoString (List Nat × GoString)) (deal : MinerDeal) :
    ((∃ e, verifydata GeneratePieceCommitment deal = Except.error e) ↔
      ((∃ e, GeneratePieceCommitment deal.Ref = Except.error e) ∨
        ∃ commp path, GeneratePieceCommitment deal.Ref = Except.ok (commp, path) ∧
          commp ≠ deal.Proposal.PieceRef)) ∧
    (∀ m, verifydata GeneratePieceCommitment deal = Except.ok m →
      ∃ commp path, GeneratePieceCommitment deal.Ref = Except.ok (commp, path) ∧
        commp = deal.Proposal.PieceRef ∧ m = some (Mutation.setPiecePath path) ∧
        ∀ d : MinerDeal, (Mutation.setPiecePath path).apply d = { d with PiecePath := path } ∧
          ((Mutation.setPiecePath path).apply d).PiecePath = path ∧
          ((Mutation.setPiecePath path).apply d).Client = d.Client ∧
          ((Mutation.setPiecePath path).apply d).Proposal = d.Proposal ∧
          ((Mutation.setPiecePath path).apply d).ProposalCid = d.ProposalCid ∧
          ((Mutation.setPiecePath path).apply d).State = d.State ∧
          ((Mutation.setPiecePath path).apply d).Ref = d.Ref ∧
          ((Mutation.setPiecePath path).apply d).DealID = d.DealID ∧
          ((Mutation.setPiecePath path).apply d).SectorID = d.SectorID) := by
  unfold verifydata
  cases h : GeneratePieceCommitment deal.Ref with
  | error e => simp
  | ok r =>
    obtain ⟨commp, path⟩ := r
    by_cases hc : commp = deal.Proposal.PieceRef
    · simp [hc, Mutation.apply]
    · simp [hc]

/-- C11 on a deal whose commitment matches: the mutator writes the path of the file. -/
theorem verifydata_result_witness :
    verifydata okEnv.GeneratePieceCommitment cheapDeal =
        Except.ok (some (Mutation.setPiecePath ['f'])) ∧
      ∃ commp path, okEnv.GeneratePieceCommitment cheapDeal.Ref = Except.ok (commp, path) ∧
        commp = cheapDeal.Proposal.PieceRef ∧
        some (Mutation.setPiecePath ['f']) = some (Mutation.setPiecePath path) ∧
        ∀ d : MinerDeal, (Mutation.setPiecePath path).apply d = { d with PiecePath := path } ∧
          ((Mutation.setPiecePath path).apply d).PiecePath = path ∧
          ((Mutation.setPiecePath path).apply d).Client = d.Client ∧
          ((Mutation.setPiecePath path).apply d).Proposal = d.Proposal ∧
          ((Mutation.setPiecePath path).apply d).ProposalCid = d.ProposalCid ∧
          ((Mutation.setPiecePath path).apply d).State = d.State ∧
          ((Mutation.setPiecePath path).apply d).Ref = d.Ref ∧
          ((Mutation.setPiecePath path).apply d).DealID = d.DealID ∧
          ((Mutation.setPiecePath path).apply d).SectorID = d.SectorID :=
  ⟨rfl, (verifydata_result okEnv.GeneratePieceCommitment cheapDeal).2
    (some (Mutation.setPiecePath ['f'])) rfl⟩

/-- C12, the failing input: a decoded proposal that is signed, whose signature
verifies and whose `Provider` is the address 2 is read by a provider whose
actor is the address 3; `readProposal` returns the proposal with a nil error. -/
theorem readProposal_wrong_provider :
    signedProposal.DealProposal.ProposerSignature = some [1] ∧
      signedProposal.DealProposal.Provider ≠ 3 ∧
      readProposal 3 (Except.ok signedProposal) (fun _ => none) = (some signedProposal, none) :=
  ⟨rfl, by decide, rfl⟩

theorem mutateDeal_some (deals : GoMap Cid ClientDeal) (update : clientDealUpdate)
    (d : ClientDeal) (h : deals.get update.id = some d) :
    ∃ deal, (mutateDeal deals update).2 = Except.ok deal ∧ deal.ProposalCid =
      (match update.mutator with
        | some f => f { d with State := update.newState }
        | none => { d with State := update.newState }).ProposalCid := by
  simp [mutateDeal, h]

/-- C19: when the update carries no error and the deal store takes the
mutation, `onUpdated` starts the handler `new` with next state `DealAccepted`
for the new state `DealUnknown`, `accepted` with `DealStaged` for
`DealAccepted`, `staged` with `DealSealing` for `DealStaged`, `sealing` with
`DealNoUpdate` for `DealSealing`, and no handler for every other state; an
update that carries an error, and one for a deal the store does not hold,
fails the deal and starts no handler. -/
theorem onUpdated_stages (k : DealStates) (deals : GoMap Cid ClientDeal)
    (update : clientDealUpdate) (hk : k.distinct) :
    (∀ deal, update.err = none → (mutateDeal deals update).2 = Except.ok deal →
      ((update.newState = k.DealUnknown →
          (onUpdated k deals update).2 = ClientEffect.handle deal ClientHandler.new k.DealAccepted) ∧
        (update.newState = k.DealAccepted →
          (onUpdated k deals update).2 =
            ClientEffect.handle deal ClientHandler.accepted k.DealStaged) ∧
        (update.newState = k.DealStaged →
          (onUpdated k deals update).2 =
            ClientEffect.handle deal ClientHandler.staged k.DealSealing) ∧
        (update.newState = k.DealSealing →
          (onUpdated k deals update).2 =
            ClientEffect.handle deal ClientHandler.sealing k.DealNoUpdate) ∧
        (update.newState ≠ k.DealUnknown → update.newState ≠ k.DealAccepted →
          update.newState ≠ k.DealStaged → update.newState ≠ k.DealSealing →
          (onUpdated k deals update).2 = ClientEffect.nothing))) ∧
    (∀ e, update.err = some e →
      (onUpdated k deals update).2 = ClientEffect.failDeal update.id e) ∧
    (∀ e, update.err = none → (mutateDeal deals update).2 = Except.error e →
      (onUpdated k deals update).2 = ClientEffect.failDeal update.id e) := by
  obtain ⟨h1, h2, h3, h4, h5, h6⟩ := hk
  refine ⟨?_, ?_, ?_⟩
  · intro deal he hm
    refine ⟨?_, ?_, ?_, ?_, ?_⟩
    · intro hs
      simp [onUpdated, he, hm, hs]
    · intro hs
      simp [onUpdated, he, hm, hs, Ne.symm h1]
    · intro hs
      simp [onUpdated, he, hm, hs, Ne.symm h2, Ne.symm h4]
    · intro hs
      simp [onUpdated, he, hm, hs, Ne.symm h3, Ne.symm h5, Ne.symm h6]
    · intro n1 n2 n3 n4
      simp [onUpdated, he, hm, n1, n2, n3, n4]
  · intro e he
    simp [onUpdated, he]
  · intro e he hm
    simp [onUpdated, he, hm]

/-- C19 on an update to `DealAccepted` for a tracked deal: the handler `accepted` starts. -/
theorem onUpdated_stages_witness :
    dealStates.distinct ∧
      (onUpdated dealStates ((GoMap.empty : GoMap Cid ClientDeal).set 7 newClientDeal)
        ⟨dealStates.DealAccepted, 7, none, none⟩).2 =
        ClientEffect.handle { newClientDeal with State := dealStates.DealAccepted }
          ClientHandler.accepted dealStates.DealStaged :=
  ⟨by unfold DealStates.distinct dealStates; decide,
    ((onUpdated_stages dealStates ((GoMap.empty : GoMap Cid ClientDeal).set 7 newClientDeal)
      ⟨dealStates.DealAccepted, 7, none, none⟩
      (by unfold DealStates.distinct dealStates; decide)).1
        { newClientDeal with State := dealStates.DealAccepted } rfl rfl).2.1 rfl⟩

theorem sendSignedResponse_cases (env : Env) (p : Provider) (resp : Response) :
    (sendSignedResponse env p resp).1.conns = p.conns ∨
      (sendSignedResponse env p resp).1.conns = connsDelete p.conns resp.Proposal := by
  unfold sendSignedResponse
  repeat' split
  all_goals first
    | exact Or.inl rfl
    | exact Or.inr rfl

theorem connsDelete_get (m : GoMap Cid Stream) (k c : Cid) :
    (connsDelete m k).get c = if c = k then none else m.get c := rfl

theorem sendSignedResponse_conns (env : Env) (p : Provider) (resp : Response) (c : Cid) :
    (c ≠ resp.Proposal → (sendSignedResponse env p resp).1.conns.get c = p.conns.get c) ∧
    ((sendSignedResponse env p resp).1.conns.get resp.Proposal = p.conns.get resp.Proposal ∨
      (sendSignedResponse env p resp).1.conns.get resp.Proposal = none) := by
  rcases sendSignedResponse_cases env p resp with h | h
  · rw [h]
    exact ⟨fun _ => rfl, Or.inl rfl⟩
  · rw [h]
    refine ⟨fun hc => ?_, Or.inr ?_⟩
    · rw [connsDelete_get, if_neg hc]
    · rw [connsDelete_get, if_pos rfl]

theorem disconnect_conns (env : Env) (p : Provider) (deal : MinerDeal) (c : Cid) :
    (c ≠ deal.ProposalCid → (disconnect env p deal).1.conns.get c = p.conns.get c) ∧
    (disconnect env p deal).1.conns.get deal.ProposalCid = none := by
  unfold disconnect
  cases h : p.conns.get deal.ProposalCid with
  | none => exact ⟨fun _ => rfl, h⟩
  | some s =>
    refine ⟨fun hc => ?_, ?_⟩
    · show (connsDelete p.conns deal.ProposalCid).get c = p.conns.get c
      rw [connsDelete_get, if_neg hc]
    · show (connsDelete p.conns deal.ProposalCid).get deal.ProposalCid = none
      rw [connsDelete_get, if_pos rfl]

theorem publishing_conns (env : Env) (k : DealStates) (p : Provider) (deal : MinerDeal)
    (c : Cid) :
    (c ≠ deal.ProposalCid → (publishing env k p deal).1.conns.get c = p.conns.get c) ∧
    ((publishing env k p deal).1.conns.get deal.ProposalCid = p.conns.get deal.ProposalCid ∨
      (publishing env k p deal).1.conns.get deal.ProposalCid = none) ∧
    (∀ m, (publishing env k p deal).2 = Except.ok m →
      (publishing env k p deal).1.conns.get deal.ProposalCid = none) := by
  unfold publishing
  split
  · exact ⟨fun _ => rfl, Or.inl rfl, fun m h => by simp at h⟩
  · split
    · exact ⟨fun _ => rfl, Or.inl rfl, fun m h => by simp at h⟩
    · split
      · exact ⟨fun _ => rfl, Or.inl rfl, fun m h => by simp at h⟩
      · rename_i dealId mcid _
        have hs := sendSignedResponse_conns env p
          { State := k.DealAccepted, Message := [], Proposal := deal.ProposalCid,
            PublishMessage := some mcid } c
        have hs0 := sendSignedResponse_conns env p
          { State := k.DealAccepted, Message := [], Proposal := deal.ProposalCid,
            PublishMessage := some mcid } deal.ProposalCid
        split
        · rename_i p1 e hr
          rw [hr] at hs hs0
          exact ⟨hs.1, hs0.2, fun m h => by simp at h⟩
        · rename_i p1 hr
          rw [hr] at hs hs0
          have hd := disconnect_conns env p1 deal c
          exact ⟨fun hc => (hd.1 hc).trans (hs.1 hc), Or.inr hd.2, fun _ _ => hd.2⟩

/-- C20 as stated fails: the provider holds the connection of the deal, every
call of the stage `publishing` succeeds, and after the handler the connection
map has no entry for the deal. -/
theorem handlers_conns_counterexample :
    connectedProvider.conns.get cheapDeal.ProposalCid = some 1 ∧
      (runStage okEnv dealStates connectedProvider cheapDeal Stage.publishing).1.conns.get
        cheapDeal.ProposalCid = none :=
  ⟨by decide, by decide⟩

/-- C20 amended: the handlers `validating`, `transferring`, `verifydata`,
`staged`, `sealing` and `complete` leave `p.conns` as it was; `publishing`,
which sends the signed response and disconnects, leaves every entry of
`p.conns` other than that of the proposal of the deal as it was, keeps or
removes that entry, and has removed it whenever it returns no error. -/
theorem handlers_conns (env : Env) (k : DealStates) (p : Provider) (deal : MinerDeal) :
    (∀ st, st ≠ Stage.publishing → (runStage env k p deal st).1.conns = p.conns) ∧
    (∀ c, c ≠ deal.ProposalCid →
      (runStage env k p deal Stage.publishing).1.conns.get c = p.conns.get c) ∧
    ((runStage env k p deal Stage.publishing).1.conns.get deal.ProposalCid =
        p.conns.get deal.ProposalCid ∨
      (runStage env k p deal Stage.publishing).1.conns.get deal.ProposalCid = none) ∧
    ((runStage env k p deal Stage.publishing).2.2 = false →
      (runStage env k p deal Stage.publishing).1.conns.get deal.ProposalCid = none) := by
  have hrun : (runStage env k p deal Stage.publishing).1 = (publishing env k p deal).1 := by
    simp only [runStage]
    cases publishing env k p deal with
    | mk p1 r => cases r <;> rfl
  have hok : (runStage env k p deal Stage.publishing).2.2 = false →
      ∃ m, (publishing env k p deal).2 = Except.ok m := by
    simp only [runStage]
    cases publishing env k p deal with
    | mk p1 r =>
      cases r with
      | error e => simp
      | ok m => intro _; exact ⟨m, rfl⟩
  refine ⟨?_, ?_, ?_, ?_⟩
  · intro st hst
    cases st with
    | publishing => exact absurd rfl hst
    | validating =>
      simp only [runStage]
      cases validating env.MostRecentStateId env.GetBalance p.ask deal <;> rfl
    | transferring =>
      simp only [runStage]
      cases transferring env deal <;> rfl
    | verifydata =>
      simp only [runStage]
      cases verifydata env.GeneratePieceCommitment deal <;> rfl
    | staged =>
      simp only [runStage]
      cases staged env deal <;> rfl
    | sealing =>
      simp only [runStage]
      cases sealing env deal <;> rfl
    | complete =>
      simp only [runStage]
      cases complete env deal <;> rfl
  · intro c hc
    rw [hrun]
    exact (publishing_conns env k p deal c).1 hc
  · rw [hrun]
    exact (publishing_conns env k p deal deal.ProposalCid).2.1
  · intro h
    rw [hrun]
    obtain ⟨m, hm⟩ := hok h
    exact (publishing_conns env k p deal deal.ProposalCid).2.2 m hm

/-- C20 amended, on the stage `staged` of a connected provider. -/
theorem handlers_conns_witness :
    Stage.staged ≠ Stage.publishing ∧
      (runStage okEnv dealStates connectedProvider cheapDeal Stage.staged).1.conns =
        connectedProvider.conns :=
  ⟨by decide,
    (handlers_conns okEnv dealStates connectedProvider cheapDeal).1 Stage.staged (by decide)⟩

end storageimpl

/-! ## Theorems: discovery -/

namespace discovery

/-- C13, the failing input: for the CID with the bytes `01 55 00 01 61`,
`AddPeer` writes under the key `/AFKQAALB` (the base32 encoding of the bytes)
and `GetPeers` reads the key made of the bytes themselves, so after a successful
`AddPeer` on the empty store `GetPeers` returns the empty list. -/
theorem getPeers_after_addPeer_misses :
    CidToDsKey rawCid = ['/', 'A', 'F', 'K', 'Q', 'A', 'A', 'L', 'B'] ∧
      NewKey (bytesToString rawCid) =
        ['/', Char.ofNat 1, 'U', Char.ofNat 0, Char.ofNat 1, 'a'] ∧
      (∃ l, Local.AddPeer dumpPeer ⟨GoMap.empty⟩ rawCid ⟨5, 6⟩ = Except.ok l ∧
        decodePeer [5, 6] = Except.ok ⟨5, 6⟩ ∧
        Local.GetPeers decodePeer l rawCid = Except.ok []) := by
  exact ⟨by decide, by decide, ⟨_, rfl, rfl, rfl⟩⟩

/-- C14: after `AddPeer(c, p1)` and `AddPeer(c, p2)` the datastore holds the
encoding of `p2` under the key of `c` and every other key is as before the two
calls; for every store and key `GetPeers` returns at most one peer, and the
empty list with no error when the key it reads is absent. -/
theorem addPeer_overwrites (DumpObject : RetrievalPeer → Except GoString (List Nat))
    (DecodeInto : List Nat → Except GoString RetrievalPeer) (l l1 l2 : Local) (c : Cid)
    (p1 p2 : RetrievalPeer)
    (h1 : Local.AddPeer DumpObject l c p1 = Except.ok l1)
    (h2 : Local.AddPeer DumpObject l1 c p2 = Except.ok l2) :
    (∃ entry, DumpObject p2 = Except.ok entry ∧ l2.ds.get (CidToDsKey c) = some entry) ∧
    (∀ k, k ≠ CidToDsKey c → l2.ds.get k = l.ds.get k) ∧
    (∀ (l0 : Local) (pieceCID : List Nat) (ps : List RetrievalPeer),
      Local.GetPeers DecodeInto l0 pieceCID = Except.ok ps → ps.length ≤ 1) ∧
    (∀ (l0 : Local) (pieceCID : List Nat),
      l0.ds.get (NewKey (bytesToString pieceCID)) = none →
      Local.GetPeers DecodeInto l0 pieceCID = Except.ok []) := by
  unfold Local.AddPeer at h1 h2
  cases hd1 : DumpObject p1 with
  | error e => simp [hd1] at h1
  | ok e1 =>
    cases hd2 : DumpObject p2 with
    | error e => simp [hd2] at h2
    | ok e2 =>
      simp only [hd1, Except.ok.injEq] at h1
      simp only [hd2, Except.ok.injEq] at h2
      subst h1
      subst h2
      refine ⟨⟨e2, rfl, by simp [GoMap.get, GoMap.set]⟩, ?_, ?_, ?_⟩
      · intro k hk
        simp [GoMap.get, GoMap.set, hk]
      · intro l0 pieceCID ps h
        unfold Local.GetPeers at h
        simp only at h
        split at h
        · simp only [Except.ok.injEq] at h
          subst h
          simp
        · split at h
          · simp at h
          · simp only [Except.ok.injEq] at h
            subst h
            simp
      · intro l0 pieceCID h
        simp [Local.GetPeers, h]

/-- C14 on the empty store: the peer added last is the entry under the key. -/
theorem addPeer_overwrites_witness :
    Local.AddPeer dumpPeer ⟨GoMap.empty⟩ rawCid ⟨5, 6⟩ =
        Except.ok ⟨(GoMap.empty : GoMap GoString (List Nat)).set (CidToDsKey rawCid) [5, 6]⟩ ∧
      (∃ entry, dumpPeer ⟨7, 8⟩ = Except.ok entry ∧
        (((GoMap.empty : GoMap GoString (List Nat)).set (CidToDsKey rawCid) [5, 6]).set
          (CidToDsKey rawCid) [7, 8]).get (CidToDsKey rawCid) = some entry) :=
  ⟨rfl, (addPeer_overwrites dumpPeer decodePeer ⟨GoMap.empty⟩
      ⟨(GoMap.empty : GoMap GoString (List Nat)).set (CidToDsKey rawCid) [5, 6]⟩
      ⟨((GoMap.empty : GoMap GoString (List Nat)).set (CidToDsKey rawCid) [5, 6]).set
          (CidToDsKey rawCid) [7, 8]⟩ rawCid ⟨5, 6⟩ ⟨7, 8⟩ rfl rfl).1⟩

end discovery

/-! ## Theorems: filestore -/

namespace filestore

/-- C15, the failing inputs: with the base `/s`, `Delete` hands to `os.Remove`
the path `/s-old/x` of a sibling directory and the path `/s/../etc/pw`, which
denotes `/etc/pw`; neither is inside `/s`. -/
theorem delete_escapes_base :
    NewLocalFileStore (fun _ => true) storeDir = Except.ok ⟨storeDir⟩ ∧
      fileStore.Delete ⟨storeDir⟩ siblingFile = Deletion.remove siblingFile ∧
      inside storeDir siblingFile = false ∧
      fileStore.Delete ⟨storeDir⟩ dotdotFile = Deletion.remove dotdotFile ∧
      Clean dotdotFile = ['/', 'e', 't', 'c', '/', 'p', 'w'] ∧
      inside storeDir dotdotFile = false :=
  ⟨rfl, by decide, by decide, by decide, by decide, by decide⟩

/-- C16, the failing input: the empty base of the storage client is cleaned to
`.`, `CreateTemp` creates `fstmp123`, the join of `.` and the generated name,
and `Delete` of the same store rejects that path. -/
theorem createTemp_not_deletable :
    NewLocalFileStore (fun _ => true) [] = Except.ok ⟨['.']⟩ ∧
      fileStore.CreateTemp ⟨['.']⟩ ['1', '2', '3'] = ['f', 's', 't', 'm', 'p', '1', '2', '3'] ∧
      fileStore.Delete ⟨['.']⟩ (fileStore.CreateTemp ⟨['.']⟩ ['1', '2', '3']) =
        Deletion.invalidBasePath :=
  ⟨rfl, by decide, by decide⟩

end filestore

/-! ## Theorems: subscribers of the retrieval client and provider -/

namespace retrievalimpl

/-- C17, the failing input: the subscriber 1 is already in the list `[1, 2]`
when it subscribes again; the first call of the returned function leaves
`[1, 2]`, the second call leaves `[2]`. -/
theorem unsubscribe_twice_differs :
    SubscribeToEvents [1, 2] 1 = [1, 2, 1] ∧
      unsubscribeAt 1 (SubscribeToEvents [1, 2] 1) = [1, 2] ∧
      unsubscribeAt 1 (unsubscribeAt 1 (SubscribeToEvents [1, 2] 1)) = [2] := by
  decide

end retrievalimpl

/-! ## Theorems: states of the traverser -/

namespace blockio

theorem started_of_start (root : Link) (t : Traverser) (h : Start (NewTraverser root) = some t) :
    Started t := by
  simp [Start, NewTraverser] at h
  subst h
  exact Or.inr ⟨rfl, _, rfl, Or.inr ⟨rfl, root, [], rfl, rfl⟩⟩

theorem started_checkState (t : Traverser) (h : Started t) :
    ∃ t1, checkState t = some t1 ∧ t1.awaitRequest = false ∧ t1.stateChan = none ∧
      ((t1.isDone = true ∧ t1.currentLink = none ∧ t1.walker = Walker.returned) ∨
       (t1.isDone = false ∧ ∃ l rest, t1.currentLink = some l ∧
          t1.walker = Walker.awaitingResponse l rest)) := by
  rcases h with ⟨h1, h2, h3⟩ | ⟨h1, s, h2, h3⟩
  · exact ⟨t, by simp [checkState, h1], h1, h2, h3⟩
  · exact ⟨{ t with awaitRequest := false, stateChan := none, isDone := s.isDone,
                      currentLink := s.currentLink, currentContext := s.currentContext },
      by simp [checkState, h1, h2], rfl, rfl, h3⟩

theorem started_send (decode : Decoder) (t : Traverser) (resp : nextResponse)
    (h1 : t.awaitRequest = true) (h2 : t.stateChan = none) (l : Link) (rest : List Link)
    (hw : t.walker = Walker.awaitingResponse l rest) :
    ∃ t2, sendResponse decode t resp = some t2 ∧ Started t2 := by
  have hn : ∀ todo : List Link,
      ((nextLoad todo).1.isDone = true ∧ (nextLoad todo).1.currentLink = none ∧
        (nextLoad todo).2 = Walker.returned) ∨
      ((nextLoad todo).1.isDone = false ∧ ∃ l rest, (nextLoad todo).1.currentLink = some l ∧
        (nextLoad todo).2 = Walker.awaitingResponse l rest) := by
    intro todo
    cases todo with
    | nil => exact Or.inl ⟨rfl, rfl, rfl⟩
    | cons a as => exact Or.inr ⟨rfl, a, as, rfl, rfl⟩
  have hr : ((resume decode l rest resp).1.isDone = true ∧
        (resume decode l rest resp).1.currentLink = none ∧
        (resume decode l rest resp).2 = Walker.returned) ∨
      ((resume decode l rest resp).1.isDone = false ∧ ∃ l1 rest1,
        (resume decode l rest resp).1.currentLink = some l1 ∧
        (resume decode l rest resp).2 = Walker.awaitingResponse l1 rest1) := by
    unfold resume
    split
    · exact Or.inl ⟨rfl, rfl, rfl⟩
    · split
      · exact Or.inl ⟨rfl, rfl, rfl⟩
      · exact hn _
  exact ⟨{ t with stateChan := some (resume decode l rest resp).1,
                  walker := (resume decode l rest resp).2 },
    by simp [sendResponse, hw, h2], Or.inr ⟨h1, _, rfl, hr⟩⟩

theorem started_step (decode : Decoder) (t t1 : Traverser) (op : Op) (h : Started t)
    (hs : applyOp decode t op = some t1) : Started t1 := by
  obtain ⟨tc, hc, c1, c2, c3⟩ := started_checkState t h
  have hsettled : Started tc := Or.inl ⟨c1, c2, c3⟩
  cases op with
  | Start =>
    simp only [applyOp, Start] at hs
    rcases h with ⟨h1, h2, h3⟩ | ⟨h1, s, h2, h3⟩
    · rcases h3 with ⟨_, _, hw⟩ | ⟨_, l, rest, _, hw⟩ <;> simp [h1, h2, hw] at hs
    · simp [h1] at hs
  | IsComplete =>
    simp only [applyOp, IsComplete, hc, Option.map_some', Option.some.injEq] at hs
    subst hs
    exact hsettled
  | CurrentRequest =>
    simp only [applyOp, CurrentRequest, hc, Option.map_some', Option.some.injEq] at hs
    subst hs
    exact hsettled
  | Advance reader =>
    rcases c3 with ⟨d1, d2, d3⟩ | ⟨d1, l, rest, d2, d3⟩
    · simp only [applyOp, Advance, IsComplete, hc, Option.map_some', d1,
        Option.some.injEq] at hs
      subst hs
      exact hsettled
    · obtain ⟨t2, hsend, hst⟩ := started_send decode
        { root := tc.root, currentLink := tc.currentLink, currentContext := tc.currentContext,
          isDone := false, awaitRequest := true, stateChan := tc.stateChan,
          walker := tc.walker } ⟨some reader, none⟩ rfl c2 l rest d3
      simp only [applyOp, Advance, IsComplete, hc, Option.map_some', d1, c1, hsend,
        Bool.false_eq_true, if_false, Option.some.injEq] at hs
      subst hs
      exact hst
  | Error err =>
    rcases c3 with ⟨d1, d2, d3⟩ | ⟨d1, l, rest, d2, d3⟩
    · simp only [applyOp, Traverser.Error, IsComplete, hc, Option.map_some', d1,
        Option.some.injEq] at hs
      subst hs
      exact hsettled
    · obtain ⟨t2, hsend, hst⟩ := started_send decode
        { root := tc.root, currentLink := tc.currentLink, currentContext := tc.currentContext,
          isDone := false, awaitRequest := true, stateChan := tc.stateChan,
          walker := tc.walker } ⟨none, some err⟩ rfl c2 l rest d3
      simp only [applyOp, Traverser.Error, IsComplete, hc, Option.map_some', d1, c1, hsend,
        Bool.false_eq_true, if_false, Option.some.injEq] at hs
      subst hs
      exact hst

theorem started_runOps (decode : Decoder) :
    ∀ (ops : List Op) (t t1 : Traverser), Started t → runOps decode t ops = some t1 →
      Started t1 := by
  intro ops
  induction ops with
  | nil =>
    intro t t1 h hr
    simp [runOps] at hr
    subst hr
    exact h
  | cons op ops ih =>
    intro t t1 h hr
    simp only [runOps] at hr
    cases ho : applyOp decode t op with
    | none => simp [ho] at hr
    | some t2 =>
      simp only [ho] at hr
      exact ih t2 t1 (started_step decode t t2 op h ho) hr

/-- C18 as stated fails: on the traverser that `NewTraverser` returns, before
any `Start`, `IsComplete` answers false and `CurrentRequest` returns a nil
link. -/
theorem traverser_link_counterexample :
    runOps testDecode (NewTraverser ⟨0⟩) [] = some (NewTraverser ⟨0⟩) ∧
      IsComplete (NewTraverser ⟨0⟩) = some (NewTraverser ⟨0⟩, false) ∧
      CurrentRequest (NewTraverser ⟨0⟩) = some (NewTraverser ⟨0⟩, none, ⟨none⟩) := by
  decide

/-- C18 amended: after `NewTraverser`, `Start` and any sequence of
`IsComplete`, `CurrentRequest`, `Advance` and `Error` (under a context that is
never cancelled), the link that `CurrentRequest` returns is non-nil exactly
when `IsComplete` answers false; when it answers true the link is nil, and when
it answers false the link is the one the walk is blocked on. -/
theorem traverser_link_iff_not_done (decode : Decoder) (root : Link) (ops : List Op)
    (t : Traverser) (h : runOps decode (NewTraverser root) (Op.Start :: ops) = some t) :
    ∃ t1 done lnk ctx, IsComplete t = some (t1, done) ∧
      CurrentRequest t = some (t1, lnk, ctx) ∧
      (lnk ≠ none ↔ done = false) ∧ (done = true → lnk = none) ∧
      (done = false → ∃ l rest, lnk = some l ∧ t1.walker = Walker.awaitingResponse l rest) := by
  simp only [runOps, applyOp] at h
  cases hs : Start (NewTraverser root) with
  | none => simp [hs] at h
  | some t0 =>
    simp only [hs] at h
    have hst := started_runOps decode ops t0 t (started_of_start root t0 hs) h
    obtain ⟨tc, hc, c1, c2, c3⟩ := started_checkState t hst
    refine ⟨tc, tc.isDone, tc.currentLink, tc.currentContext, by simp [IsComplete, hc],
      by simp [CurrentRequest, hc], ?_, ?_, ?_⟩
    · rcases c3 with ⟨d1, d2, d3⟩ | ⟨d1, l, rest, d2, d3⟩
      · simp [d1, d2]
      · simp [d1, d2]
    · intro hd
      rcases c3 with ⟨d1, d2, d3⟩ | ⟨d1, l, rest, d2, d3⟩
      · exact d2
      · rw [d1] at hd
        exact absurd hd (by decide)
    · intro hd
      rcases c3 with ⟨d1, d2, d3⟩ | ⟨d1, l, rest, d2, d3⟩
      · rw [d1] at hd
        exact absurd hd (by decide)
      · exact ⟨l, rest, d2, d3⟩

/-- C18 amended, on the middle map of the test tree walked to its end. -/
theorem traverser_link_iff_not_done_witness :
    runOps testDecode (NewTraverser ⟨3⟩) [Op.Start, Op.Advance [1], Op.Advance []] =
        some { NewTraverser ⟨3⟩ with
          awaitRequest := true, stateChan := some doneState, currentLink := some ⟨1⟩,
          currentContext := ⟨some ⟨1⟩⟩, walker := Walker.returned } ∧
      ∃ t1 done lnk ctx,
        IsComplete { NewTraverser ⟨3⟩ with
          awaitRequest := true, stateChan := some doneState, currentLink := some ⟨1⟩,
          currentContext := ⟨some ⟨1⟩⟩, walker := Walker.returned } = some (t1, done) ∧
        CurrentRequest { NewTraverser ⟨3⟩ with
          awaitRequest := true, stateChan := some doneState, currentLink := some ⟨1⟩,
          currentContext := ⟨some ⟨1⟩⟩, walker := Walker.returned } = some (t1, lnk, ctx) ∧
        (lnk ≠ none ↔ done = false) ∧ (done = true → lnk = none) ∧
        (done = false → ∃ l rest, lnk = some l ∧ t1.walker = Walker.awaitingResponse l rest) :=
  ⟨by decide,
    traverser_link_iff_not_done testDecode ⟨3⟩ [Op.Advance [1], Op.Advance []] _ (by decide)⟩

end blockio

/-! ## Theorems: the stage `validating` in full -/

namespace storageimpl

theorem minPrice_floor (price : TokenAmount) (size : Nat) :
    Div (Mul price (FromInt size)) (FromInt (1 <<< 30)) =
      ⌊((price : ℚ) * (size : ℚ)) / 2 ^ 30⌋ := by
  have hf : ⌊((price : ℚ) * (size : ℚ)) / 2 ^ 30⌋ =
      (price * (size : Int)) / ((2 ^ 30 : Nat) : Int) := by
    rw [← Rat.floor_intCast_div_natCast]
    push_cast
    rfl
  rw [hf]
  rfl

/-- C23: when `MostRecentStateId` returns the head and `GetBalance` the
balance of the client, `validating` returns no error exactly when the height
of the head is below `ProposalExpiration`, `StoragePricePerEpoch` is at least
`ask.Price × PieceSize / 2^30` rounded down, `PieceSize` is at least
`ask.MinPieceSize` and the available balance is at least the price per epoch
times the duration; the mutator it then returns is nil; and the checks are
made in this order: a height that has reached the expiration is reported as
expired whatever the price, then the price, then the size, then the balance. -/
theorem validating_accepts_iff (height : Nat) (getBalance : Address → Except GoString Balance)
    (ask : StorageAsk) (deal : MinerDeal) (bal : Balance)
    (hb : getBalance deal.Proposal.Client = Except.ok bal) :
    ((∃ m, validating (Except.ok height) getBalance ask deal = Except.ok m) ↔
      (height < deal.Proposal.ProposalExpiration ∧
        ⌊((ask.Price : ℚ) * (deal.Proposal.PieceSize : ℚ)) / 2 ^ 30⌋ ≤
          deal.Proposal.StoragePricePerEpoch ∧
        ask.MinPieceSize ≤ deal.Proposal.PieceSize ∧
        deal.Proposal.StoragePricePerEpoch * (deal.Proposal.Duration : Int) ≤ bal.Available)) ∧
    (∀ m, validating (Except.ok height) getBalance ask deal = Except.ok m → m = none) ∧
    (deal.Proposal.ProposalExpiration ≤ height →
      validating (Except.ok height) getBalance ask deal =
        Except.error ValidatingError.expired) ∧
    (height < deal.Proposal.ProposalExpiration →
      deal.Proposal.StoragePricePerEpoch <
        ⌊((ask.Price : ℚ) * (deal.Proposal.PieceSize : ℚ)) / 2 ^ 30⌋ →
      validating (Except.ok height) getBalance ask deal =
        Except.error (ValidatingError.priceTooLow deal.Proposal.StoragePricePerEpoch
          ⌊((ask.Price : ℚ) * (deal.Proposal.PieceSize : ℚ)) / 2 ^ 30⌋)) ∧
    (height < deal.Proposal.ProposalExpiration →
      ⌊((ask.Price : ℚ) * (deal.Proposal.PieceSize : ℚ)) / 2 ^ 30⌋ ≤
        deal.Proposal.StoragePricePerEpoch →
      deal.Proposal.PieceSize < ask.MinPieceSize →
      validating (Except.ok height) getBalance ask deal =
        Except.error (ValidatingError.pieceTooSmall deal.Proposal.PieceSize ask.MinPieceSize)) ∧
    (height < deal.Proposal.ProposalExpiration →
      ⌊((ask.Price : ℚ) * (deal.Proposal.PieceSize : ℚ)) / 2 ^ 30⌋ ≤
        deal.Proposal.StoragePricePerEpoch →
      ask.MinPieceSize ≤ deal.Proposal.PieceSize →
      bal.Available < deal.Proposal.StoragePricePerEpoch * (deal.Proposal.Duration : Int) →
      validating (Except.ok height) getBalance ask deal =
        Except.error ValidatingError.balanceTooSmall) := by
  have hm := minPrice_floor ask.Price deal.Proposal.PieceSize
  have ht : TotalStoragePrice deal.Proposal =
      deal.Proposal.StoragePricePerEpoch * (deal.Proposal.Duration : Int) := rfl
  simp only [validating, hb, hm, ht, LessThan, decide_eq_true_eq]
  by_cases h1 : height ≥ deal.Proposal.ProposalExpiration
  · have h1' : ¬ height < deal.Proposal.ProposalExpiration := Nat.not_lt.2 h1
    simp [h1, h1']
  · have h1' : height < deal.Proposal.ProposalExpiration := Nat.lt_of_not_ge h1
    by_cases h2 : deal.Proposal.StoragePricePerEpoch <
        ⌊((ask.Price : ℚ) * (deal.Proposal.PieceSize : ℚ)) / 2 ^ 30⌋
    · have h2' := not_le.2 h2
      simp [h1, h1', h2, h2']
    · have h2' := not_lt.1 h2
      by_cases h3 : deal.Proposal.PieceSize < ask.MinPieceSize
      · have h3' := Nat.not_le.2 h3
        simp [h1, h1', h2, h2', h3, h3']
      · have h3' := Nat.not_lt.1 h3
        by_cases h4 : bal.Available <
            deal.Proposal.StoragePricePerEpoch * (deal.Proposal.Duration : Int)
        · have h4' := not_le.2 h4
          simp [h1, h1', h2, h2', h3, h3', h4, h4']
        · have h4' := not_lt.1 h4
          simp [h1, h1', h2, h2', h3, h3', h4, h4']

/-- C23 on the deal of 4 GiB that offers 5 per epoch for 5 epochs, at height 3
before its expiration 10, for an ask of 1 per GiB and a balance of 40. -/
theorem validating_accepts_iff_witness :
    (fun _ => Except.ok ⟨0, 40⟩ : Address → Except GoString Balance) largeDeal.Proposal.Client =
        Except.ok ⟨0, 40⟩ ∧
      ∃ m, validating (Except.ok 3) (fun _ => Except.ok ⟨0, 40⟩) ⟨1, 0⟩ largeDeal =
        Except.ok m :=
  ⟨rfl, ((validating_accepts_iff 3 (fun _ => Except.ok ⟨0, 40⟩) ⟨1, 0⟩ largeDeal ⟨0, 40⟩
    rfl).1).2 ⟨by decide, by norm_num [largeDeal, cheapDeal],
      by decide, by decide⟩⟩

end storageimpl

/-! ## Theorems: one call of `unsubscribeAt` -/

namespace retrievalimpl

theorem findIdx_first (s : Subscriber) (a b : List Subscriber) (h : s ∉ a) :
    (a ++ s :: b).findIdx? (fun el => decide (s = el)) = some a.length := by
  induction a with
  | nil => simp [List.findIdx?_cons]
  | cons x xs ih =>
    have hx : s ≠ x := fun e => h (by simp [e])
    have hxs : s ∉ xs := fun e => h (by simp [e])
    simp [List.findIdx?_cons, hx, ih hxs]

theorem findIdx_none (s : Subscriber) (a : List Subscriber) (h : s ∉ a) :
    a.findIdx? (fun el => decide (s = el)) = none := by
  induction a with
  | nil => simp
  | cons x xs ih =>
    have hx : s ≠ x := fun e => h (by simp [e])
    have hxs : s ∉ xs := fun e => h (by simp [e])
    simp [List.findIdx?_cons, hx, ih hxs]

theorem set_first (s last : Subscriber) (a b : List Subscriber) :
    (a ++ s :: b).set a.length last = a ++ last :: b := by
  induction a with
  | nil => simp
  | cons x xs ih => simp [ih]

theorem get_first (s : Subscriber) (a b : List Subscriber) :
    (a ++ s :: b).get? a.length = some s := by
  induction a with
  | nil => simp
  | cons x xs ih => simpa using ih

theorem erase_first (s : Subscriber) (a b : List Subscriber) (h : s ∉ a) :
    (a ++ s :: b).erase s = a ++ b := by
  induction a with
  | nil => simp
  | cons x xs ih =>
    have hx : x ≠ s := fun e => h (by simp [e])
    have hxs : s ∉ xs := fun e => h (by simp [e])
    rw [List.cons_append, List.erase_cons_tail (by simpa using hx), ih hxs, List.cons_append]

theorem unsubscribeAt_split (s : Subscriber) (a b : List Subscriber) (h : s ∉ a) :
    ∃ last, (a ++ s :: b).getLast? = some last ∧
      unsubscribeAt s (a ++ s :: b) = (a ++ last :: b).dropLast ∧
      List.Perm (a ++ last :: b).dropLast (a ++ b) := by
  rcases List.eq_nil_or_concat b with hb | ⟨b1, last, hb⟩
  · subst hb
    refine ⟨s, by simp, ?_, ?_⟩
    · unfold unsubscribeAt
      rw [findIdx_first s a [] h]
      simp [set_first]
    · simp [List.dropLast_concat]
  · rw [List.concat_eq_append] at hb
    subst hb
    have hl : (a ++ s :: (b1 ++ [last])).getLast? = some last := by
      rw [show a ++ s :: (b1 ++ [last]) = (a ++ s :: b1) ++ [last] by simp]
      exact List.getLast?_concat _
    refine ⟨last, hl, ?_, ?_⟩
    · unfold unsubscribeAt
      rw [findIdx_first s a _ h, hl]
      simp [set_first]
    · rw [show a ++ last :: (b1 ++ [last]) = (a ++ last :: b1) ++ [last] by simp,
        List.dropLast_concat]
      refine List.Perm.append_left a ?_
      simpa using (List.perm_append_singleton last b1).symm

/-- C26: when `s` is among the subscribers `L`, the function returned by
`unsubscribeAt(s)` overwrites the first entry equal to `s` with the last entry
and cuts the list by one: the length drops by one, the result is `L` with one
occurrence of `s` removed up to the order, so `s` occurs once less and every
other subscriber as often as before; when `s` is not in `L`, the list stays
as it is. -/
theorem unsubscribeAt_removes_one (s : Subscriber) (L : List Subscriber) :
    (s ∈ L → ∃ i last, L.findIdx? (fun el => decide (s = el)) = some i ∧
        L.get? i = some s ∧ L.getLast? = some last ∧
        unsubscribeAt s L = (L.set i last).dropLast ∧
        (unsubscribeAt s L).length + 1 = L.length ∧
        List.Perm (unsubscribeAt s L) (L.erase s) ∧
        (unsubscribeAt s L).count s + 1 = L.count s ∧
        ∀ x, x ≠ s → (unsubscribeAt s L).count x = L.count x) ∧
    (s ∉ L → unsubscribeAt s L = L) := by
  constructor
  · intro hmem
    obtain ⟨a, b, hL, ha⟩ := List.eq_append_cons_of_mem hmem
    subst hL
    obtain ⟨last, hlast, hun, hperm⟩ := unsubscribeAt_split s a b ha
    have hp : List.Perm (unsubscribeAt s (a ++ s :: b)) ((a ++ s :: b).erase s) := by
      rw [hun, erase_first s a b ha]
      exact hperm
    refine ⟨a.length, last, findIdx_first s a b ha, get_first s a b, hlast, ?_, ?_, hp, ?_, ?_⟩
    · rw [hun, set_first]
    · rw [hp.length_eq, List.length_erase_of_mem hmem]
      have : 0 < (a ++ s :: b).length := by simp
      omega
    · rw [hp.count_eq, List.count_erase_self]
      have : 0 < (a ++ s :: b).count s := List.count_pos_iff.2 hmem
      omega
    · intro x hx
      rw [hp.count_eq, List.count_erase_of_ne hx]
  · intro hmem
    unfold unsubscribeAt
    rw [findIdx_none s L hmem]

/-- C26 on the list 1, 2, 3, 2, 4 and the subscriber 2: the first 2 is replaced
by the last entry 4, the second 2 stays. -/
theorem unsubscribeAt_removes_one_witness :
    (2 : Subscriber) ∈ [1, 2, 3, 2, 4] ∧ unsubscribeAt 2 [1, 2, 3, 2, 4] = [1, 4, 3, 2] ∧
      ∃ i last, [1, 2, 3, 2, 4].findIdx? (fun el => decide ((2 : Subscriber) = el)) = some i ∧
        [1, 2, 3, 2, 4].get? i = some 2 ∧ [1, 2, 3, 2, 4].getLast? = some last ∧
        unsubscribeAt 2 [1, 2, 3, 2, 4] = ([1, 2, 3, 2, 4].set i last).dropLast ∧
        (unsubscribeAt 2 [1, 2, 3, 2, 4]).length + 1 = [1, 2, 3, 2, 4].length ∧
        List.Perm (unsubscribeAt 2 [1, 2, 3, 2, 4]) ([1, 2, 3, 2, 4].erase 2) ∧
        (unsubscribeAt 2 [1, 2, 3, 2, 4]).count 2 + 1 = [1, 2, 3, 2, 4].count 2 ∧
        ∀ x, x ≠ 2 → (unsubscribeAt 2 [1, 2, 3, 2, 4]).count x = [1, 2, 3, 2, 4].count x :=
  ⟨by decide, by decide, (unsubscribeAt_removes_one 2 [1, 2, 3, 2, 4]).1 (by decide)⟩

end retrievalimpl

/-! ## Theorems: wildcard lookups of a definition -/

namespace statemachine

theorem prefixed_empty_target (t reserved : GoString)
    (declared : GoMap GoString Bool) (ty ty1 : Nat) (hty : ty1 ≠ callbackNone)
    (hd : ¬ (declared.get []).isSome = true)
    (h : prefixed t reserved declared ty = ([], ty1)) : t = reserved ∧ ty1 = ty := by
  unfold prefixed at h
  split at h
  · rename_i ht
    simp only [Prod.mk.injEq, true_and] at h
    exact ⟨ht, h.symm⟩
  · split at h
    · rename_i hs
      simp only [Prod.mk.injEq] at h
      rw [h.1] at hs
      exact absurd hs hd
    · simp only [Prod.mk.injEq] at h
      exact absurd h.2.symm hty

theorem parseKey_empty_target (events : List EventDesc) (name : GoString) (ty : Nat)
    (hty : ty ≠ callbackNone) (hs : ¬ inTable events []) (he : ¬ isEvent events [])
    (h : parseKey (buildTables events) name = ([], ty)) :
    (ty = callbackBeforeEvent ∧ name = before_ ++ event) ∨
    (ty = callbackLeaveState ∧ name = leave_ ++ state) ∨
    (ty = callbackEnterState ∧ name = enter_ ++ state) ∨
    (ty = callbackAfterEvent ∧ name = after_ ++ event) := by
  have hs1 : ¬ ((buildTables events).allStates.get []).isSome = true :=
    fun x => hs ((allStates_iff events []).1 x)
  have he1 : ¬ ((buildTables events).allEvents.get []).isSome = true :=
    fun x => he ((allEvents_iff events []).1 x)
  by_cases hr : reservedPrefix name = true
  · simp only [reservedPrefix, Bool.or_eq_true] at hr
    rcases hr with ((hp | hp) | hp) | hp
    · obtain ⟨t, rfl⟩ : ∃ t, name = before_ ++ t := ⟨_, hasPrefix_split _ _ hp⟩
      rw [parseKey_before] at h
      obtain ⟨h1, h2⟩ := prefixed_empty_target _ _ _ _ _ hty he1 h
      exact Or.inl ⟨h2, by rw [h1]⟩
    · obtain ⟨t, rfl⟩ : ∃ t, name = leave_ ++ t := ⟨_, hasPrefix_split _ _ hp⟩
      rw [parseKey_leave] at h
      obtain ⟨h1, h2⟩ := prefixed_empty_target _ _ _ _ _ hty hs1 h
      exact Or.inr (Or.inl ⟨h2, by rw [h1]⟩)
    · obtain ⟨t, rfl⟩ : ∃ t, name = enter_ ++ t := ⟨_, hasPrefix_split _ _ hp⟩
      rw [parseKey_enter] at h
      obtain ⟨h1, h2⟩ := prefixed_empty_target _ _ _ _ _ hty hs1 h
      exact Or.inr (Or.inr (Or.inl ⟨h2, by rw [h1]⟩))
    · obtain ⟨t, rfl⟩ : ∃ t, name = after_ ++ t := ⟨_, hasPrefix_split _ _ hp⟩
      rw [parseKey_after] at h
      obtain ⟨h1, h2⟩ := prefixed_empty_target _ _ _ _ _ hty he1 h
      exact Or.inr (Or.inr (Or.inr ⟨h2, by rw [h1]⟩))
  · rw [parseKey_bare _ _ (by simpa using hr)] at h
    split at h
    · rename_i hx
      simp only [Prod.mk.injEq] at h
      rw [h.1] at hx
      exact absurd hx hs1
    · split at h
      · rename_i hx
        simp only [Prod.mk.injEq] at h
        rw [h.1] at hx
        exact absurd hx he1
      · simp only [Prod.mk.injEq] at h
        exact absurd h.2.symm hty

theorem lookup_supplied (initial : State) (events : List EventDesc)
    (cbs : List (GoString × Callback)) (k : cKey) (cb : Callback)
    (h : (NewDefinition initial events cbs).callbacks.get k = some cb) :
    ∃ en ∈ cbs, en.2 = cb ∧ (parseKey (buildTables events) en.1).2 ≠ callbackNone ∧
      parseKey (buildTables events) en.1 = (k.target, k.callbackType) := by
  simp only [NewDefinition] at h
  rw [callbacks_fold] at h
  cases hl : (cbs.filter (registers (buildTables events) k)).getLast? with
  | none => rw [hl] at h; simp [get_empty] at h
  | some en =>
    rw [hl] at h
    simp only [Option.some.injEq] at h
    have hm := List.mem_of_getLast?_eq_some hl
    rw [List.mem_filter] at hm
    obtain ⟨hm1, hm2⟩ := hm
    simp only [registers, decide_eq_true_eq] at hm2
    refine ⟨en, hm1, h, hm2.1, ?_⟩
    rw [hm2.2]

/-- C30 as stated fails: with the empty state declared, the bare key `""` is
taken for the state and stored under the empty target for entering, which is
where the lookup for all states reads, though no key `enter_state` is
supplied; the key `after_` does the same for the event with the empty name. -/
theorem wildcard_only_counterexample :
    EnterCallbackAllStates (NewDefinition [] emptyEvents [([], 7)]) = some 7 ∧
      (∀ en ∈ [(([] : GoString), (7 : Callback))], en.1 ≠ enter_ ++ state) ∧
      AfterCallbackForAllEvents (NewDefinition [] emptyEvents [(after_, 9)]) = some 9 ∧
      (∀ en ∈ [(after_, (9 : Callback))], en.1 ≠ after_ ++ event) :=
  ⟨by decide, by decide, by decide, by decide⟩

/-- C30 amended: for an events list that declares neither the empty state nor
an event with the empty name, each wildcard lookup of the definition built by
`NewDefinition` returns a callback only if the callbacks map holds the
respective wildcard key (`before_event`, `leave_state`, `enter_state`,
`after_event`), and the callback is the one stored under that key; and for
every events list, also one that declares the empty state or an event with
the empty name, a key other than these four whose target is neither a
declared event nor a declared state leaves the callback table as it is. -/
theorem wildcard_only (initial : State) (events : List EventDesc)
    (cbs : List (GoString × Callback)) :
    (¬ inTable events [] → ¬ isEvent events [] →
      ((∀ cb, BeforeCallbackForAllEvents (NewDefinition initial events cbs) = some cb →
        (before_ ++ event, cb) ∈ cbs) ∧
      (∀ cb, LeaveCallbackAllStates (NewDefinition initial events cbs) = some cb →
        (leave_ ++ state, cb) ∈ cbs) ∧
      (∀ cb, EnterCallbackAllStates (NewDefinition initial events cbs) = some cb →
        (enter_ ++ state, cb) ∈ cbs) ∧
      (∀ cb, AfterCallbackForAllEvents (NewDefinition initial events cbs) = some cb →
        (after_ ++ event, cb) ∈ cbs))) ∧
    (∀ (name : GoString) (fn : Callback) (m : GoMap cKey Callback),
      name ≠ before_ ++ event → name ≠ leave_ ++ state → name ≠ enter_ ++ state →
      name ≠ after_ ++ event →
      ¬ isEvent events (parseKey (buildTables events) name).1 →
      ¬ inTable events (parseKey (buildTables events) name).1 →
      addCallback (buildTables events) m (name, fn) = m) := by
  refine ⟨fun hs he => ?_, ?_⟩
  · have key : ∀ (ty : Nat) (cb : Callback), ty ≠ callbackNone →
        (NewDefinition initial events cbs).callbacks.get ⟨[], ty⟩ = some cb →
        ∃ en ∈ cbs, en.2 = cb ∧
          ((ty = callbackBeforeEvent ∧ en.1 = before_ ++ event) ∨
          (ty = callbackLeaveState ∧ en.1 = leave_ ++ state) ∨
          (ty = callbackEnterState ∧ en.1 = enter_ ++ state) ∨
          (ty = callbackAfterEvent ∧ en.1 = after_ ++ event)) := by
      intro ty cb hty h
      obtain ⟨en, hm, h2, _, h4⟩ := lookup_supplied initial events cbs _ cb h
      exact ⟨en, hm, h2, parseKey_empty_target events en.1 ty hty hs he h4⟩
    refine ⟨?_, ?_, ?_, ?_⟩
    · intro cb h
      obtain ⟨en, hm, h2, h3⟩ := key callbackBeforeEvent cb (by decide) h
      have h4 : en.1 = before_ ++ event := by
        rcases h3 with h3 | h3 | h3 | h3
        · exact h3.2
        · exact absurd h3.1 (by decide)
        · exact absurd h3.1 (by decide)
        · exact absurd h3.1 (by decide)
      rw [← h4, ← h2]
      exact hm
    · intro cb h
      obtain ⟨en, hm, h2, h3⟩ := key callbackLeaveState cb (by decide) h
      have h4 : en.1 = leave_ ++ state := by
        rcases h3 with h3 | h3 | h3 | h3
        · exact absurd h3.1 (by decide)
        · exact h3.2
        · exact absurd h3.1 (by decide)
        · exact absurd h3.1 (by decide)
      rw [← h4, ← h2]
      exact hm
    · intro cb h
      obtain ⟨en, hm, h2, h3⟩ := key callbackEnterState cb (by decide) h
      have h4 : en.1 = enter_ ++ state := by
        rcases h3 with h3 | h3 | h3 | h3
        · exact absurd h3.1 (by decide)
        · exact absurd h3.1 (by decide)
        · exact h3.2
        · exact absurd h3.1 (by decide)
      rw [← h4, ← h2]
      exact hm
    · intro cb h
      obtain ⟨en, hm, h2, h3⟩ := key callbackAfterEvent cb (by decide) h
      have h4 : en.1 = after_ ++ event := by
        rcases h3 with h3 | h3 | h3 | h3
        · exact absurd h3.1 (by decide)
        · exact absurd h3.1 (by decide)
        · exact absurd h3.1 (by decide)
        · exact h3.2
      rw [← h4, ← h2]
      exact hm
  · intro name fn m n1 n2 n3 n4 hne hns
    have hne1 : ∀ t, (parseKey (buildTables events) name).1 = t →
        ¬ ((buildTables events).allEvents.get t).isSome = true := by
      intro t ht x
      exact hne (ht ▸ (allEvents_iff events t).1 x)
    have hns1 : ∀ t, (parseKey (buildTables events) name).1 = t →
        ¬ ((buildTables events).allStates.get t).isSome = true := by
      intro t ht x
      exact hns (ht ▸ (allStates_iff events t).1 x)
    have hnone : (parseKey (buildTables events) name).2 = callbackNone := by
      by_cases hr : reservedPrefix name = true
      · simp only [reservedPrefix, Bool.or_eq_true] at hr
        rcases hr with ((hp | hp) | hp) | hp
        · obtain ⟨t, rfl⟩ : ∃ t, name = before_ ++ t := ⟨_, hasPrefix_split _ _ hp⟩
          have ht : t ≠ event := fun e => n1 (by rw [e])
          rw [parseKey_before] at hne1 ⊢
          have hd := hne1 t (by simp [prefixed, ht]; split <;> rfl)
          simp [prefixed, ht, hd]
        · obtain ⟨t, rfl⟩ : ∃ t, name = leave_ ++ t := ⟨_, hasPrefix_split _ _ hp⟩
          have ht : t ≠ state := fun e => n2 (by rw [e])
          rw [parseKey_leave] at hns1 ⊢
          have hd := hns1 t (by simp [prefixed, ht]; split <;> rfl)
          simp [prefixed, ht, hd]
        · obtain ⟨t, rfl⟩ : ∃ t, name = enter_ ++ t := ⟨_, hasPrefix_split _ _ hp⟩
          have ht : t ≠ state := fun e => n3 (by rw [e])
          rw [parseKey_enter] at hns1 ⊢
          have hd := hns1 t (by simp [prefixed, ht]; split <;> rfl)
          simp [prefixed, ht, hd]
        · obtain ⟨t, rfl⟩ : ∃ t, name = after_ ++ t := ⟨_, hasPrefix_split _ _ hp⟩
          have ht : t ≠ event := fun e => n4 (by rw [e])
          rw [parseKey_after] at hne1 ⊢
          have hd := hne1 t (by simp [prefixed, ht]; split <;> rfl)
          simp [prefixed, ht, hd]
      · rw [parseKey_bare _ _ (by simpa using hr)] at hne1 hns1 ⊢
        have hd1 := hns1 name (by split; rfl; split <;> rfl)
        have hd2 := hne1 name (by split; rfl; split <;> rfl)
        simp [hd1, hd2]
    simp [addCallback, hnone]

/-- C30 amended, on two events lists. With the event `go` from `idle` to
`busy`, the callback found for all states was supplied under `enter_state`.
With the event of the empty name that leads from `a` to the empty state, the
key `enter_x`, whose target `x` is neither a state nor an event, leaves the
callback table as it is. -/
theorem wildcard_only_witness :
    (¬ inTable goEvents [] ∧ ¬ isEvent goEvents [] ∧
      EnterCallbackAllStates (NewDefinition [] goEvents [(enter_ ++ state, 3)]) = some 3 ∧
      (enter_ ++ state, (3 : Callback)) ∈ [(enter_ ++ state, (3 : Callback))]) ∧
    (inTable emptyEvents [] ∧ isEvent emptyEvents [] ∧
      ¬ isEvent emptyEvents ['x'] ∧ ¬ inTable emptyEvents ['x'] ∧
      (parseKey (buildTables emptyEvents) (enter_ ++ ['x'])).1 = ['x'] ∧
      addCallback (buildTables emptyEvents) GoMap.empty (enter_ ++ ['x'], 3) = GoMap.empty) :=
  have hs : ¬ inTable goEvents [] := by
    rintro ⟨e, he, _, h⟩
    rw [goEvents, List.mem_singleton] at he
    subst he
    revert h
    decide
  have he : ¬ isEvent goEvents [] := by
    rintro ⟨e, he, h⟩
    rw [goEvents, List.mem_singleton] at he
    subst he
    revert h
    decide
  have hxe : ¬ isEvent emptyEvents ['x'] := by
    rintro ⟨e, he, h⟩
    rw [emptyEvents, List.mem_singleton] at he
    subst he
    revert h
    decide
  have hxs : ¬ inTable emptyEvents ['x'] := by
    rintro ⟨e, he, _, h⟩
    rw [emptyEvents, List.mem_singleton] at he
    subst he
    revert h
    decide
  ⟨⟨hs, he, by decide,
      ((wildcard_only [] goEvents [(enter_ ++ state, 3)]).1 hs he).2.2.1 3 (by decide)⟩,
    ⟨⟨_, List.mem_singleton_self _, by decide, Or.inr rfl⟩,
      ⟨_, List.mem_singleton_self _, rfl⟩, hxe, hxs, by decide,
      (wildcard_only [] emptyEvents []).2 (enter_ ++ ['x']) 3 GoMap.empty
        (by decide) (by decide) (by decide) (by decide) hxe hxs⟩⟩

end statemachine

/-! ## Theorems: the deal loops of the retrieval client and provider -/

namespace retrievalimpl

/-- C28: `CheckDealParams` returns nil exactly when the price is at least
`minPricePerByte`, the interval at most `maxPaymentInterval` and the increase
at most `maxPaymentIntervalIncrease`; the error is that of the first check
that fails, in the order price, interval, increase; and with the limits of a
provider straight after `NewProvider` a proposal with a non-zero payment
interval or increase is rejected. -/
theorem checkDealParams_result (pde : providerDealEnvironment)
    (pricePerByte : storageimpl.TokenAmount) (paymentInterval paymentIntervalIncrease : Nat) :
    (pde.CheckDealParams pricePerByte paymentInterval paymentIntervalIncrease = none ↔
      (pde.minPricePerByte ≤ pricePerByte ∧ paymentInterval ≤ pde.maxPaymentInterval ∧
        paymentIntervalIncrease ≤ pde.maxPaymentIntervalIncrease)) ∧
    (pricePerByte < pde.minPricePerByte →
      pde.CheckDealParams pricePerByte paymentInterval paymentIntervalIncrease =
        some priceTooLow) ∧
    (pde.minPricePerByte ≤ pricePerByte → pde.maxPaymentInterval < paymentInterval →
      pde.CheckDealParams pricePerByte paymentInterval paymentIntervalIncrease =
        some intervalTooLarge) ∧
    (pde.minPricePerByte ≤ pricePerByte → paymentInterval ≤ pde.maxPaymentInterval →
      pde.maxPaymentIntervalIncrease < paymentIntervalIncrease →
      pde.CheckDealParams pricePerByte paymentInterval paymentIntervalIncrease =
        some increaseTooLarge) ∧
    ((newEnvironment NewProvider).CheckDealParams pricePerByte paymentInterval
        paymentIntervalIncrease = none ↔
      (2 ≤ pricePerByte ∧ paymentInterval = 0 ∧ paymentIntervalIncrease = 0)) := by
  have main : ∀ e : providerDealEnvironment,
      (e.CheckDealParams pricePerByte paymentInterval paymentIntervalIncrease = none ↔
        (e.minPricePerByte ≤ pricePerByte ∧ paymentInterval ≤ e.maxPaymentInterval ∧
          paymentIntervalIncrease ≤ e.maxPaymentIntervalIncrease)) ∧
      (pricePerByte < e.minPricePerByte →
        e.CheckDealParams pricePerByte paymentInterval paymentIntervalIncrease =
          some priceTooLow) ∧
      (e.minPricePerByte ≤ pricePerByte → e.maxPaymentInterval < paymentInterval →
        e.CheckDealParams pricePerByte paymentInterval paymentIntervalIncrease =
          some intervalTooLarge) ∧
      (e.minPricePerByte ≤ pricePerByte → paymentInterval ≤ e.maxPaymentInterval →
        e.maxPaymentIntervalIncrease < paymentIntervalIncrease →
        e.CheckDealParams pricePerByte paymentInterval paymentIntervalIncrease =
          some increaseTooLarge) := by
    intro e
    simp only [providerDealEnvironment.CheckDealParams, storageimpl.LessThan,
      decide_eq_true_eq, gt_iff_lt]
    by_cases h1 : pricePerByte < e.minPricePerByte
    · have h1n := not_le.2 h1
      simp [h1, h1n]
    · have h1n := not_lt.1 h1
      by_cases h2 : e.maxPaymentInterval < paymentInterval
      · have h2n := Nat.not_le.2 h2
        simp [h1, h1n, h2, h2n]
      · have h2n := Nat.not_lt.1 h2
        by_cases h3 : e.maxPaymentIntervalIncrease < paymentIntervalIncrease
        · have h3n := Nat.not_le.2 h3
          simp [h1, h1n, h2, h2n, h3, h3n]
        · have h3n := Nat.not_lt.1 h3
          simp [h1, h1n, h2, h2n, h3, h3n]
  obtain ⟨m1, m2, m3, m4⟩ := main pde
  refine ⟨m1, m2, m3, m4, ?_⟩
  rw [(main (newEnvironment NewProvider)).1]
  simp [newEnvironment, NewProvider, storageimpl.FromInt]

/-- C28 on a provider straight after `NewProvider`: the price 2 with interval
and increase zero is accepted, the price 1 is too low whatever the interval,
and the interval 1 is too large at the price 2. -/
theorem checkDealParams_result_witness :
    (newEnvironment NewProvider).CheckDealParams 2 0 0 = none ∧
      ((1 : storageimpl.TokenAmount) < (newEnvironment NewProvider).minPricePerByte ∧
        (newEnvironment NewProvider).CheckDealParams 1 5 5 = some priceTooLow) ∧
      (newEnvironment NewProvider).CheckDealParams 2 1 0 = some intervalTooLarge :=
  ⟨((checkDealParams_result (newEnvironment NewProvider) 2 0 0).2.2.2.2).2
      ⟨by decide, rfl, rfl⟩,
    ⟨by decide, (checkDealParams_result (newEnvironment NewProvider) 1 5 5).2.1 (by decide)⟩,
    (checkDealParams_result (newEnvironment NewProvider) 2 1 0).2.2.1 (by decide) (by decide)⟩

/-- C22: when `blocks.NewBlockWithCid` accepts the CID that `prefix.Sum` has
computed for the data, `ConsumeBlock` hands a block to `bs.Put` exactly when
decoding the prefix, computing the CID and `Verify` all succeed, and that block
has the CID `prefix.Sum(data)` and the data of the frame; every result with an
error is `(0, false, err)`; when one of the three steps fails the result
carries its error and `Put` is not called; and when they succeed and `Put`
returns nil the result is `(len(block.Data), done, nil)` with `done` the
answer of the verifier. -/
theorem consumeBlock_persists_verified (cde : clientDealEnvironment) (block : Block)
    (hnew : ∀ pfx c, cde.PrefixFromBytes block.Prefix = Except.ok pfx →
      cde.Sum pfx block.Data = Except.ok c →
      cde.NewBlockWithCid block.Data c = Except.ok ⟨c, block.Data⟩) :
    ((∃ blk, (cde.ConsumeBlock block).put = some blk) ↔
      ∃ pfx c done, cde.PrefixFromBytes block.Prefix = Except.ok pfx ∧
        cde.Sum pfx block.Data = Except.ok c ∧ cde.Verify ⟨c, block.Data⟩ = (done, none)) ∧
    (∀ err, (cde.ConsumeBlock block).err = some err →
      (cde.ConsumeBlock block).size = 0 ∧ (cde.ConsumeBlock block).done = false) ∧
    (∀ err, cde.PrefixFromBytes block.Prefix = Except.error err →
      cde.ConsumeBlock block = ⟨0, false, some err, none⟩) ∧
    (∀ pfx err, cde.PrefixFromBytes block.Prefix = Except.ok pfx →
      cde.Sum pfx block.Data = Except.error err →
      cde.ConsumeBlock block = ⟨0, false, some err, none⟩) ∧
    (∀ pfx c done err, cde.PrefixFromBytes block.Prefix = Except.ok pfx →
      cde.Sum pfx block.Data = Except.ok c → cde.Verify ⟨c, block.Data⟩ = (done, some err) →
      cde.ConsumeBlock block = ⟨0, false, some err, none⟩) ∧
    (∀ pfx c done, cde.PrefixFromBytes block.Prefix = Except.ok pfx →
      cde.Sum pfx block.Data = Except.ok c → cde.Verify ⟨c, block.Data⟩ = (done, none) →
      (cde.ConsumeBlock block).put = some ⟨c, block.Data⟩ ∧
      (cde.Put ⟨c, block.Data⟩ = none →
        cde.ConsumeBlock block = ⟨block.Data.length, done, none, some ⟨c, block.Data⟩⟩) ∧
      (∀ err, cde.Put ⟨c, block.Data⟩ = some err →
        cde.ConsumeBlock block = ⟨0, false, some err, some ⟨c, block.Data⟩⟩)) := by
  cases h1 : cde.PrefixFromBytes block.Prefix with
  | error e => simp [clientDealEnvironment.ConsumeBlock, h1]
  | ok pfx =>
    cases h2 : cde.Sum pfx block.Data with
    | error e =>
      have hv : cde.ConsumeBlock block = ⟨0, false, some e, none⟩ := by
        simp [clientDealEnvironment.ConsumeBlock, h1, h2]
      rw [hv]
      refine ⟨?_, by simp, by simp, ?_, ?_, ?_⟩
      · constructor
        · rintro ⟨blk, hb⟩
          simp at hb
        · rintro ⟨p1, c1, d1, hp, hs, _⟩
          cases hp
          rw [h2] at hs
          cases hs
      · intro p1 err hp hs
        cases hp
        rw [h2] at hs
        cases hs
        rfl
      · intro p1 c1 d1 err hp hs
        cases hp
        rw [h2] at hs
        cases hs
      · intro p1 c1 d1 hp hs
        cases hp
        rw [h2] at hs
        cases hs
    | ok c =>
      have h3 := hnew pfx c h1 h2
      cases h4 : cde.Verify ⟨c, block.Data⟩ with
      | mk done verr =>
        cases verr with
        | some e =>
          have hv : cde.ConsumeBlock block = ⟨0, false, some e, none⟩ := by
            simp [clientDealEnvironment.ConsumeBlock, h1, h2, h3, h4]
          rw [hv]
          refine ⟨?_, by simp, by simp, ?_, ?_, ?_⟩
          · constructor
            · rintro ⟨blk, hb⟩
              simp at hb
            · rintro ⟨p1, c1, d1, hp, hs, hvf⟩
              cases hp
              rw [h2] at hs
              cases hs
              rw [h4] at hvf
              cases hvf
          · intro p1 err hp hs
            cases hp
            rw [h2] at hs
            cases hs
          · intro p1 c1 d1 err hp hs hvf
            cases hp
            rw [h2] at hs
            cases hs
            rw [h4] at hvf
            cases hvf
            rfl
          · intro p1 c1 d1 hp hs hvf
            cases hp
            rw [h2] at hs
            cases hs
            rw [h4] at hvf
            cases hvf
        | none =>
          have hput : (cde.ConsumeBlock block).put = some ⟨c, block.Data⟩ := by
            simp only [clientDealEnvironment.ConsumeBlock, h1, h2, h3, h4]
            cases cde.Put ⟨c, block.Data⟩ <;> rfl
          have hok : cde.Put ⟨c, block.Data⟩ = none →
              cde.ConsumeBlock block = ⟨block.Data.length, done, none, some ⟨c, block.Data⟩⟩ := by
            intro h5
            simp [clientDealEnvironment.ConsumeBlock, h1, h2, h3, h4, h5]
          have herr : ∀ err, cde.Put ⟨c, block.Data⟩ = some err →
              cde.ConsumeBlock block = ⟨0, false, some err, some ⟨c, block.Data⟩⟩ := by
            intro err h5
            simp [clientDealEnvironment.ConsumeBlock, h1, h2, h3, h4, h5]
          refine ⟨?_, ?_, by simp, ?_, ?_, ?_⟩
          · exact ⟨fun _ => ⟨pfx, c, done, rfl, h2, h4⟩, fun _ => ⟨_, hput⟩⟩
          · intro err he
            cases h5 : cde.Put ⟨c, block.Data⟩ with
            | none => rw [hok h5] at he; simp at he
            | some e => rw [herr e h5]; exact ⟨rfl, rfl⟩
          · intro p1 err hp hs
            cases hp
            rw [h2] at hs
            cases hs
          · intro p1 c1 d1 err hp hs hvf
            cases hp
            rw [h2] at hs
            cases hs
            rw [h4] at hvf
            cases hvf
          · intro p1 c1 d1 hp hs hvf
            cases hp
            rw [h2] at hs
            cases hs
            rw [h4] at hvf
            cases hvf
            exact ⟨hput, hok, herr⟩

/-- C22 on the example calls: the block of the bytes 1, 2, 3 has the CID 6 the
verifier waits for, so it is stored and counted. -/
theorem consumeBlock_persists_verified_witness :
    (∀ pfx c, sumEnvironment.PrefixFromBytes [1] = Except.ok pfx →
      sumEnvironment.Sum pfx [1, 2, 3] = Except.ok c →
      sumEnvironment.NewBlockWithCid [1, 2, 3] c = Except.ok ⟨c, [1, 2, 3]⟩) ∧
      sumEnvironment.ConsumeBlock ⟨[1], [1, 2, 3]⟩ = ⟨3, true, none, some ⟨6, [1, 2, 3]⟩⟩ ∧
      ∃ blk, (sumEnvironment.ConsumeBlock ⟨[1], [1, 2, 3]⟩).put = some blk :=
  ⟨fun _ _ _ _ => rfl, rfl,
    (consumeBlock_persists_verified sumEnvironment ⟨[1], [1, 2, 3]⟩
      (fun _ _ _ _ => rfl)).1.2 ⟨⟨1, 0, 0, 0⟩, 6, true, rfl, rfl, rfl⟩⟩

theorem providerLoop_reader {W : Type} (c : DealStatuses) (handlers : ProviderHandlers W)
    (r : BlockReader) :
    ∀ (fuel : Nat) (environment : providerDealEnvironment) (w : W) (ds : ProviderDealState),
      environment.br = some r →
      ∀ e ∈ provider.dealLoop c handlers fuel environment w ds,
        (∀ root, e ≠ ProviderEffect.NewSelectorBlockReader root) ∧
        ∀ h env d, e = ProviderEffect.handler h env d → env = environment := by
  intro fuel
  induction fuel with
  | zero => intro environment w ds _ e he; simp [provider.dealLoop] at he
  | succ n ih =>
    intro environment w ds hbr e he
    unfold provider.dealLoop at he
    split at he
    · simp only [List.mem_cons, List.mem_singleton, List.not_mem_nil, or_false] at he
      rcases he with he | he <;> subst he <;> simp
    · rename_i handler _
      simp only [List.mem_cons] at he
      rcases he with he | he
      · subst he
        simp
      · split at he
        · split at he
          · simp only [List.mem_cons, List.mem_singleton, List.not_mem_nil, or_false] at he
            rcases he with he | he <;> subst he <;> simp
          · simp only [List.mem_cons, List.mem_singleton, List.not_mem_nil, or_false] at he
            rcases he with he | he <;> subst he <;> simp
        · rw [hbr] at he
          simp only [List.mem_cons] at he
          rcases he with he | he
          · subst he
            simp
          · exact ih environment _ _ hbr e he

/-- C25: in every run of `HandleDealStream`, after the notification of the
opening the first effect is the call of `ReceiveDeal` with an environment that
has no block reader, on which `NextBlock` returns the error "Could not read
block"; when the deal is terminal after this first step, no reader is created
and no other handler runs; when it is not, the reader for the `PayloadCID` of
the deal is created next, no later effect creates a reader, and every later
handler runs with this reader in its environment, so `NextBlock` reads from it. -/
theorem handleDealStream_reader {W : Type} (c : DealStatuses) (handlers : ProviderHandlers W)
    (p : provider) (fuel : Nat) (w : W)
    (ReadBlock : BlockReader → Block × Bool × Option GoString) :
    ∃ rest, provider.HandleDealStream c handlers p (fuel + 1) w =
        ProviderEffect.notifySubscribers ProviderEvent.ProviderEventOpen (newDealState c) ::
          ProviderEffect.handler ProviderHandler.ReceiveDeal (newEnvironment p)
            (newDealState c) :: rest ∧
      (newEnvironment p).br = none ∧
      (newEnvironment p).NextBlock ReadBlock = (⟨[], []⟩, false, some couldNotReadBlock) ∧
      (c.IsTerminalStatus (handlers ProviderHandler.ReceiveDeal (newEnvironment p) w
          (newDealState c)).2.Status = true →
        ∀ e ∈ rest, (∀ root, e ≠ ProviderEffect.NewSelectorBlockReader root) ∧
          ∀ h env d, e ≠ ProviderEffect.handler h env d) ∧
      (c.IsTerminalStatus (handlers ProviderHandler.ReceiveDeal (newEnvironment p) w
          (newDealState c)).2.Status = false →
        ∃ rest1, rest = ProviderEffect.NewSelectorBlockReader
            ⟨(handlers ProviderHandler.ReceiveDeal (newEnvironment p) w
              (newDealState c)).2.PayloadCID⟩ :: rest1 ∧
          ∀ e ∈ rest1, (∀ root, e ≠ ProviderEffect.NewSelectorBlockReader root) ∧
            ∀ h env d, e = ProviderEffect.handler h env d →
              env.br = some ⟨⟨(handlers ProviderHandler.ReceiveDeal (newEnvironment p) w
                (newDealState c)).2.PayloadCID⟩⟩ ∧
              env.NextBlock ReadBlock = ReadBlock
                ⟨⟨(handlers ProviderHandler.ReceiveDeal (newEnvironment p) w
                  (newDealState c)).2.PayloadCID⟩⟩) := by
  have hh : providerHandlerFor c (newDealState c).Status = some ProviderHandler.ReceiveDeal := by
    simp [providerHandlerFor, newDealState]
  unfold provider.HandleDealStream provider.dealLoop
  simp only [hh]
  refine ⟨_, rfl, rfl, rfl, ?_, ?_⟩
  · intro ht e he
    rw [if_pos ht] at he
    split at he
    · simp only [List.mem_cons, List.mem_singleton, List.not_mem_nil, or_false] at he
      rcases he with he | he <;> subst he <;> simp
    · simp only [List.mem_cons, List.mem_singleton, List.not_mem_nil, or_false] at he
      rcases he with he | he <;> subst he <;> simp
  · intro ht
    have hn : ¬ c.IsTerminalStatus (handlers ProviderHandler.ReceiveDeal (newEnvironment p) w
        (newDealState c)).2.Status = true := by simp [ht]
    rw [if_neg hn]
    refine ⟨_, rfl, ?_⟩
    intro e he
    simp only [List.mem_cons] at he
    rcases he with he | he
    · subst he
      simp
    · have := providerLoop_reader c handlers
        ⟨⟨(handlers ProviderHandler.ReceiveDeal (newEnvironment p) w
          (newDealState c)).2.PayloadCID⟩⟩ fuel _ _ _ rfl e he
      refine ⟨this.1, ?_⟩
      intro h env d hed
      have henv := this.2 h env d hed
      subst henv
      exact ⟨rfl, rfl⟩

/-- C25 on the example handlers, a deal for the payload 5: `ReceiveDeal` runs
without a reader, the reader for the payload 5 is created after it, and
`SendBlocks` and `ProcessPayment` run with this reader. -/
theorem handleDealStream_reader_witness :
    statuses.IsTerminalStatus (stepProvider ProviderHandler.ReceiveDeal
        (newEnvironment NewProvider) () (newDealState statuses)).2.Status = false ∧
      provider.HandleDealStream statuses stepProvider NewProvider 4 () =
        [ProviderEffect.notifySubscribers ProviderEvent.ProviderEventOpen ⟨0, 0, 0, [], 0⟩,
          ProviderEffect.handler ProviderHandler.ReceiveDeal ⟨none, 2, 0, 0⟩ ⟨0, 0, 0, [], 0⟩,
          ProviderEffect.NewSelectorBlockReader ⟨5⟩,
          ProviderEffect.notifySubscribers ProviderEvent.ProviderEventProgress
            ⟨1, 0, 0, [], 5⟩,
          ProviderEffect.handler ProviderHandler.SendBlocks ⟨some ⟨⟨5⟩⟩, 2, 0, 0⟩
            ⟨1, 0, 0, [], 5⟩,
          ProviderEffect.notifySubscribers ProviderEvent.ProviderEventProgress
            ⟨6, 0, 0, [], 5⟩,
          ProviderEffect.handler ProviderHandler.ProcessPayment ⟨some ⟨⟨5⟩⟩, 2, 0, 0⟩
            ⟨6, 0, 0, [], 5⟩,
          ProviderEffect.notifySubscribers ProviderEvent.ProviderEventComplete
            ⟨8, 0, 0, [], 5⟩,
          ProviderEffect.Close] ∧
      ∃ rest, provider.HandleDealStream statuses stepProvider NewProvider (3 + 1) () =
          ProviderEffect.notifySubscribers ProviderEvent.ProviderEventOpen
              (newDealState statuses) ::
            ProviderEffect.handler ProviderHandler.ReceiveDeal (newEnvironment NewProvider)
              (newDealState statuses) :: rest ∧
        ∃ rest1, rest = ProviderEffect.NewSelectorBlockReader ⟨5⟩ :: rest1 ∧
          ∀ e ∈ rest1, ∀ root, e ≠ ProviderEffect.NewSelectorBlockReader root :=
  ⟨by decide, by decide,
    (handleDealStream_reader statuses stepProvider NewProvider 3 ()
      (fun _ => (⟨[], []⟩, true, none))).imp fun _ hp =>
        ⟨hp.1, (hp.2.2.2.2 (by decide)).imp fun _ hq => ⟨hq.1, fun e he => (hq.2 e he).1⟩⟩⟩

theorem clientHandlerFor_none (c : DealStatuses) (s : DealStatus) :
    clientHandlerFor c s = none ↔
      (s ≠ c.DealStatusNew ∧ s ≠ c.DealStatusAccepted ∧ s ≠ c.DealStatusPaymentChannelCreated ∧
        s ≠ c.DealStatusOngoing ∧ s ≠ c.DealStatusUnsealing ∧ s ≠ c.DealStatusFundsNeeded ∧
        s ≠ c.DealStatusFundsNeededLastPayment) := by
  unfold clientHandlerFor
  constructor
  · intro h
    split at h
    · simp at h
    · split at h
      · simp at h
      · split at h
        · simp at h
        · split at h
          · simp at h
          · tauto
  · intro ⟨h1, h2, h3, h4, h5, h6, h7⟩
    simp [h1, h2, h3, h4, h5, h6, h7]

theorem clientLoop_events {W : Type} (c : DealStatuses) (handlers : ClientHandlers W) :
    ∀ (fuel : Nat) (w : W) (ds : ClientDealState) (evs : List (ClientEvent × ClientDealState)),
      client.dealLoop c handlers fuel w ds = some evs →
      ∃ progress final, evs = progress ++ [final] ∧
        (∀ e ∈ progress, e.1 = ClientEvent.ClientEventProgress ∧
          c.IsTerminalStatus e.2.Status = false) ∧
        ((final.1 = ClientEvent.ClientEventComplete ∧ c.IsTerminalStatus final.2.Status = true ∧
            c.IsTerminalSuccess final.2.Status = true) ∨
          (final.1 = ClientEvent.ClientEventError ∧ c.IsTerminalStatus final.2.Status = true ∧
            c.IsTerminalSuccess final.2.Status = false) ∨
          (final.1 = ClientEvent.ClientEventError ∧
            final.2.Status = c.DealStatusFailed ∧ final.2.Message = unexpectedDealState)) ∧
        (∀ d ∈ ds :: progress.map Prod.snd, clientHandlerFor c d.Status = none →
          final = (ClientEvent.ClientEventError, client.failDeal c d unexpectedDealState)) := by
  intro fuel
  induction fuel with
  | zero => intro w ds evs h; simp [client.dealLoop] at h
  | succ n ih =>
    intro w ds evs h
    unfold client.dealLoop at h
    split at h
    · rename_i hnone
      simp only [Option.some.injEq] at h
      subst h
      refine ⟨[], _, rfl, by simp, Or.inr (Or.inr ⟨rfl, rfl, rfl⟩), ?_⟩
      intro d hd _
      simp only [List.map_nil, List.mem_singleton] at hd
      subst hd
      rfl
    · rename_i handler hsome
      by_cases ht : c.IsTerminalStatus (handlers handler w ds).2.Status = true
      · simp only [] at h
        rw [if_pos ht] at h
        by_cases hs : c.IsTerminalSuccess (handlers handler w ds).2.Status = true
        · rw [if_pos hs] at h
          simp only [Option.some.injEq] at h
          subst h
          refine ⟨[], _, rfl, by simp, Or.inl ⟨rfl, ht, hs⟩, ?_⟩
          intro d hd hn
          simp only [List.map_nil, List.mem_singleton] at hd
          subst hd
          rw [hn] at hsome
          exact absurd hsome (by simp)
        · rw [if_neg hs] at h
          simp only [Option.some.injEq] at h
          subst h
          refine ⟨[], _, rfl, by simp, Or.inr (Or.inl ⟨rfl, ht, by simpa using hs⟩), ?_⟩
          intro d hd hn
          simp only [List.map_nil, List.mem_singleton] at hd
          subst hd
          rw [hn] at hsome
          exact absurd hsome (by simp)
      · simp only [] at h
        rw [if_neg ht] at h
        cases hrec : client.dealLoop c handlers n (handlers handler w ds).1
            (handlers handler w ds).2 with
        | none => rw [hrec] at h; simp at h
        | some evs1 =>
          rw [hrec] at h
          simp only [Option.map_some', Option.some.injEq] at h
          subst h
          obtain ⟨progress, final, e1, e2, e3, e4⟩ := ih _ _ _ hrec
          refine ⟨(ClientEvent.ClientEventProgress, (handlers handler w ds).2) :: progress,
            final, by rw [e1]; rfl, ?_, e3, ?_⟩
          · intro e he
            simp only [List.mem_cons] at he
            rcases he with he | he
            · subst he
              exact ⟨rfl, by simpa using ht⟩
            · exact e2 e he
          · intro d hd hn
            simp only [List.map_cons, List.mem_cons] at hd
            rcases hd with hd | hd
            · subst hd
              rw [hn] at hsome
              exact absurd hsome (by simp)
            · exact e4 d (by simpa using hd) hn

/-- C29: when `IsTerminalSuccess` does not hold of the status `Failed`, every
run of `handleDeal` that ends notifies `ClientEventOpen` with the deal as it
was handed over, then a number of `ClientEventProgress`, none with a terminal
status, then one last event; the last event is `ClientEventComplete` when the
status it carries is a terminal success and `ClientEventError` when it is not;
a stream that does not open ends the deal as failed with the error of the
network as its message; and a deal that comes to the `switch` with a status
other than `New`, `Accepted`, `PaymentChannelCreated`, `Ongoing`, `Unsealing`,
`FundsNeeded` and `FundsNeededLastPayment` ends with the status `Failed` and
the message "unexpected deal state". -/
theorem handleDeal_events {W : Type} (c : DealStatuses) (handlers : ClientHandlers W)
    (NewDealStream : storageimpl.PeerID → Option GoString) (fuel : Nat) (w : W)
    (ds : ClientDealState) (evs : List (ClientEvent × ClientDealState))
    (hf : c.IsTerminalSuccess c.DealStatusFailed = false)
    (h : client.handleDeal c handlers NewDealStream fuel w ds = some evs) :
    ∃ progress final,
      evs = (ClientEvent.ClientEventOpen, ds) :: (progress ++ [final]) ∧
      (∀ e ∈ progress, e.1 = ClientEvent.ClientEventProgress ∧
        c.IsTerminalStatus e.2.Status = false) ∧
      (final.1 = ClientEvent.ClientEventComplete ∨ final.1 = ClientEvent.ClientEventError) ∧
      (final.1 = ClientEvent.ClientEventComplete ↔
        c.IsTerminalSuccess final.2.Status = true) ∧
      (∀ err, NewDealStream ds.Sender = some err →
        progress = [] ∧ final = (ClientEvent.ClientEventError, client.failDeal c ds err) ∧
        final.2.Status = c.DealStatusFailed ∧ final.2.Message = err) ∧
      (NewDealStream ds.Sender = none →
        ∀ d ∈ ds :: progress.map Prod.snd,
          (d.Status ≠ c.DealStatusNew ∧ d.Status ≠ c.DealStatusAccepted ∧
            d.Status ≠ c.DealStatusPaymentChannelCreated ∧ d.Status ≠ c.DealStatusOngoing ∧
            d.Status ≠ c.DealStatusUnsealing ∧ d.Status ≠ c.DealStatusFundsNeeded ∧
            d.Status ≠ c.DealStatusFundsNeededLastPayment) →
          final = (ClientEvent.ClientEventError, client.failDeal c d unexpectedDealState) ∧
          final.2.Status = c.DealStatusFailed ∧ final.2.Message = unexpectedDealState) := by
  unfold client.handleDeal at h
  cases hs : NewDealStream ds.Sender with
  | some err =>
    rw [hs] at h
    simp only [Option.some.injEq] at h
    subst h
    refine ⟨[], (ClientEvent.ClientEventError, client.failDeal c ds err), rfl, by simp,
      Or.inr rfl, ?_, ?_, by simp⟩
    · simp [client.failDeal, hf]
    · intro e he
      simp only [Option.some.injEq] at he
      subst he
      exact ⟨rfl, rfl, rfl, rfl⟩
  | none =>
    rw [hs] at h
    cases hl : client.dealLoop c handlers fuel w ds with
    | none => rw [hl] at h; simp at h
    | some evs1 =>
      rw [hl] at h
      simp only [Option.map_some', Option.some.injEq] at h
      subst h
      obtain ⟨progress, final, e1, e2, e3, e4⟩ := clientLoop_events c handlers fuel w ds evs1 hl
      refine ⟨progress, final, by rw [e1], e2, ?_, ?_, by simp, ?_⟩
      · rcases e3 with e3 | e3 | e3
        · exact Or.inl e3.1
        · exact Or.inr e3.1
        · exact Or.inr e3.1
      · rcases e3 with e3 | e3 | e3
        · simp [e3.1, e3.2.2]
        · simp [e3.1, e3.2.2]
        · simp [e3.1, e3.2.1, hf]
      · intro _ d hd hn
        have := e4 d hd ((clientHandlerFor_none c d.Status).2 hn)
        subst this
        exact ⟨rfl, rfl, rfl⟩

/-- C29 on the example handlers: a deal that starts as new runs to the success. -/
theorem handleDeal_events_witness :
    statuses.IsTerminalSuccess statuses.DealStatusFailed = false ∧
      client.handleDeal statuses stepClient (fun _ => none) 5 () ⟨0, [], 1, 5, 0⟩ =
        some [(ClientEvent.ClientEventOpen, ⟨0, [], 1, 5, 0⟩),
          (ClientEvent.ClientEventProgress, ⟨1, [], 1, 5, 0⟩),
          (ClientEvent.ClientEventProgress, ⟨2, [], 1, 5, 0⟩),
          (ClientEvent.ClientEventProgress, ⟨3, [], 1, 5, 0⟩),
          (ClientEvent.ClientEventComplete, ⟨8, [], 1, 5, 0⟩)] ∧
      ∃ progress final,
        [(ClientEvent.ClientEventOpen, (⟨0, [], 1, 5, 0⟩ : ClientDealState)),
          (ClientEvent.ClientEventProgress, ⟨1, [], 1, 5, 0⟩),
          (ClientEvent.ClientEventProgress, ⟨2, [], 1, 5, 0⟩),
          (ClientEvent.ClientEventProgress, ⟨3, [], 1, 5, 0⟩),
          (ClientEvent.ClientEventComplete, ⟨8, [], 1, 5, 0⟩)] =
            (ClientEvent.ClientEventOpen, ⟨0, [], 1, 5, 0⟩) :: (progress ++ [final]) ∧
        (∀ e ∈ progress, e.1 = ClientEvent.ClientEventProgress ∧
          statuses.IsTerminalStatus e.2.Status = false) ∧
        (final.1 = ClientEvent.ClientEventComplete ∨ final.1 = ClientEvent.ClientEventError) ∧
        (final.1 = ClientEvent.ClientEventComplete ↔
          statuses.IsTerminalSuccess final.2.Status = true) :=
  ⟨by decide, by decide,
    (handleDeal_events statuses stepClient (fun _ => none) 5 () ⟨0, [], 1, 5, 0⟩ _
      (by decide) (by decide)).imp fun _ hp => hp.imp fun _ hq =>
        ⟨hq.1, hq.2.1, hq.2.2.1, hq.2.2.2.1⟩⟩

end retrievalimpl

/-! ## Theorems: the verifier under a cancelled context -/

namespace blockio

/-- C27, the failing input: the first `Verify` of a fresh verifier, for any
root and any block, under a context that is cancelled already, in the run in
which the `select` of `Start` takes the case `<-ctx.Done()`. No token is sent
and no walk is started, so `IsComplete` answers false, `CurrentRequest`
returns the nil link, and the type assertion panics; the traverser is left
without a link. -/
theorem verify_cancelled_panics (root : Link) (blk : Block) :
    VerifyCancelled (NewSelectorVerifier root) blk =
      (⟨root, some (NewTraverser root)⟩, Outcome.panicked) ∧
    (IsCompleteCancelled (StartCancelled (NewTraverser root))).2 = false ∧
    (CurrentRequestCancelled (StartCancelled (NewTraverser root))).2.1 = none :=
  ⟨rfl, rfl, rfl⟩

end blockio

/-! ## Theorems: the files of `verifydata` -/

namespace storageimpl

/-- C24, the failing input: the deal proposes the empty commitment and
`GeneratePieceCommitment` computes `[1]` for the piece it has written to the
file `f`; `verifydata` returns the error of the mismatch, and the file `f` is
still held by the filestore, and still open. -/
theorem verifydata_leaves_file :
    cheapDeal.Proposal.PieceRef = [] ∧
      verifydataFiles tempPieceIO cheapDeal ⟨[], []⟩ =
        (⟨[['f']], [['f']]⟩, Except.error VerifyDataError.commPMismatch) ∧
      ['f'] ∈ (verifydataFiles tempPieceIO cheapDeal ⟨[], []⟩).1.stored ∧
      ['f'] ∈ (verifydataFiles tempPieceIO cheapDeal ⟨[], []⟩).1.opened :=
  ⟨rfl, rfl, by decide, by decide⟩

end storageimpl

/-! ## Theorems: the piece of a payload -/

namespace pieceio

theorem firstRung_spec (ladder : Nat → Nat) (size : Nat) :
    ∀ (fuel k : Nat), (∀ j, j < k → ladder j < size) → size ≤ ladder (k + fuel) →
      size ≤ ladder (firstRung ladder size fuel k) ∧
        ∀ j, j < firstRung ladder size fuel k → ladder j < size := by
  intro fuel
  induction fuel with
  | zero =>
    intro k hb hk
    exact ⟨by simpa [firstRung] using hk, by simpa [firstRung] using hb⟩
  | succ n ih =>
    intro k hb hk
    unfold firstRung
    by_cases h : size ≤ ladder k
    · rw [if_pos h]
      exact ⟨h, hb⟩
    · rw [if_neg h]
      refine ih (k + 1) ?_ ?_
      · intro j hj
        rcases Nat.lt_succ_iff_lt_or_eq.1 hj with hj | hj
        · exact hb j hj
        · rw [hj]
          exact Nat.lt_of_not_le h
      · rw [show k + 1 + n = k + (n + 1) by omega]
        exact hk

theorem paddedSize_smallest (ladder : Nat → Nat) (size : Nat) (hl : StrictMono ladder) :
    (∃ k, PaddedSize ladder size = ladder k) ∧ size ≤ PaddedSize ladder size ∧
      ∀ k, size ≤ ladder k → PaddedSize ladder size ≤ ladder k := by
  have h0 : size ≤ ladder (0 + size) := by
    rw [Nat.zero_add]
    exact hl.id_le size
  obtain ⟨h1, h2⟩ := firstRung_spec ladder size size 0 (fun j hj => absurd hj (Nat.not_lt_zero j)) h0
  refine ⟨⟨_, rfl⟩, h1, ?_⟩
  intro k hk
  by_cases hlt : k < firstRung ladder size size 0
  · exact absurd hk (Nat.not_le.2 (h2 k hlt))
  · exact hl.monotone (Nat.le_of_not_lt hlt)

theorem readFrame_frame (payload rest : List Nat) :
    readFrame (frame payload ++ rest) = some (payload, rest) := by
  simp [frame, readFrame]

theorem readBlocks_encodeBlocks :
    ∀ (bs : List Block) (fuel : Nat), (encodeBlocks bs).length ≤ fuel →
      readBlocks fuel (encodeBlocks bs) = some bs := by
  intro bs
  induction bs with
  | nil =>
    intro fuel _
    cases fuel <;> rfl
  | cons b bs ih =>
    intro fuel hf
    have hlen : (encodeBlocks (b :: bs)).length =
        (encodeBlocks bs).length + (b.data.length + 2) := by
      simp [encodeBlocks, encodeBlock, frame]
      omega
    cases fuel with
    | zero => rw [hlen] at hf; omega
    | succ n =>
      have hcons : encodeBlocks (b :: bs) =
          (b.data.length + 1) :: (b.cid :: b.data ++ encodeBlocks bs) := by
        simp [encodeBlocks, encodeBlock, frame]
      have hfr : readFrame ((b.data.length + 1) :: (b.cid :: b.data ++ encodeBlocks bs)) =
          some (b.cid :: b.data, encodeBlocks bs) := by
        have := readFrame_frame (b.cid :: b.data) (encodeBlocks bs)
        simpa [frame] using this
      rw [hcons]
      unfold readBlocks
      rw [hfr]
      simp only []
      rw [ih n (by rw [hlen] at hf; omega)]
      rfl

theorem loadCar_writeCar (pio : pieceIO) (payloadCid : Cid) (selector : Selector)
    (archive : List Nat) (h : WriteCar pio payloadCid selector = Except.ok archive) :
    ∃ bs, pio.blocks payloadCid selector = Except.ok bs ∧
      archive = encodeHeader payloadCid ++ encodeBlocks bs ∧
      LoadCar archive = Except.ok (payloadCid, bs) := by
  unfold WriteCar at h
  cases hb : pio.blocks payloadCid selector with
  | error e => rw [hb] at h; cases h
  | ok bs =>
    rw [hb] at h
    have ha : archive = encodeHeader payloadCid ++ encodeBlocks bs := (Except.ok.inj h).symm
    refine ⟨bs, rfl, ha, ?_⟩
    rw [ha]
    unfold LoadCar encodeHeader
    rw [readFrame_frame]
    simp only []
    rw [readBlocks_encodeBlocks bs _ (Nat.le_refl _)]

/-- C21: for a ladder of accepted sizes that grows from rung to rung, every
success of `GeneratePieceCommitment` returns a file that holds the canonical
archive of the root under the selector, the header of the root and the frames
of the blocks of the walk, followed by zero bytes only; the length of the file
is an accepted size, it is at least the length of the archive, and no accepted
size that holds the archive is smaller; and `ReadPiece` on the first bytes of
the file, as many as the archive has, returns the root. -/
theorem generatePieceCommitment_file (pio : pieceIO) (payloadCid : Cid) (selector : Selector)
    (commitment : List Nat) (file : File) (hl : StrictMono pio.ladder)
    (h : (GeneratePieceCommitment pio payloadCid selector).1 = Except.ok (commitment, file)) :
    ∃ archive, WriteCar pio payloadCid selector = Except.ok archive ∧
      file.content = archive ++ List.replicate (file.content.length - archive.length) 0 ∧
      (∃ k, file.content.length = pio.ladder k) ∧
      archive.length ≤ file.content.length ∧
      (∀ k, archive.length ≤ pio.ladder k → file.content.length ≤ pio.ladder k) ∧
      ReadPiece (file.content.take archive.length) = Except.ok payloadCid := by
  unfold GeneratePieceCommitment at h
  cases h1 : pio.CreateTemp with
  | error e => rw [h1] at h; simp at h
  | ok path =>
    cases h2 : WriteCar pio payloadCid selector with
    | error e => rw [h1] at h; simp [h2] at h
    | ok archive =>
      obtain ⟨p1, p2, p3⟩ := paddedSize_smallest pio.ladder archive.length hl
      cases h3 : pio.WritePadding (PaddedSize pio.ladder archive.length - archive.length) with
      | error e => rw [h1] at h; simp [h2, h3] at h
      | ok written =>
        by_cases h4 : written = PaddedSize pio.ladder archive.length - archive.length
        · cases h5 : pio.Seek with
          | some e => rw [h1] at h; simp [h2, h3, h4, h5] at h
          | none =>
            cases h6 : pio.Commitment
                (archive ++ List.replicate
                  (PaddedSize pio.ladder archive.length - archive.length) 0)
                (PaddedSize pio.ladder archive.length) with
            | error e =>
              rw [h1] at h
              simp only [h2, h3] at h
              rw [if_neg (by simpa using h4)] at h
              simp [h4, h5, h6] at h
            | ok cm =>
              rw [h1] at h
              simp only [h2, h3] at h
              rw [if_neg (by simpa using h4)] at h
              simp only [h4, h5, h6, Except.ok.injEq, Prod.mk.injEq] at h
              obtain ⟨_, hfile⟩ := h
              subst hfile
              have hlen : (archive ++ List.replicate
                  (PaddedSize pio.ladder archive.length - archive.length) 0).length =
                  PaddedSize pio.ladder archive.length := by
                rw [List.length_append, List.length_replicate]
                omega
              obtain ⟨bs, _, _, hload⟩ := loadCar_writeCar pio payloadCid selector archive h2
              refine ⟨archive, rfl, ?_, ?_, ?_, ?_, ?_⟩
              · simp only [hlen]
              · simp only [hlen]
                exact p1
              · simp only [hlen]
                exact p2
              · simp only [hlen]
                exact p3
              · simp only [ReadPiece, List.take_left', hload]
        · rw [h1] at h
          simp only [h2, h3] at h
          rw [if_pos (by simpa using h4)] at h
          simp at h

theorem exampleLadder_strictMono : StrictMono examplePieceIO.ladder := by
  refine strictMono_nat_of_lt_succ ?_
  intro n
  show 4 * 2 ^ n < 4 * 2 ^ (n + 1)
  have : 0 < 2 ^ n := Nat.pow_pos (by decide)
  rw [pow_succ]
  omega

/-- C21 on the example piece IO: the archive of the root 9 is the header 1, 9
and the frame 3, 9, 7, 7 of its block, six bytes, and the file holds it with
two zero bytes up to the accepted size 8; the whole file is no archive, its
first six bytes are the archive of the root 9. -/
theorem generatePieceCommitment_file_witness :
    (GeneratePieceCommitment examplePieceIO 9 0).1 =
        Except.ok ([1, 8], ⟨['t'], [1, 9, 3, 9, 7, 7, 0, 0]⟩) ∧
      ReadPiece [1, 9, 3, 9, 7, 7, 0, 0] = Except.error invalidArchive ∧
      ReadPiece [1, 9, 3, 9, 7, 7] = Except.ok 9 ∧
      ∃ archive, WriteCar examplePieceIO 9 0 = Except.ok archive ∧
        (⟨['t'], [1, 9, 3, 9, 7, 7, 0, 0]⟩ : File).content = archive ++ List.replicate
          ((⟨['t'], [1, 9, 3, 9, 7, 7, 0, 0]⟩ : File).content.length - archive.length) 0 ∧
        (∃ k, (⟨['t'], [1, 9, 3, 9, 7, 7, 0, 0]⟩ : File).content.length =
          examplePieceIO.ladder k) ∧
        archive.length ≤ (⟨['t'], [1, 9, 3, 9, 7, 7, 0, 0]⟩ : File).content.length ∧
        (∀ k, archive.length ≤ examplePieceIO.ladder k →
          (⟨['t'], [1, 9, 3, 9, 7, 7, 0, 0]⟩ : File).content.length ≤
            examplePieceIO.ladder k) ∧
        ReadPiece ((⟨['t'], [1, 9, 3, 9, 7, 7, 0, 0]⟩ : File).content.take archive.length) =
          Except.ok 9 :=
  ⟨rfl, rfl, rfl, generatePieceCommitment_file examplePieceIO 9 0 [1, 8]
    ⟨['t'], [1, 9, 3, 9, 7, 7, 0, 0]⟩ exampleLadder_strictMono rfl⟩

end pieceio

end Markets
